import Mathlib

/-!
Verification of the mist-ts template parser and its fragment/source-map
engine. The definitions below are a shallow embedding of the TypeScript
sources (src/parser/tsCode.ts, src/parser/statement.ts, position.ts,
expression.ts, safeString.ts). Strings are modelled as lists of
characters; the mutable parser cursor is an explicit state value; thrown
ParserError exceptions are modelled with Except; the recursive parsing
loops take an explicit fuel argument (a distinguished fuelExhausted error
marks running out of fuel, which the termination theorem rules out).
-/

namespace Mist

/-- Immutable half-open byte range plus the line number of its start
(position.ts, class PositionRange). The source field named end is called
stop here because end is a Lean keyword. -/
structure PositionRange where
  start : Nat
  lineStart : Nat
  stop : Nat
deriving DecidableEq, Repr

/-- A raw host-language code snippet with its source position
(expression.ts, class TsCodeExpression). -/
structure TsCodeExpression where
  position : PositionRange
  value : List Char
deriving DecidableEq, Repr

/-- The tag enum of statement.ts (enum StatementName). -/
inductive StatementName where
  | TextStatement
  | InlineTsCodeStatement
  | InlineSafeTsCodeStatement
  | EachStatement
  | EndStatement
  | IfStatement
  | ElseIfStatement
  | ElseStatement
  | LetStatement
  | AssignStatement
  | ParamStatement
  | ImportStatement
  | DefineSlotStatement
  | ComponentStatement
  | ComponentMainSlotStatement
  | ComponentSlotStatement
deriving DecidableEq, Repr

/-- One source-map triple (tsCode.ts, interface MapItem). -/
structure MapItem where
  sourceOffset : Nat
  generatedOffset : Nat
  length : Nat
deriving DecidableEq, Repr

/-- A fragment node (tsCode.ts, class TsCode): source offset, the
should-be-mapped flag, the splice offset into the parent literal, ordered
child fragments and the local literal text. -/
inductive TsCode where
  | mk (sourceOffset : Nat) (shouldBeMapped : Bool) (parentOffset : Nat)
       (children : List TsCode) (literal : List Char)

def TsCode.sourceOffset : TsCode → Nat
  | .mk so _ _ _ _ => so

def TsCode.shouldBeMapped : TsCode → Bool
  | .mk _ m _ _ _ => m

def TsCode.parentOffset : TsCode → Nat
  | .mk _ _ po _ _ => po

def TsCode.children : TsCode → List TsCode
  | .mk _ _ _ ch _ => ch

def TsCode.literal : TsCode → List Char
  | .mk _ _ _ _ lit => lit

/-- Overwriting the parent offset, as done by the fragment builder
(tsCode.ts line 104 and the parentOffset setter). -/
def TsCode.setParentOffset : TsCode → Nat → TsCode
  | .mk so m _ ch lit, po => .mk so m po ch lit

/-- JavaScript String.prototype.slice with nonnegative arguments: the
characters from index a (clamped) up to index b (clamped), empty when
a is at least b. -/
def jsSlice (l : List Char) (a b : Nat) : List Char :=
  (l.take b).drop a

mutual

/-- Flattening a fragment tree to its source map and generated text
(tsCode.ts, TsCode.toMappedString). -/
def TsCode.toMappedString : TsCode → List MapItem × List Char
  | .mk _ _ _ children lit => TsCode.mappedLoop children lit 0 [] []

/-- The loop body of toMappedString: walks the children in order carrying
the last literal index, the generated text so far and the map entries so
far. -/
def TsCode.mappedLoop :
    List TsCode → List Char → Nat → List Char → List MapItem →
    List MapItem × List Char
  | [], lit, lastIdx, gen, maps => (maps, gen ++ lit.drop lastIdx)
  | c :: cs, lit, lastIdx, gen, maps =>
      let gen1 := gen ++ jsSlice lit lastIdx c.parentOffset
      let r := TsCode.toMappedString c
      let maps1 :=
        if c.shouldBeMapped then
          maps ++ [⟨c.sourceOffset, gen1.length, r.2.length⟩]
        else maps
      let maps2 := maps1 ++ r.1.map
        (fun m => ⟨m.sourceOffset, gen1.length + m.generatedOffset, m.length⟩)
      TsCode.mappedLoop cs lit c.parentOffset (gen1 ++ r.2) maps2
end

/-- Fragment of a raw expression (expression.ts, TsCodeExpression.toTsCode):
a mapped leaf whose literal is the raw snippet and whose source offset is
the start of the snippet position. -/
def TsCodeExpression.toTsCode (e : TsCodeExpression) : TsCode :=
  .mk e.position.start true 0 [] e.value

/-- The builder loop of TsCode.builder (tsCode.ts lines 88-108): walks the
interleaved literal pieces and candidate children, skipping children that
contribute nothing and stamping each surviving child with the cumulative
literal length above it. -/
def builderLoop : List (List Char) → List (Option TsCode) → Nat → List TsCode
  | _, [], _ => []
  | lits, c :: cs, acc =>
      let lit := lits.headD []
      let acc1 := acc + lit.length
      match c with
      | none => builderLoop lits.tail cs acc1
      | some t => t.setParentOffset acc1 :: builderLoop lits.tail cs acc1

/-- TsCode.builder (tsCode.ts lines 84-116): composes literal pieces and
candidate child fragments into the data of a new fragment node. -/
def tsCodeBuild (sourceOffset : Nat) (shouldBeMapped : Bool)
    (lits : List (List Char)) (children : List (Option TsCode)) : TsCode :=
  .mk sourceOffset shouldBeMapped 0 (builderLoop lits children 0) lits.flatten

/-- The accumulating loop of TsCodeArray.toTsCode: each surviving child is
stamped with the current literal length and one delimiter is appended to
the literal for it. -/
def tsCodeArrayLoop (delimiter : List Char) :
    List (Option TsCode) → List TsCode → List Char → List TsCode × List Char
  | [], children, literal => (children, literal)
  | none :: rest, children, literal => tsCodeArrayLoop delimiter rest children literal
  | some t :: rest, children, literal =>
      tsCodeArrayLoop delimiter rest
        (children ++ [t.setParentOffset literal.length]) (literal ++ delimiter)

/-- TsCodeArray.toTsCode (tsCode.ts lines 128-150): delimiter-joined
sequence of candidate fragments, skipping absent ones, with one trailing
delimiter trimmed. -/
def tsCodeArray (items : List (Option TsCode)) (delimiter : List Char) : TsCode :=
  let r := tsCodeArrayLoop delimiter items [] []
  .mk 0 false 0 r.1 (r.2.take (r.2.length - delimiter.length))

/-- The statement AST (statement.ts): one constructor per concrete class.
Constructor argument order follows the class constructors; in particular
the each constructor takes the iterator before the loop variable, exactly
as EachStatement does. The endStmt, ifStmt, elseIfStmt, elseStmt, letStmt
and importStmt names avoid Lean keywords. -/
inductive Statement where
  | text (position : PositionRange) (value : List Char)
  | inlineTsCode (position : PositionRange) (expression : TsCodeExpression)
  | inlineSafeTsCode (position : PositionRange) (expression : TsCodeExpression)
  | each (position : PositionRange) (iterator : TsCodeExpression)
      (var : TsCodeExpression) (children : List Statement)
  | endStmt (position : PositionRange)
  | ifStmt (position : PositionRange) (expression : TsCodeExpression)
      (children : List Statement) (next : Option Statement)
  | elseIfStmt (position : PositionRange) (expression : TsCodeExpression)
      (children : List Statement) (next : Option Statement)
  | elseStmt (position : PositionRange) (children : List Statement)
  | letStmt (position : PositionRange) (variableName : TsCodeExpression)
      (value : Option TsCodeExpression)
  | assign (position : PositionRange) (variableName : TsCodeExpression)
      (value : TsCodeExpression)
  | param (position : PositionRange) (name : TsCodeExpression)
      (type : TsCodeExpression) (defaultValue : Option TsCodeExpression)
  | importStmt (position : PositionRange) (expression : TsCodeExpression)
  | defineSlot (position : PositionRange) (slotName : TsCodeExpression)
      (slotArguments : Option TsCodeExpression)
  | component (position : PositionRange) (component : TsCodeExpression)
      (params : TsCodeExpression) (mainSlot : Statement)
      (slots : List Statement)
  | componentMainSlot (position : PositionRange) (children : List Statement)
  | componentSlot (position : PositionRange) (slotName : TsCodeExpression)
      (paramsVariable : Option TsCodeExpression) (children : List Statement)

/-- The public name field of each statement class. AssignStatement sets
its name to StatementName.LetStatement (statement.ts line 490). -/
def Statement.name : Statement → StatementName
  | .text _ _ => .TextStatement
  | .inlineTsCode _ _ => .InlineTsCodeStatement
  | .inlineSafeTsCode _ _ => .InlineSafeTsCodeStatement
  | .each _ _ _ _ => .EachStatement
  | .endStmt _ => .EndStatement
  | .ifStmt _ _ _ _ => .IfStatement
  | .elseIfStmt _ _ _ _ => .ElseIfStatement
  | .elseStmt _ _ => .ElseStatement
  | .letStmt _ _ _ => .LetStatement
  | .assign _ _ _ => .LetStatement
  | .param _ _ _ _ => .ParamStatement
  | .importStmt _ _ => .ImportStatement
  | .defineSlot _ _ _ => .DefineSlotStatement
  | .component _ _ _ _ _ => .ComponentStatement
  | .componentMainSlot _ _ => .ComponentMainSlotStatement
  | .componentSlot _ _ _ _ => .ComponentSlotStatement

/-- The hasToBeHandledInParse flag: true exactly for ElseIfStatement,
ElseStatement, ComponentMainSlotStatement and ComponentSlotStatement. -/
def Statement.hasToBeHandledInParse : Statement → Bool
  | .elseIfStmt _ _ _ _ => true
  | .elseStmt _ _ => true
  | .componentMainSlot _ _ => true
  | .componentSlot _ _ _ _ => true
  | _ => false

/-- The position field of a statement. -/
def Statement.position : Statement → PositionRange
  | .text p _ => p
  | .inlineTsCode p _ => p
  | .inlineSafeTsCode p _ => p
  | .each p _ _ _ => p
  | .endStmt p => p
  | .ifStmt p _ _ _ => p
  | .elseIfStmt p _ _ _ => p
  | .elseStmt p _ => p
  | .letStmt p _ _ => p
  | .assign p _ _ => p
  | .param p _ _ _ => p
  | .importStmt p _ => p
  | .defineSlot p _ _ => p
  | .component p _ _ _ _ => p
  | .componentMainSlot p _ => p
  | .componentSlot p _ _ _ => p

/-- Single-character replaceAll over a character list. The three patterns
used by safeString are all single characters, so the string replaceAll of
the source coincides with this character-wise replacement. -/
def replaceAll (l : List Char) (c : Char) (r : List Char) : List Char :=
  l.flatMap (fun x => if x = c then r else [x])

/-- safeString.ts: escape backslash, double quote and newline. -/
def safeString (value : List Char) : List Char :=
  replaceAll (replaceAll (replaceAll value '\\' ['\\', '\\']) '"' ['\\', '"'])
    '\n' ['\\', 'n']

/-- The plain-description objects (statement.ts, the StatementObject union).
The component object stores the raw result of the main slot toObject call,
hence the Option. The type tag of each object is its constructor; objType
below recovers it. -/
inductive StatementObject where
  | text (value : List Char)
  | inlineTsCode (expression : List Char)
  | inlineSafeTsCode (expression : List Char)
  | each (var : List Char) (iterator : List Char)
      (children : List StatementObject)
  | ifStmt (expression : List Char) (children : List StatementObject)
      (next : Option StatementObject)
  | elseIfStmt (expression : List Char) (children : List StatementObject)
      (next : Option StatementObject)
  | elseStmt (children : List StatementObject)
  | letStmt (variableName : List Char) (variableValue : Option (List Char))
  | assign (variableName : List Char) (variableValue : List Char)
  | param (paramName : List Char) (paramType : List Char)
      (paramDefaultValue : Option (List Char))
  | importStmt (expression : List Char)
  | defineSlot (slotName : List Char) (slotArguments : Option (List Char))
  | component (component : List Char) (params : List Char)
      (mainSlot : Option StatementObject) (slots : List StatementObject)
  | componentMainSlot (children : List StatementObject)
  | componentSlot (slotName : List Char) (paramsVariable : Option (List Char))
      (children : List StatementObject)

/-- The type field each toObject result carries. The assign object reports
StatementName.AssignStatement (statement.ts line 516). -/
def StatementObject.objType : StatementObject → StatementName
  | .text _ => .TextStatement
  | .inlineTsCode _ => .InlineTsCodeStatement
  | .inlineSafeTsCode _ => .InlineSafeTsCodeStatement
  | .each _ _ _ => .EachStatement
  | .ifStmt _ _ _ => .IfStatement
  | .elseIfStmt _ _ _ => .ElseIfStatement
  | .elseStmt _ => .ElseStatement
  | .letStmt _ _ => .LetStatement
  | .assign _ _ => .AssignStatement
  | .param _ _ _ => .ParamStatement
  | .importStmt _ => .ImportStatement
  | .defineSlot _ _ => .DefineSlotStatement
  | .component _ _ _ _ => .ComponentStatement
  | .componentMainSlot _ => .ComponentMainSlotStatement
  | .componentSlot _ _ _ => .ComponentSlotStatement

mutual

/-- toObject of each statement class. EndStatement yields null. The each
case copies the variable text into both the variable and the iterator
field, exactly as statement.ts lines 289-296 do. -/
def Statement.toObject : Statement → Option StatementObject
  | .text _ v => some (.text v)
  | .inlineTsCode _ e => some (.inlineTsCode e.value)
  | .inlineSafeTsCode _ e => some (.inlineSafeTsCode e.value)
  | .each _ _iter var ch => some (.each var.value var.value (Statement.childrenToObject ch))
  | .endStmt _ => none
  | .ifStmt _ e ch n => some (.ifStmt e.value (Statement.childrenToObject ch) (Statement.toObjectOpt n))
  | .elseIfStmt _ e ch n => some (.elseIfStmt e.value (Statement.childrenToObject ch) (Statement.toObjectOpt n))
  | .elseStmt _ ch => some (.elseStmt (Statement.childrenToObject ch))
  | .letStmt _ n v => some (.letStmt n.value (v.map TsCodeExpression.value))
  | .assign _ n v => some (.assign n.value v.value)
  | .param _ n t d => some (.param n.value t.value (d.map TsCodeExpression.value))
  | .importStmt _ e => some (.importStmt e.value)
  | .defineSlot _ n a => some (.defineSlot n.value (a.map TsCodeExpression.value))
  | .component _ c p main slots =>
      some (.component c.value p.value (Statement.toObject main) (Statement.childrenToObject slots))
  | .componentMainSlot _ ch => some (.componentMainSlot (Statement.childrenToObject ch))
  | .componentSlot _ n pv ch =>
      some (.componentSlot n.value (pv.map TsCodeExpression.value) (Statement.childrenToObject ch))

/-- childrenToObject (statement.ts lines 133-142): map toObject over the
children and drop the null results. -/
def Statement.childrenToObject : List Statement → List StatementObject
  | [] => []
  | c :: cs =>
      match Statement.toObject c with
      | none => Statement.childrenToObject cs
      | some o => o :: Statement.childrenToObject cs

/-- The optional-chain call next?.toObject() on an If/ElseIf next field. -/
def Statement.toObjectOpt : Option Statement → Option StatementObject
  | none => none
  | some s => Statement.toObject s
end

/-- The $line marker helper (statement.ts, setCompiledStringLine): the
marker shows the 0-based line plus one, then newline and tab. -/
def setCompiledStringLine (line : Nat) (compiledString : List Char) : List Char :=
  "$line = ".toList ++ (Nat.repr (line + 1)).toList ++ "\n\t".toList ++ compiledString

mutual

/-- toCompiledString of each statement class (the flattened executable
form). Literal braces of the source strings are written with hex escapes. -/
def Statement.toCompiledString : Statement → List Char
  | .text _ v => "out += \"".toList ++ safeString v ++ "\"".toList
  | .inlineTsCode p e =>
      setCompiledStringLine p.lineStart
        ("out += String(".toList ++ e.value ++ ")".toList)
  | .inlineSafeTsCode _ e =>
      "out += $api.safeString(String(".toList ++ e.value ++ "))".toList
  | .each p iter var ch =>
      setCompiledStringLine p.lineStart
        ("for (const ".toList ++ var.value ++ " of ".toList ++ iter.value ++
          ") \x7b".toList ++ Statement.childrenToCompiledString ch ++ "\x7d".toList)
  | .endStmt _ => []
  | .ifStmt p e ch n =>
      setCompiledStringLine p.lineStart
        ("if (".toList ++ e.value ++ ") \x7b".toList ++
          Statement.childrenToCompiledString ch ++ "\x7d".toList ++
          Statement.nextToCompiledString n)
  | .elseIfStmt p e ch n =>
      setCompiledStringLine p.lineStart
        ("elseif (".toList ++ e.value ++ ") \x7b".toList ++
          Statement.childrenToCompiledString ch ++ "\x7d".toList ++
          Statement.nextToCompiledString n)
  | .elseStmt p ch =>
      setCompiledStringLine p.lineStart
        ("else \x7b".toList ++ Statement.childrenToCompiledString ch ++ "\x7d".toList)
  | .letStmt p n v =>
      setCompiledStringLine p.lineStart
        ("let ".toList ++ n.value ++
          (match v with
           | none => []
           | some w => " = ".toList ++ w.value))
  | .assign p n v =>
      setCompiledStringLine p.lineStart (n.value ++ " = ".toList ++ v.value)
  | .param _ _ _ _ => []
  | .importStmt _ _ => []
  | .defineSlot _ _ _ => []
  | .component _ c p main slots =>
      "out += await $api.renderComponent(".toList ++ c.value ++ ", ".toList ++
        p.value ++ ", \x7b\n".toList ++ Statement.toCompiledString main ++
        Statement.childrenToCompiledString slots ++ "\x7d)\n".toList
  | .componentMainSlot _ ch =>
      "main: async () => \x7b\n\tlet out = \"\"".toList ++
        Statement.childrenToCompiledString ch ++ "return out\n\x7d, ".toList
  | .componentSlot _ n pv ch =>
      n.value ++ ": async (".toList ++
        (match pv with
         | none => []
         | some w => w.value) ++
        ") => \x7b\n\tlet out = \"\"".toList ++
        Statement.childrenToCompiledString ch ++ "return out\n\x7d, ".toList

/-- childrenToCompiledString (statement.ts lines 144-151): a leading
newline, then each child followed by a newline. -/
def Statement.childrenToCompiledString : List Statement → List Char
  | children => '\n' :: Statement.childrenToCompiledStringAux children

def Statement.childrenToCompiledStringAux : List Statement → List Char
  | [] => []
  | c :: cs => Statement.toCompiledString c ++ '\n' :: Statement.childrenToCompiledStringAux cs

/-- The optional chained continuation in If/ElseIf toCompiledString. -/
def Statement.nextToCompiledString : Option Statement → List Char
  | none => []
  | some n => '\n' :: Statement.toCompiledString n
end

mutual

/-- toTsCode of each statement class (the structured, source-mapped form).
TextStatement and EndStatement yield null; every other class builds a new
TsCode with shouldBeMapped false via the template builder. -/
def Statement.toTsCode : Statement → Option TsCode
  | .text _ _ => none
  | .inlineTsCode p e =>
      some (tsCodeBuild p.start false ["String(".toList, ")".toList]
        [some e.toTsCode])
  | .inlineSafeTsCode p e =>
      some (tsCodeBuild p.start false ["String(".toList, ")".toList]
        [some e.toTsCode])
  | .each p iter var ch =>
      some (tsCodeBuild p.start false
        ["for (const ".toList, " of ".toList, ") \x7b\n".toList, "\n\x7d".toList]
        [some var.toTsCode, some iter.toTsCode,
         some (tsCodeArray (Statement.toTsCodeList ch) "\n".toList)])
  | .endStmt _ => none
  | .ifStmt p e ch n =>
      some (tsCodeBuild p.start false
        (match n with
         | none => ["if (".toList, ") \x7b\n".toList, "\n\x7d".toList]
         | some _ => ["if (".toList, ") \x7b\n".toList, "\n\x7d\n".toList, []])
        (match n with
         | none =>
            [some e.toTsCode,
             some (tsCodeArray (Statement.toTsCodeList ch) "\n".toList)]
         | some nx =>
            [some e.toTsCode,
             some (tsCodeArray (Statement.toTsCodeList ch) "\n".toList),
             Statement.toTsCode nx]))
  | .elseIfStmt p e ch n =>
      some (tsCodeBuild p.start false
        (match n with
         | none => ["else if (".toList, ") \x7b\n".toList, "\n\x7d".toList]
         | some _ => ["else if (".toList, ") \x7b\n".toList, "\n\x7d\n".toList, []])
        (match n with
         | none =>
            [some e.toTsCode,
             some (tsCodeArray (Statement.toTsCodeList ch) "\n".toList)]
         | some nx =>
            [some e.toTsCode,
             some (tsCodeArray (Statement.toTsCodeList ch) "\n".toList),
             Statement.toTsCode nx]))
  | .elseStmt p ch =>
      some (tsCodeBuild p.start false ["else \x7b\n".toList, "\n\x7d".toList]
        [some (tsCodeArray (Statement.toTsCodeList ch) "\n".toList)])
  | .letStmt p n v =>
      some (tsCodeBuild p.start false
        (match v with
         | none => ["let ".toList, []]
         | some _ => ["let ".toList, " = ".toList, []])
        (match v with
         | none => [some n.toTsCode]
         | some w => [some n.toTsCode, some w.toTsCode]))
  | .assign p n v =>
      some (tsCodeBuild p.start false [[], " = ".toList, []]
        [some n.toTsCode, some v.toTsCode])
  | .param p n t d =>
      some (tsCodeBuild p.start false
        (match d with
         | none => ["declare const ".toList, ": ".toList, []]
         | some _ => ["const ".toList, ": ".toList, " = ".toList, []])
        (match d with
         | none => [some n.toTsCode, some t.toTsCode]
         | some w => [some n.toTsCode, some t.toTsCode, some w.toTsCode]))
  | .importStmt p e =>
      some (tsCodeBuild p.start false ["import ".toList, []] [some e.toTsCode])
  | .defineSlot p n a =>
      some (tsCodeBuild p.start false
        (match a with
         | none => ["interface $Slots \x7b\n".toList, ": \x7b\x7d\n\x7d".toList]
         | some _ => ["interface $Slots \x7b\n".toList, ": ".toList, "\n\x7d".toList])
        (match a with
         | none => [some n.toTsCode]
         | some w => [some n.toTsCode, some w.toTsCode]))
  | .component p c pr main slots =>
      some (tsCodeBuild p.start false
        ["await ".toList, ".$render(".toList, ", \x7b\n".toList, ", \n".toList,
         "\n\x7d)".toList]
        [some c.toTsCode, some pr.toTsCode, Statement.toTsCode main,
         some (tsCodeArray (Statement.toTsCodeList slots) ", \n".toList)])
  | .componentMainSlot p ch =>
      some (tsCodeBuild p.start false
        ["main: async () => \x7b\n".toList, "\n\treturn \"\"\n\x7d".toList]
        [some (tsCodeArray (Statement.toTsCodeList ch) "\n".toList)])
  | .componentSlot p n pv ch =>
      some (tsCodeBuild p.start false
        (match pv with
         | none => [[], ": async () => \x7b\n".toList, "\n\treturn \"\"\n\x7d".toList]
         | some _ =>
            [[], ": async (".toList, ") => \x7b\n".toList, "\n\treturn \"\"\n\x7d".toList])
        (match pv with
         | none =>
            [some n.toTsCode,
             some (tsCodeArray (Statement.toTsCodeList ch) "\n".toList)]
         | some w =>
            [some n.toTsCode, some w.toTsCode,
             some (tsCodeArray (Statement.toTsCodeList ch) "\n".toList)]))

/-- Mapping toTsCode over a statement list, used to feed TsCodeArray. -/
def Statement.toTsCodeList : List Statement → List (Option TsCode)
  | [] => []
  | c :: cs => Statement.toTsCode c :: Statement.toTsCodeList cs
end

/-- Parser errors (error.ts): one constructor per create* helper, plus the
fuelExhausted marker used only by the fuel-indexed model of the recursive
descent (the termination theorem shows it never occurs with enough fuel). -/
inductive PErr where
  | fuelExhausted
  | unexpected (position : PositionRange) (expected : List Char)
      (got : Option (List Char))
  | invalidTagName (position : PositionRange) (gotName : List Char)
  | disallowedTagContext (position : PositionRange) (name : StatementName)
  | unexpectedAmountOfArguments (position : PositionRange) (expected : Nat)
      (got : Nat)
  | emptyExpression (position : PositionRange)
  | invalidImportSlotsParamsOrder (position : PositionRange)
  | slotOutsideComponent (position : PositionRange)
  | slotDefinitionNamedMain (position : PositionRange)
deriving DecidableEq, Repr

/-- The mutable scanning state of class Parser: the source text and the
cursor (absolute index plus line counter). -/
structure PState where
  code : List Char
  index : Nat
  line : Nat
deriving DecidableEq, Repr

/-- Parser.#getCharAt: undefined past the end of the input. -/
def PState.getCharAt (st : PState) (index : Nat) : Option Char :=
  st.code[index]?

/-- Parser.#currentChar. -/
def PState.currentChar (st : PState) : Option Char :=
  st.getCharAt st.index

/-- Parser.#peek. -/
def PState.peek (st : PState) (at_ : Nat := 1) : Option Char :=
  st.getCharAt (st.index + at_)

/-- Parser.#isAtEnd. -/
def PState.isAtEnd (st : PState) : Bool :=
  st.currentChar = none

/-- One step of Parser.#advance: increment the index, then bump the line
counter when the character at the new index is a newline. -/
def PState.advance1 (st : PState) : PState :=
  let i := st.index + 1
  ⟨st.code, i, if st.code[i]? = some '\n' then st.line + 1 else st.line⟩

/-- Parser.#advance(times). -/
def PState.advance (st : PState) : Nat → PState
  | 0 => st
  | n + 1 => st.advance1.advance n

/-- Parser.#createPosition. -/
def PState.createPosition (st : PState) (length : Nat := 1) : PositionRange :=
  ⟨st.index, st.line, st.index + length⟩

/-- Parser.#consume: expect one exact character and step over it. -/
def PState.consume (st : PState) (char : Char) : Except PErr PState :=
  match st.currentChar with
  | some c =>
      if c = char then .ok (st.advance 1)
      else .error (.unexpected (st.createPosition 1) [char] (some [c]))
  | none => .error (.unexpected (st.createPosition 1) [char] none)

/-- The character-by-character comparison of Parser.#areNextChars. -/
def areNextCharsFrom (code : List Char) (j : Nat) : List Char → Bool
  | [] => true
  | c :: cs => code[j]? = some c && areNextCharsFrom code (j + 1) cs

/-- Parser.#areNextChars. -/
def PState.areNextChars (st : PState) (controll : List Char) : Bool :=
  areNextCharsFrom st.code st.index controll

/-- The PAREN_START set of tsCode.ts. -/
def PAREN_START : List Char := ['(', '[', '\x7b']

/-- The PAREN_END set of tsCode.ts. -/
def PAREN_END : List Char := [')', ']', '\x7d']

/-- Parser.#isValidTagChar: the regex character class of letters, digits,
hyphen and underscore. -/
def isValidTagChar (c : Char) : Bool :=
  ('a' ≤ c && c ≤ 'z') || ('A' ≤ c && c ≤ 'Z') || ('0' ≤ c && c ≤ '9') ||
    c = '-' || c = '_'

/-- A scanned span with its position (tsCode.ts, interface ValuePosition). -/
structure ValuePosition where
  value : List Char
  position : PositionRange
deriving DecidableEq, Repr

/-- Parser.#trimWithPosition: trim whitespace at both ends and shrink the
position range accordingly. -/
def trimWithPosition (value : List Char) (position : PositionRange) :
    ValuePosition :=
  let valueTrimedStart := value.dropWhile Char.isWhitespace
  let newStartIndex := position.start + (value.length - valueTrimedStart.length)
  let valueTrimedEnd := (valueTrimedStart.reverse.dropWhile Char.isWhitespace).reverse
  let newEndIndex :=
    position.stop - (valueTrimedStart.length - valueTrimedEnd.length)
  ⟨valueTrimedEnd, ⟨newStartIndex, position.lineStart, newEndIndex⟩⟩

@[simp] theorem PState.advance1_code (st : PState) :
    st.advance1.code = st.code := rfl

@[simp] theorem PState.advance1_index (st : PState) :
    st.advance1.index = st.index + 1 := rfl

@[simp] theorem PState.advance_code (st : PState) (n : Nat) :
    (st.advance n).code = st.code := by
  induction n generalizing st with
  | zero => rfl
  | succ n ih => simp [PState.advance, ih]

@[simp] theorem PState.advance_index (st : PState) (n : Nat) :
    (st.advance n).index = st.index + n := by
  induction n generalizing st with
  | zero => rfl
  | succ n ih => simp [PState.advance, ih]; omega

theorem PState.currentChar_some_lt {st : PState} {c : Char}
    (h : st.currentChar = some c) : st.index < st.code.length := by
  by_contra hlt
  simp [PState.currentChar, PState.getCharAt, List.getElem?_eq_none (by omega : st.code.length ≤ st.index)] at h

theorem areNextCharsFrom_le {code : List Char} {j : Nat} {u : List Char}
    (hu : u ≠ []) (h : areNextCharsFrom code j u = true) :
    j + u.length ≤ code.length := by
  induction u generalizing j with
  | nil => simp at hu
  | cons c cs ih =>
      simp only [areNextCharsFrom, Bool.and_eq_true, decide_eq_true_eq] at h
      rcases h with ⟨h1, h2⟩
      rcases cs with _ | ⟨d, ds⟩
      · have : j < code.length := by
          by_contra hlt
          simp [List.getElem?_eq_none (by omega : code.length ≤ j)] at h1
        simp; omega
      · have := ih (by simp) h2
        simp at this ⊢
        omega

/-- The scanning loop of Parser.#skipUntilAndWith: a bracket-depth counter
tracks the nesting of round, square and curly brackets; terminators are
recognized only at depth zero and the first terminator in the given order
wins; reaching the end of input is a hard error. The while loop of the
source is modelled with an explicit fuel argument; the fuel sufficiency
lemma below shows one unit per remaining character plus one is enough. -/
def skipUntilLoop (fuel : Nat) (untilChars : List (List Char))
    (allowEmpty : Bool) (startIndex startLine : Nat) (depth : Nat)
    (st : PState) : Except PErr (ValuePosition × List Char × PState) :=
  match fuel with
  | 0 => .error .fuelExhausted
  | fuel + 1 =>
    match st.currentChar with
    | none =>
        .error (.unexpected (st.createPosition 1) (untilChars.headD []) none)
    | some c =>
      if c ∈ PAREN_START then
        skipUntilLoop fuel untilChars allowEmpty startIndex startLine
          (depth + 1) (st.advance 1)
      else if depth > 0 ∧ c ∈ PAREN_END then
        skipUntilLoop fuel untilChars allowEmpty startIndex startLine
          (depth - 1) (st.advance 1)
      else
        match (if depth = 0 then untilChars.find? (fun u => st.areNextChars u)
               else none) with
        | some controll =>
            let value := jsSlice st.code startIndex st.index
            let endIndex := st.index
            let st1 := st.advance controll.length
            let trimed :=
              trimWithPosition value ⟨startIndex, startLine, endIndex⟩
            if !allowEmpty ∧ trimed.value.length = 0 then
              .error (.emptyExpression ⟨startIndex, startLine,
                if startIndex = endIndex then startIndex + 1 else endIndex⟩)
            else .ok (trimed, controll, st1)
        | none =>
            skipUntilLoop fuel untilChars allowEmpty startIndex startLine
              depth (st.advance 1)

/-- Parser.#skipUntilAndWith: scan from the current cursor. -/
def skipUntilAndWith (fuel : Nat) (st : PState)
    (untilChars : List (List Char)) (allowEmpty : Bool := false) :
    Except PErr (ValuePosition × List Char × PState) :=
  skipUntilLoop fuel untilChars allowEmpty st.index st.line 0 st

/-- The do-while loop of Parser.#parseParams: keep scanning arguments up to
a comma or closing parenthesis until the closing parenthesis matches. -/
def parseParamsLoop (fuel : Nat) (st : PState)
    (parsedArguments : List ValuePosition) :
    Except PErr (List ValuePosition × PState) :=
  match fuel with
  | 0 => .error .fuelExhausted
  | fuel + 1 =>
    match skipUntilAndWith fuel st [",".toList, ")".toList] true with
    | .error e => .error e
    | .ok (argument, controll, st1) =>
        let args := parsedArguments ++ [⟨argument.value, argument.position⟩]
        if controll = ")".toList then .ok (args, st1)
        else parseParamsLoop fuel st1 args

/-- Parser.#parseParams: parse a parenthesized comma-separated argument
list of fixed arity; a missing list is only legal at arity zero; a single
trailing empty argument is dropped; any other arity mismatch is a hard
error. -/
def parseParams (fuel : Nat) (st : PState) (expectedCount : Nat) :
    Except PErr (List ValuePosition × PState) :=
  match fuel with
  | 0 => .error .fuelExhausted
  | fuel + 1 =>
    if st.currentChar ≠ some '(' then
      if expectedCount ≠ 0 then
        .error (.unexpectedAmountOfArguments (st.createPosition 1)
          expectedCount 0)
      else .ok ([], st)
    else
      match parseParamsLoop fuel (st.advance 1) [] with
      | .error e => .error e
      | .ok (parsedArguments, st1) =>
          let args :=
            match parsedArguments.getLast? with
            | some l =>
                if l.value.length = 0 then parsedArguments.dropLast
                else parsedArguments
            | none => parsedArguments
          if expectedCount ≠ args.length then
            .error (.unexpectedAmountOfArguments (st1.createPosition 1)
              expectedCount args.length)
          else .ok (args, st1)

/-- Parser.#makeInlineTsCodeStatement: a leading exclamation mark selects
the raw (unsafe) inline statement; the expression runs to the first
closing curly brace at depth zero, then one more closing curly brace is
consumed. -/
def makeInlineTsCodeStatement (fuel : Nat) (st : PState) :
    Except PErr (Statement × PState) :=
  match fuel with
  | 0 => .error .fuelExhausted
  | fuel + 1 =>
    let startIndex := st.index
    let startLine := st.line
    let isUnsafe := st.currentChar = some '!'
    let st1 := if isUnsafe then st.advance 1 else st
    let st2 := st1.advance 2
    match skipUntilAndWith fuel st2 ["\x7d".toList] true with
    | .error e => .error e
    | .ok (expressionPosValue, _, st3) =>
      match st3.consume '\x7d' with
      | .error e => .error e
      | .ok st4 =>
          let tsCodeExpression : TsCodeExpression :=
            ⟨expressionPosValue.position, expressionPosValue.value⟩
          if isUnsafe then
            .ok (.inlineTsCode ⟨startIndex, startLine, st4.index⟩
              tsCodeExpression, st4)
          else
            .ok (.inlineSafeTsCode ⟨startIndex, startLine, st4.index⟩
              tsCodeExpression, st4)

/-- Parser.#skipInlineComment: step over the four opener characters and
everything up to and including the comment closer. -/
def skipInlineComment (fuel : Nat) (st : PState) : Except PErr PState :=
  match fuel with
  | 0 => .error .fuelExhausted
  | fuel + 1 =>
    match skipUntilAndWith fuel (st.advance 4) ["--\x7d\x7d".toList] true with
    | .error e => .error e
    | .ok (_, _, st1) => .ok st1

/-- Parser.#makeLetStatement. -/
def makeLetStatement (fuel : Nat) (startIndex startLine : Nat) (st : PState) :
    Except PErr (Statement × PState) :=
  match fuel with
  | 0 => .error .fuelExhausted
  | fuel + 1 =>
    match st.consume '(' with
    | .error e => .error e
    | .ok st1 =>
      match skipUntilAndWith fuel st1 ["=".toList, ")".toList] with
      | .error e => .error e
      | .ok (variableNameValuePos, controll, st2) =>
        if controll = "=".toList then
          match skipUntilAndWith fuel st2 [")".toList] with
          | .error e => .error e
          | .ok (valueValuePos, _, st3) =>
              .ok (.letStmt ⟨startIndex, startLine, st3.index⟩
                ⟨variableNameValuePos.position, variableNameValuePos.value⟩
                (some ⟨valueValuePos.position, valueValuePos.value⟩), st3)
        else
          .ok (.letStmt ⟨startIndex, startLine, st2.index⟩
            ⟨variableNameValuePos.position, variableNameValuePos.value⟩
            none, st2)

/-- Parser.#makeAssignStatement. -/
def makeAssignStatement (fuel : Nat) (startIndex startLine : Nat)
    (st : PState) : Except PErr (Statement × PState) :=
  match fuel with
  | 0 => .error .fuelExhausted
  | fuel + 1 =>
    match st.consume '(' with
    | .error e => .error e
    | .ok st1 =>
      match skipUntilAndWith fuel st1 ["=".toList] with
      | .error e => .error e
      | .ok (variableNameValuePos, _, st2) =>
        match skipUntilAndWith fuel st2 [")".toList] with
        | .error e => .error e
        | .ok (valueValuePos, _, st3) =>
            .ok (.assign ⟨startIndex, startLine, st3.index⟩
              ⟨variableNameValuePos.position, variableNameValuePos.value⟩
              ⟨valueValuePos.position, valueValuePos.value⟩, st3)

/-- Parser.#makeParamStatement. -/
def makeParamStatement (fuel : Nat) (startIndex startLine : Nat)
    (st : PState) : Except PErr (Statement × PState) :=
  match fuel with
  | 0 => .error .fuelExhausted
  | fuel + 1 =>
    match st.consume '(' with
    | .error e => .error e
    | .ok st1 =>
      match skipUntilAndWith fuel st1 [":".toList] with
      | .error e => .error e
      | .ok (identifierNameValuePos, _, st2) =>
        match skipUntilAndWith fuel st2 ["=".toList, ")".toList] with
        | .error e => .error e
        | .ok (typeValuePos, controll, st3) =>
          if controll = "=".toList then
            match skipUntilAndWith fuel st3 [")".toList] with
            | .error e => .error e
            | .ok (defaultValuePos, _, st4) =>
                .ok (.param ⟨startIndex, startLine, st4.index⟩
                  ⟨identifierNameValuePos.position, identifierNameValuePos.value⟩
                  ⟨typeValuePos.position, typeValuePos.value⟩
                  (some ⟨defaultValuePos.position, defaultValuePos.value⟩), st4)
          else
            .ok (.param ⟨startIndex, startLine, st3.index⟩
              ⟨identifierNameValuePos.position, identifierNameValuePos.value⟩
              ⟨typeValuePos.position, typeValuePos.value⟩ none, st3)

/-- Parser.#makeImportStatement. -/
def makeImportStatement (fuel : Nat) (startIndex startLine : Nat)
    (st : PState) : Except PErr (Statement × PState) :=
  match fuel with
  | 0 => .error .fuelExhausted
  | fuel + 1 =>
    match st.consume '(' with
    | .error e => .error e
    | .ok st1 =>
      match skipUntilAndWith fuel st1 [")".toList] with
      | .error e => .error e
      | .ok (expressionValuePos, _, st2) =>
          .ok (.importStmt ⟨startIndex, startLine, st2.index⟩
            ⟨expressionValuePos.position, expressionValuePos.value⟩, st2)

/-- Parser.#makeDefineSlotStatement: the scanned slot name is checked
against the reserved name main before the optional argument type is read. -/
def makeDefineSlotStatement (fuel : Nat) (startIndex startLine : Nat)
    (st : PState) : Except PErr (Statement × PState) :=
  match fuel with
  | 0 => .error .fuelExhausted
  | fuel + 1 =>
    match st.consume '(' with
    | .error e => .error e
    | .ok st1 =>
      match skipUntilAndWith fuel st1 [":".toList, ")".toList] with
      | .error e => .error e
      | .ok (slotNameValuePos, controll, st2) =>
        if slotNameValuePos.value = "main".toList then
          .error (.slotDefinitionNamedMain slotNameValuePos.position)
        else if controll = ":".toList then
          match skipUntilAndWith fuel st2 [")".toList] with
          | .error e => .error e
          | .ok (slotArgumentsValuePos, _, st3) =>
              .ok (.defineSlot ⟨startIndex, startLine, st3.index⟩
                ⟨slotNameValuePos.position, slotNameValuePos.value⟩
                (some ⟨slotArgumentsValuePos.position,
                  slotArgumentsValuePos.value⟩), st3)
        else
          .ok (.defineSlot ⟨startIndex, startLine, st2.index⟩
            ⟨slotNameValuePos.position, slotNameValuePos.value⟩ none, st2)

/-- StatementName rendered as the enum string value, used in the awaited
terminator diagnostic of Parser.#parseUntilStatment. -/
def StatementName.str : StatementName → List Char
  | .TextStatement => "TextStatement".toList
  | .InlineTsCodeStatement => "InlineTsCodeStatement".toList
  | .InlineSafeTsCodeStatement => "InlineSafeTsCodeStatement".toList
  | .EachStatement => "EachStatement".toList
  | .EndStatement => "EndStatement".toList
  | .IfStatement => "IfStatement".toList
  | .ElseIfStatement => "ElseIfStatement".toList
  | .ElseStatement => "ElseStatement".toList
  | .LetStatement => "LetStatement".toList
  | .AssignStatement => "AssignStatement".toList
  | .ParamStatement => "ParamStatement".toList
  | .ImportStatement => "ImportStatement".toList
  | .DefineSlotStatement => "DefineSlotStatement".toList
  | .ComponentStatement => "ComponentStatement".toList
  | .ComponentMainSlotStatement => "ComponentMainSlotStatement".toList
  | .ComponentSlotStatement => "ComponentSlotStatement".toList

/-- Parser.#areImportStatementsAllowedAfter. -/
def areImportStatementsAllowedAfter (statementName : StatementName) : Bool :=
  [StatementName.TextStatement, StatementName.ImportStatement].contains
    statementName

/-- Parser.#areDefineSlotStatementsAllowedAfter. -/
def areDefineSlotStatementsAllowedAfter (statementName : StatementName) :
    Bool :=
  [StatementName.TextStatement, StatementName.ImportStatement,
    StatementName.DefineSlotStatement].contains statementName

/-- Parser.#areParamStatementsAllowedAfter. -/
def areParamStatementsAllowedAfter (statementName : StatementName) : Bool :=
  [StatementName.TextStatement, StatementName.ParamStatement,
    StatementName.ImportStatement,
    StatementName.DefineSlotStatement].contains statementName

/-- The package of the mutually recursive parsing functions at one fuel
level. The source methods parseOnce, makeAtTag, the block statement
sub-parsers and parseUntilStatment recurse into one another; the recursion
is tied below by a single structural recursion on fuel so that every
definition computes by kernel reduction. -/
structure ParserFns where
  parseOnceLoop : Bool → Bool → Bool → Bool → Nat → Nat → List Char →
    PState → Except PErr (Statement × PState)
  makeAtTag : Bool → Bool → Bool → Bool → PState →
    Except PErr (Statement × PState)
  makeEachStatement : Nat → Nat → PState → Except PErr (Statement × PState)
  makeIfStatement : Nat → Nat → PState → Except PErr (Statement × PState)
  makeElseIfStatement : Nat → Nat → PState → Except PErr (Statement × PState)
  makeElseStatement : Nat → Nat → PState → Except PErr (Statement × PState)
  makeComponentStatement : Nat → Nat → PState →
    Except PErr (Statement × PState)
  makeComponentSlotStatement : Nat → Nat → PState →
    Except PErr (Statement × PState)
  parseUntilStatment : List StatementName → Bool → PState →
    Except PErr (List Statement × Statement × PState)

/-- The zero-fuel package: every function reports exhaustion. -/
def parserFnsZero : ParserFns where
  parseOnceLoop := fun _ _ _ _ _ _ _ _ => .error .fuelExhausted
  makeAtTag := fun _ _ _ _ _ => .error .fuelExhausted
  makeEachStatement := fun _ _ _ => .error .fuelExhausted
  makeIfStatement := fun _ _ _ => .error .fuelExhausted
  makeElseIfStatement := fun _ _ _ => .error .fuelExhausted
  makeElseStatement := fun _ _ _ => .error .fuelExhausted
  makeComponentStatement := fun _ _ _ => .error .fuelExhausted
  makeComponentSlotStatement := fun _ _ _ => .error .fuelExhausted
  parseUntilStatment := fun _ _ _ => .error .fuelExhausted

/-- One fuel level of the parsing functions, recursing into the previous
level prev; the numeric argument fuel is the amount handed to the
non-recursive scanning helpers. -/
def parserFnsStep (fuel : Nat) (prev : ParserFns) : ParserFns where
  /- The text-accumulation loop of Parser.#parseOnce. The four flag
  arguments gate import, defslot, param and slot statements; the three
  accumulator arguments model the local accumilator record of the source.
  The condition for the inline opener reproduces the source exactly,
  including the duplicated peek() of tsCode.ts line 395 which makes the
  second disjunct check the character one past the exclamation mark
  twice. -/
  parseOnceLoop := fun allowImportStatements allowDefineSlotStatement
      allowParamStatement allowSlotStatement accStartIndex accStartLine
      accValue st =>
    match st.currentChar with
    | none => .ok (.text ⟨accStartIndex, accStartLine, st.index⟩ accValue, st)
    | some c =>
      if c = '\\' ∧ st.peek 1 = some '\x7b' ∧ st.peek 2 = some '\x7b' then
        prev.parseOnceLoop allowImportStatements allowDefineSlotStatement
          allowParamStatement allowSlotStatement accStartIndex accStartLine
          accValue (st.advance 3)
      else if (c = '\x7b' ∧ st.peek 1 = some '\x7b') ∨
          (c = '!' ∧ st.peek 1 = some '\x7b') then
        if accValue ≠ [] then
          .ok (.text ⟨accStartIndex, accStartLine, st.index⟩ accValue, st)
        else if st.peek 2 = some '-' ∧ st.peek 3 = some '-' then
          match skipInlineComment fuel st with
          | .error e => .error e
          | .ok st1 =>
              prev.parseOnceLoop allowImportStatements
                allowDefineSlotStatement allowParamStatement
                allowSlotStatement accStartIndex accStartLine accValue st1
        else makeInlineTsCodeStatement fuel st
      else if c = '\\' ∧ st.peek 1 = some '@' then
        prev.parseOnceLoop allowImportStatements allowDefineSlotStatement
          allowParamStatement allowSlotStatement accStartIndex accStartLine
          accValue (st.advance 2)
      else if c = '@' then
        if accValue ≠ [] then
          .ok (.text ⟨accStartIndex, accStartLine, st.index⟩ accValue, st)
        else
          prev.makeAtTag allowImportStatements allowDefineSlotStatement
            allowParamStatement allowSlotStatement st
      else
        prev.parseOnceLoop allowImportStatements allowDefineSlotStatement
          allowParamStatement allowSlotStatement accStartIndex accStartLine
          (accValue ++ [c]) (st.advance 1)
  /- Parser.#makeAtTag: step over the at sign, read the maximal run of tag
  characters, and dispatch on the tag name; import, param, defslot and
  slot check their gate flag before their sub-parser runs. -/
  makeAtTag := fun allowImportStatements allowDefineSlotStatement
      allowParamStatement allowSlotStatement st =>
    let startIndex := st.index
    let startLine := st.line
    let st1 := st.advance 1
    let tagName := (st1.code.drop st1.index).takeWhile isValidTagChar
    let st2 := st1.advance tagName.length
    if tagName = "each".toList then
      prev.makeEachStatement startIndex startLine st2
    else if tagName = "if".toList then
      prev.makeIfStatement startIndex startLine st2
    else if tagName = "elseif".toList then
      prev.makeElseIfStatement startIndex startLine st2
    else if tagName = "else".toList then
      prev.makeElseStatement startIndex startLine st2
    else if tagName = "let".toList then
      makeLetStatement fuel startIndex startLine st2
    else if tagName = "assign".toList then
      makeAssignStatement fuel startIndex startLine st2
    else if tagName = "component".toList then
      prev.makeComponentStatement startIndex startLine st2
    else if tagName = "import".toList then
      if !allowImportStatements then
        .error (.invalidImportSlotsParamsOrder
          ⟨startIndex, startLine, st2.index⟩)
      else makeImportStatement fuel startIndex startLine st2
    else if tagName = "param".toList then
      if !allowParamStatement then
        .error (.invalidImportSlotsParamsOrder
          ⟨startIndex, startLine, st2.index⟩)
      else makeParamStatement fuel startIndex startLine st2
    else if tagName = "defslot".toList then
      if !allowDefineSlotStatement then
        .error (.invalidImportSlotsParamsOrder
          ⟨startIndex, startLine, st2.index⟩)
      else makeDefineSlotStatement fuel startIndex startLine st2
    else if tagName = "slot".toList then
      if !allowSlotStatement then
        .error (.slotOutsideComponent ⟨startIndex, startLine, st2.index⟩)
      else prev.makeComponentSlotStatement startIndex startLine st2
    else if tagName = "end".toList then
      .ok (.endStmt ⟨startIndex, startLine, st2.index⟩, st2)
    else
      .error (.invalidTagName ⟨startIndex, startLine, st2.index⟩ tagName)
  /- Parser.#makeEachStatement: the loop variable runs to a literal
  space-in-space or closing parenthesis; hitting the parenthesis first is
  a hard error; children run to the end tag. -/
  makeEachStatement := fun startIndex startLine st =>
    match st.consume '(' with
    | .error e => .error e
    | .ok st1 =>
      match skipUntilAndWith fuel st1 [" in ".toList, ")".toList] with
      | .error e => .error e
      | .ok (variablePosValue, controll, st2) =>
        if controll ≠ " in ".toList then
          .error (.unexpected
            ⟨variablePosValue.position.stop, startLine,
              variablePosValue.position.stop + 1⟩
            "in".toList (some ")".toList))
        else
          match skipUntilAndWith fuel st2 [")".toList] with
          | .error e => .error e
          | .ok (iteratorPosValue, _, st3) =>
            match prev.parseUntilStatment [StatementName.EndStatement]
                false st3 with
            | .error e => .error e
            | .ok (children, _, st4) =>
                .ok (.each ⟨startIndex, startLine, st4.index⟩
                  ⟨iteratorPosValue.position, iteratorPosValue.value⟩
                  ⟨variablePosValue.position, variablePosValue.value⟩
                  children, st4)
  /- Parser.#makeIfStatement: children run to elseif, else or end; a
  non-end terminator becomes the next pointer; the position end is the
  next statement start when that start is nonzero, the cursor otherwise. -/
  makeIfStatement := fun startIndex startLine st =>
    match st.consume '(' with
    | .error e => .error e
    | .ok st1 =>
      match skipUntilAndWith fuel st1 [")".toList] with
      | .error e => .error e
      | .ok (ifExpressionValuePos, _, st2) =>
        match prev.parseUntilStatment
            [StatementName.ElseIfStatement, StatementName.ElseStatement,
              StatementName.EndStatement] false st2 with
        | .error e => .error e
        | .ok (children, endingStatement, st3) =>
            let next : Option Statement :=
              match endingStatement with
              | .endStmt _ => none
              | s => some s
            let endIdx :=
              match next with
              | some n =>
                  if n.position.start = 0 then st3.index else n.position.start
              | none => st3.index
            .ok (.ifStmt ⟨startIndex, startLine, endIdx⟩
              ⟨ifExpressionValuePos.position, ifExpressionValuePos.value⟩
              children next, st3)
  /- Parser.#makeElseIfStatement: identical in structure to the if
  sub-parser but produces an elseif node. -/
  makeElseIfStatement := fun startIndex startLine st =>
    match st.consume '(' with
    | .error e => .error e
    | .ok st1 =>
      match skipUntilAndWith fuel st1 [")".toList] with
      | .error e => .error e
      | .ok (ifExpressionValuePos, _, st2) =>
        match prev.parseUntilStatment
            [StatementName.ElseIfStatement, StatementName.ElseStatement,
              StatementName.EndStatement] false st2 with
        | .error e => .error e
        | .ok (children, endingStatement, st3) =>
            let next : Option Statement :=
              match endingStatement with
              | .endStmt _ => none
              | s => some s
            let endIdx :=
              match next with
              | some n =>
                  if n.position.start = 0 then st3.index else n.position.start
              | none => st3.index
            .ok (.elseIfStmt ⟨startIndex, startLine, endIdx⟩
              ⟨ifExpressionValuePos.position, ifExpressionValuePos.value⟩
              children next, st3)
  /- Parser.#makeElseStatement: runs the zero-arity argument check, then
  children to the end tag. -/
  makeElseStatement := fun startIndex startLine st =>
    match parseParams fuel st 0 with
    | .error e => .error e
    | .ok (_, st1) =>
      match prev.parseUntilStatment [StatementName.EndStatement]
          false st1 with
      | .error e => .error e
      | .ok (children, _, st2) =>
          .ok (.elseStmt ⟨startIndex, startLine, st2.index⟩ children, st2)
  /- Parser.#makeComponentStatement: a two-argument list, then body
  statements with the slot gate open, partitioned into explicit slots and
  the synthesized main slot. -/
  makeComponentStatement := fun startIndex startLine st =>
    match parseParams fuel st 2 with
    | .error e => .error e
    | .ok (tagParams, st1) =>
      let componentNameValuePos := tagParams.headD ⟨[], ⟨0, 0, 0⟩⟩
      let componentParamsValuePos := (tagParams.drop 1).headD ⟨[], ⟨0, 0, 0⟩⟩
      match prev.parseUntilStatment [StatementName.EndStatement]
          true st1 with
      | .error e => .error e
      | .ok (statements, _, st2) =>
          let slots := statements.filter fun s =>
            match s with
            | .componentSlot _ _ _ _ => true
            | _ => false
          let mainSlotChildren := statements.filter fun s =>
            match s with
            | .componentSlot _ _ _ _ => false
            | _ => true
          .ok (.component ⟨startIndex, startLine, st2.index⟩
            ⟨componentNameValuePos.position, componentNameValuePos.value⟩
            ⟨componentParamsValuePos.position, componentParamsValuePos.value⟩
            (.componentMainSlot ⟨startIndex, startLine, st2.index⟩
              mainSlotChildren)
            slots, st2)
  /- Parser.#makeComponentSlotStatement: slot name to a comma or closing
  parenthesis, an optional params variable, then children to the end tag.
  There is no reserved-name check here. -/
  makeComponentSlotStatement := fun startIndex startLine st =>
    match st.consume '(' with
    | .error e => .error e
    | .ok st1 =>
      match skipUntilAndWith fuel st1 [",".toList, ")".toList] with
      | .error e => .error e
      | .ok (slotNameValuePos, controll, st2) =>
        let afterParams : Except PErr (Option TsCodeExpression × PState) :=
          if controll = ",".toList then
            match skipUntilAndWith fuel st2 [")".toList] with
            | .error e => .error e
            | .ok (slotParamsVariableValuePos, _, st3) =>
                .ok (some ⟨slotParamsVariableValuePos.position,
                  slotParamsVariableValuePos.value⟩, st3)
          else .ok (none, st2)
        match afterParams with
        | .error e => .error e
        | .ok (slotParamsVariable, st3) =>
          match prev.parseUntilStatment [StatementName.EndStatement]
              false st3 with
          | .error e => .error e
          | .ok (children, _, st4) =>
              .ok (.componentSlot ⟨startIndex, startLine, st4.index⟩
                ⟨slotNameValuePos.position, slotNameValuePos.value⟩
                slotParamsVariable children, st4)
  /- Parser.#parseUntilStatment: parse statements with all top-level gates
  closed until one whose name is in the terminator set appears; reaching
  the end of input is a hard error naming the awaited terminators. -/
  parseUntilStatment := fun statementNames allowSlotStatement st =>
    if st.isAtEnd then
      .error (.unexpected (st.createPosition 1)
        (List.intercalate ",".toList (statementNames.map StatementName.str))
        none)
    else
      match prev.parseOnceLoop false false false allowSlotStatement
          st.index st.line [] st with
      | .error e => .error e
      | .ok (statement, st1) =>
        if statement.name ∈ statementNames then .ok ([], statement, st1)
        else
          match prev.parseUntilStatment statementNames allowSlotStatement
              st1 with
          | .error e => .error e
          | .ok (statements, ending, st2) =>
              .ok (statement :: statements, ending, st2)

/-- The fuel-indexed tower of parsing functions. -/
def parserFns : Nat → ParserFns
  | 0 => parserFnsZero
  | fuel + 1 => parserFnsStep fuel (parserFns fuel)

/-- The text-accumulation loop of Parser.#parseOnce at a given fuel. -/
def parseOnceLoop (fuel : Nat)
    (allowImportStatements allowDefineSlotStatement allowParamStatement
      allowSlotStatement : Bool)
    (accStartIndex accStartLine : Nat) (accValue : List Char) (st : PState) :
    Except PErr (Statement × PState) :=
  (parserFns fuel).parseOnceLoop allowImportStatements
    allowDefineSlotStatement allowParamStatement allowSlotStatement
    accStartIndex accStartLine accValue st

/-- Parser.#makeAtTag at a given fuel. -/
def makeAtTag (fuel : Nat)
    (allowImportStatements allowDefineSlotStatement allowParamStatement
      allowSlotStatement : Bool) (st : PState) :
    Except PErr (Statement × PState) :=
  (parserFns fuel).makeAtTag allowImportStatements allowDefineSlotStatement
    allowParamStatement allowSlotStatement st

/-- Parser.#makeEachStatement at a given fuel. -/
def makeEachStatement (fuel : Nat) (startIndex startLine : Nat)
    (st : PState) : Except PErr (Statement × PState) :=
  (parserFns fuel).makeEachStatement startIndex startLine st

/-- Parser.#makeIfStatement at a given fuel. -/
def makeIfStatement (fuel : Nat) (startIndex startLine : Nat) (st : PState) :
    Except PErr (Statement × PState) :=
  (parserFns fuel).makeIfStatement startIndex startLine st

/-- Parser.#makeElseIfStatement at a given fuel. -/
def makeElseIfStatement (fuel : Nat) (startIndex startLine : Nat)
    (st : PState) : Except PErr (Statement × PState) :=
  (parserFns fuel).makeElseIfStatement startIndex startLine st

/-- Parser.#makeElseStatement at a given fuel. -/
def makeElseStatement (fuel : Nat) (startIndex startLine : Nat)
    (st : PState) : Except PErr (Statement × PState) :=
  (parserFns fuel).makeElseStatement startIndex startLine st

/-- Parser.#makeComponentStatement at a given fuel. -/
def makeComponentStatement (fuel : Nat) (startIndex startLine : Nat)
    (st : PState) : Except PErr (Statement × PState) :=
  (parserFns fuel).makeComponentStatement startIndex startLine st

/-- Parser.#makeComponentSlotStatement at a given fuel. -/
def makeComponentSlotStatement (fuel : Nat) (startIndex startLine : Nat)
    (st : PState) : Except PErr (Statement × PState) :=
  (parserFns fuel).makeComponentSlotStatement startIndex startLine st

/-- Parser.#parseUntilStatment at a given fuel. -/
def parseUntilStatment (fuel : Nat) (statementNames : List StatementName)
    (allowSlotStatement : Bool) (st : PState) :
    Except PErr (List Statement × Statement × PState) :=
  (parserFns fuel).parseUntilStatment statementNames allowSlotStatement st

/-- Parser.#parseOnce: run the accumulation loop with a fresh accumulator
anchored at the current cursor. -/
def parseOnce (fuel : Nat)
    (allowImportStatements allowDefineSlotStatement allowParamStatement
      allowSlotStatement : Bool) (st : PState) :
    Except PErr (Statement × PState) :=
  parseOnceLoop fuel allowImportStatements allowDefineSlotStatement
    allowParamStatement allowSlotStatement st.index st.line [] st

/-- The top-level driving loop of Parser.parse: the three declaration
gates start open and close permanently once a statement outside the
corresponding allowed set is parsed; statements flagged as
must-be-handled-in-parse are a hard error here. -/
def parseLoop (fuel : Nat)
    (allowImportStatements allowDefineSlotStatement allowParamStatement :
      Bool) (st : PState) : Except PErr (List Statement) :=
  match fuel with
  | 0 => .error .fuelExhausted
  | fuel + 1 =>
    if st.isAtEnd then .ok []
    else
      match parseOnceLoop fuel allowImportStatements allowDefineSlotStatement
          allowParamStatement false st.index st.line [] st with
      | .error e => .error e
      | .ok (statement, st1) =>
        let aI1 := allowImportStatements &&
          areImportStatementsAllowedAfter statement.name
        let aD1 := allowDefineSlotStatement &&
          areDefineSlotStatementsAllowedAfter statement.name
        let aP1 := allowParamStatement &&
          areParamStatementsAllowedAfter statement.name
        if statement.hasToBeHandledInParse then
          .error (.disallowedTagContext statement.position statement.name)
        else
          match parseLoop fuel aI1 aD1 aP1 st1 with
          | .error e => .error e
          | .ok statements => .ok (statement :: statements)

/-- Parser.parse on a source text, starting with index zero, line zero and
all gates open. -/
def parse (code : List Char) (fuel : Nat) : Except PErr (List Statement) :=
  parseLoop fuel true true true ⟨code, 0, 0⟩

/-! ### The if-chain shape predicate -/

/-- The shape of one next pointer of an If or ElseIf statement: absent, or
exactly one ElseIf, or exactly one Else. -/
def Statement.nextShapeOk : Option Statement → Bool
  | none => true
  | some (.elseIfStmt _ _ _ _) => true
  | some (.elseStmt _ _) => true
  | some _ => false

mutual

/-- Every If and ElseIf node anywhere in the statement tree has a next
pointer that is absent, one ElseIf or one Else; an Else node has no next
pointer at all (the elseStmt constructor, like the source ElseStatement
class, carries none). -/
def Statement.chainsOk : Statement → Bool
  | .text _ _ => true
  | .inlineTsCode _ _ => true
  | .inlineSafeTsCode _ _ => true
  | .each _ _ _ ch => Statement.chainsOkList ch
  | .endStmt _ => true
  | .ifStmt _ _ ch n =>
      Statement.chainsOkList ch && Statement.nextShapeOk n &&
        Statement.chainsOkOpt n
  | .elseIfStmt _ _ ch n =>
      Statement.chainsOkList ch && Statement.nextShapeOk n &&
        Statement.chainsOkOpt n
  | .elseStmt _ ch => Statement.chainsOkList ch
  | .letStmt _ _ _ => true
  | .assign _ _ _ => true
  | .param _ _ _ _ => true
  | .importStmt _ _ => true
  | .defineSlot _ _ _ => true
  | .component _ _ _ main slots =>
      Statement.chainsOk main && Statement.chainsOkList slots
  | .componentMainSlot _ ch => Statement.chainsOkList ch
  | .componentSlot _ _ _ ch => Statement.chainsOkList ch

def Statement.chainsOkList : List Statement → Bool
  | [] => true
  | s :: ss => Statement.chainsOk s && Statement.chainsOkList ss

def Statement.chainsOkOpt : Option Statement → Bool
  | none => true
  | some s => Statement.chainsOk s

end

/-- The list of statements reached by following next pointers from an If
or ElseIf head (the head itself excluded). The function is total, so in
the model the traversal always terminates and cannot cycle. -/
def Statement.nextChain : Statement → List Statement
  | .ifStmt _ _ _ (some n) => n :: Statement.nextChain n
  | .elseIfStmt _ _ _ (some n) => n :: Statement.nextChain n
  | _ => []

/-- d is a direct structural child of s: an element of a children list,
the next pointer of an If or ElseIf, or the main slot or a named slot of a
component. -/
inductive Statement.DirectChild : Statement → Statement → Prop
  | eachChild {p it v ch d} : d ∈ ch →
      Statement.DirectChild d (.each p it v ch)
  | ifChild {p e ch n d} : d ∈ ch →
      Statement.DirectChild d (.ifStmt p e ch n)
  | ifNext {p e ch n} : Statement.DirectChild n (.ifStmt p e ch (some n))
  | elseIfChild {p e ch n d} : d ∈ ch →
      Statement.DirectChild d (.elseIfStmt p e ch n)
  | elseIfNext {p e ch n} :
      Statement.DirectChild n (.elseIfStmt p e ch (some n))
  | elseChild {p ch d} : d ∈ ch → Statement.DirectChild d (.elseStmt p ch)
  | componentMain {p c pa main slots} :
      Statement.DirectChild main (.component p c pa main slots)
  | componentSlots {p c pa main slots d} : d ∈ slots →
      Statement.DirectChild d (.component p c pa main slots)
  | mainSlotChild {p ch d} : d ∈ ch →
      Statement.DirectChild d (.componentMainSlot p ch)
  | slotChild {p n pv ch d} : d ∈ ch →
      Statement.DirectChild d (.componentSlot p n pv ch)

/-- d is s itself or a nested sub-statement of s. -/
inductive Statement.SubStatement : Statement → Statement → Prop
  | refl (s) : Statement.SubStatement s s
  | step {d m s} : Statement.SubStatement d m → Statement.DirectChild m s →
      Statement.SubStatement d s

/-! ### The mapped-entry correspondence -/

/-- d is a proper descendant of t in the fragment tree: a child, or a
descendant of a child. -/
inductive TsCode.Descendant : TsCode → TsCode → Prop
  | child {c t} : c ∈ TsCode.children t → TsCode.Descendant c t
  | nest {d c t} : c ∈ TsCode.children t → TsCode.Descendant d c →
      TsCode.Descendant d t

/-- The map entry e points, inside the generated text gen, at exactly the
flattened text of the fragment d, and names d's source offset. -/
def entryMatches (gen : List Char) (e : MapItem) (d : TsCode) : Prop :=
  e.sourceOffset = d.sourceOffset ∧
  e.length = (TsCode.toMappedString d).2.length ∧
  e.generatedOffset + e.length ≤ gen.length ∧
  (gen.drop e.generatedOffset).take e.length = (TsCode.toMappedString d).2

/-- Every mapped node of the fragment tree (the tree itself included) is
childless: the map's granularity is expression-level. -/
def goodTree (t : TsCode) : Prop :=
  ∀ d, (d = t ∨ TsCode.Descendant d t) → d.shouldBeMapped = true →
    d.children = []

/-! ### Basic cursor lemmas -/

theorem PState.isAtEnd_iff (st : PState) :
    st.isAtEnd = true ↔ st.code.length ≤ st.index := by
  simp only [PState.isAtEnd, PState.currentChar, PState.getCharAt,
    decide_eq_true_eq, List.getElem?_eq_none_iff]

theorem PState.consume_ok {st st' : PState} {c : Char}
    (h : st.consume c = .ok st') :
    st'.code = st.code ∧ st'.index = st.index + 1 ∧
      st.index < st.code.length ∧ st.currentChar = some c := by
  unfold PState.consume at h
  split at h
  case h_1 c' hc =>
    split at h
    case isTrue he =>
      simp only [Except.ok.injEq] at h
      subst h
      exact ⟨by simp, by simp, PState.currentChar_some_lt hc, by rw [hc, he]⟩
    case isFalse he => simp at h
  case h_2 hc => simp at h

/-! ### Facts about the terminator scan -/

theorem skipUntilLoop_ok {fuel : Nat} {untilChars : List (List Char)}
    {allowEmpty : Bool} {startIndex startLine depth : Nat} {st : PState}
    {vp : ValuePosition} {controll : List Char} {st1 : PState}
    (h : skipUntilLoop fuel untilChars allowEmpty startIndex startLine depth
      st = .ok (vp, controll, st1)) :
    st1.code = st.code ∧ st.index ≤ st1.index ∧ controll ∈ untilChars ∧
      (controll ≠ [] → st.index < st1.index ∧ st1.index ≤ st.code.length) := by
  induction fuel generalizing depth st with
  | zero => exact absurd h (by simp [skipUntilLoop])
  | succ fuel ih =>
      rw [skipUntilLoop] at h
      split at h
      next hc => simp at h
      next c hc =>
        have hlt := PState.currentChar_some_lt hc
        split at h
        next =>
          have := ih h
          simp only [PState.advance_code, PState.advance_index] at this
          refine ⟨this.1, by omega, this.2.2.1, fun hne => ?_⟩
          have := this.2.2.2 hne
          omega
        next =>
          split at h
          next =>
            have := ih h
            simp only [PState.advance_code, PState.advance_index] at this
            refine ⟨this.1, by omega, this.2.2.1, fun hne => ?_⟩
            have := this.2.2.2 hne
            omega
          next =>
            split at h
            next u hf =>
              have hfind : untilChars.find? (fun v => st.areNextChars v) =
                  some u := by
                split at hf
                · exact hf
                · cases hf
              have hmem : u ∈ untilChars := List.mem_of_find?_eq_some hfind
              have hpred : st.areNextChars u = true := List.find?_some hfind
              dsimp only [] at h
              split at h
              next => simp at h
              next =>
                simp only [Except.ok.injEq, Prod.mk.injEq] at h
                obtain ⟨hvp, hct, hst⟩ := h
                subst hct
                subst hst
                refine ⟨by simp, by simp, hmem, fun hne => ?_⟩
                have hle := areNextCharsFrom_le hne hpred
                have hpos : 1 ≤ u.length := by
                  cases u with
                  | nil => exact absurd rfl hne
                  | cons a as => simp
                exact ⟨by simp; omega, by simpa using hle⟩
            next hf =>
              have := ih h
              simp only [PState.advance_code, PState.advance_index] at this
              refine ⟨this.1, by omega, this.2.2.1, fun hne => ?_⟩
              have := this.2.2.2 hne
              omega

theorem skipUntilAndWith_ok {fuel : Nat} {st : PState}
    {untilChars : List (List Char)} {allowEmpty : Bool} {vp : ValuePosition}
    {controll : List Char} {st1 : PState}
    (h : skipUntilAndWith fuel st untilChars allowEmpty =
      .ok (vp, controll, st1)) :
    st1.code = st.code ∧ st.index ≤ st1.index ∧ controll ∈ untilChars ∧
      (controll ≠ [] → st.index < st1.index ∧ st1.index ≤ st.code.length) :=
  skipUntilLoop_ok h

/-- The ok-result facts for a scan whose terminators are all nonempty. -/
theorem skipUntilAndWith_ok_ne {fuel : Nat} {st : PState}
    {untilChars : List (List Char)} {allowEmpty : Bool} {vp : ValuePosition}
    {controll : List Char} {st1 : PState}
    (hne : ∀ u ∈ untilChars, u ≠ [])
    (h : skipUntilAndWith fuel st untilChars allowEmpty =
      .ok (vp, controll, st1)) :
    st1.code = st.code ∧ st.index < st1.index ∧
      st1.index ≤ st.code.length := by
  obtain ⟨h1, _, h3, h4⟩ := skipUntilAndWith_ok h
  obtain ⟨h5, h6⟩ := h4 (hne controll h3)
  exact ⟨h1, h5, h6⟩

theorem parseParamsLoop_ok {fuel : Nat} {st : PState}
    {acc out : List ValuePosition} {st1 : PState}
    (h : parseParamsLoop fuel st acc = .ok (out, st1)) :
    st1.code = st.code ∧ st.index < st1.index ∧
      st1.index ≤ st.code.length := by
  induction fuel generalizing st acc with
  | zero => exact absurd h (by simp [parseParamsLoop])
  | succ fuel ih =>
      rw [parseParamsLoop] at h
      split at h
      next e heq => simp at h
      next r argument controll stA heq =>
        have hf := skipUntilAndWith_ok_ne
          (by intro u hu; fin_cases hu <;> simp) heq
        split at h
        next =>
          simp only [Except.ok.injEq, Prod.mk.injEq] at h
          obtain ⟨_, hst⟩ := h
          subst hst
          exact hf
        next =>
          have := ih h
          refine ⟨by rw [this.1, hf.1], by have := this.2.1; omega, ?_⟩
          have h2 := this.2.2
          rw [hf.1] at h2
          omega

theorem parseParams_ok {fuel : Nat} {st : PState} {n : Nat}
    {out : List ValuePosition} {st1 : PState}
    (h : parseParams fuel st n = .ok (out, st1)) :
    st1.code = st.code ∧ st.index ≤ st1.index := by
  cases fuel with
  | zero => exact absurd h (by simp [parseParams])
  | succ fuel =>
      rw [parseParams] at h
      split at h
      next =>
        split at h
        next => simp at h
        next =>
          simp only [Except.ok.injEq, Prod.mk.injEq] at h
          obtain ⟨_, hst⟩ := h
          subst hst
          exact ⟨rfl, Nat.le_refl _⟩
      next =>
        split at h
        next e heq => simp at h
        next r args stA heq =>
          have hf := parseParamsLoop_ok heq
          simp only [PState.advance_code, PState.advance_index] at hf
          rcases hl : args.getLast? with _ | l
          all_goals
            simp only [hl] at h
            repeat
              first
                | exact Except.noConfusion h
                | (simp only [Except.ok.injEq, Prod.mk.injEq] at h
                   obtain ⟨_, hst⟩ := h
                   subst hst
                   exact ⟨hf.1, by have := hf.2.1; omega⟩)
                | split at h

theorem makeInlineTsCodeStatement_ok {fuel : Nat} {st : PState}
    {s : Statement} {st1 : PState}
    (h : makeInlineTsCodeStatement fuel st = .ok (s, st1)) :
    st1.code = st.code ∧ st.index < st1.index := by
  cases fuel with
  | zero => exact absurd h (by simp [makeInlineTsCodeStatement])
  | succ fuel =>
      rw [makeInlineTsCodeStatement] at h
      split at h
      next e heq => simp at h
      next r epv ctrl stA heq =>
        have hf := skipUntilAndWith_ok_ne
          (by intro u hu; fin_cases hu <;> simp) heq
        split at h
        next e hcons => simp at h
        next stB hcons =>
          have hg := PState.consume_ok hcons
          have hcode : stB.code = st.code := by
            rw [hg.1, hf.1]
            by_cases hu : st.currentChar = some '!' <;> simp [hu]
          have hidx : st.index < stB.index := by
            have h1 := hf.2.1
            have h2 := hg.2.1
            by_cases hu : st.currentChar = some '!' <;>
              simp only [hu, if_true, if_false, PState.advance_index,
                reduceIte] at h1 <;> omega
          split at h <;>
            · simp only [Except.ok.injEq, Prod.mk.injEq] at h
              obtain ⟨_, hst⟩ := h
              subst hst
              exact ⟨hcode, hidx⟩

theorem skipInlineComment_ok {fuel : Nat} {st st1 : PState}
    (h : skipInlineComment fuel st = .ok st1) :
    st1.code = st.code ∧ st.index < st1.index := by
  cases fuel with
  | zero => exact absurd h (by simp [skipInlineComment])
  | succ fuel =>
      rw [skipInlineComment] at h
      split at h
      next e heq => simp at h
      next r vp ctrl stA heq =>
        simp only [Except.ok.injEq] at h
        subst h
        have hf := skipUntilAndWith_ok_ne
          (by intro u hu; fin_cases hu <;> simp) heq
        simp only [PState.advance_code, PState.advance_index] at hf
        exact ⟨hf.1, by have := hf.2.1; omega⟩

theorem makeLetStatement_ok {fuel si sl : Nat} {st : PState} {s : Statement}
    {st' : PState} (h : makeLetStatement fuel si sl st = .ok (s, st')) :
    st'.code = st.code ∧ st.index < st'.index := by
  cases fuel with
  | zero => exact absurd h (by simp [makeLetStatement])
  | succ fuel =>
      rw [makeLetStatement] at h
      split at h
      next => simp at h
      next st1 hcons =>
        have h1 := PState.consume_ok hcons
        split at h
        next => simp at h
        next r vp ctrl st2 heq =>
          have h2 := skipUntilAndWith_ok_ne
            (by intro u hu; fin_cases hu <;> simp) heq
          split at h
          next =>
            split at h
            next => simp at h
            next r2 vp2 c2 st3 heq2 =>
              have h3 := skipUntilAndWith_ok_ne
                (by intro u hu; fin_cases hu <;> simp) heq2
              simp only [Except.ok.injEq, Prod.mk.injEq] at h
              obtain ⟨_, hst⟩ := h
              subst hst
              refine ⟨by rw [h3.1, h2.1, h1.1], ?_⟩
              have := h3.2.1
              have := h2.2.1
              omega
          next =>
            simp only [Except.ok.injEq, Prod.mk.injEq] at h
            obtain ⟨_, hst⟩ := h
            subst hst
            refine ⟨by rw [h2.1, h1.1], ?_⟩
            have := h2.2.1
            omega

theorem makeAssignStatement_ok {fuel si sl : Nat} {st : PState}
    {s : Statement} {st' : PState}
    (h : makeAssignStatement fuel si sl st = .ok (s, st')) :
    st'.code = st.code ∧ st.index < st'.index := by
  cases fuel with
  | zero => exact absurd h (by simp [makeAssignStatement])
  | succ fuel =>
      rw [makeAssignStatement] at h
      split at h
      next => simp at h
      next st1 hcons =>
        have h1 := PState.consume_ok hcons
        split at h
        next => simp at h
        next r vp ctrl st2 heq =>
          have h2 := skipUntilAndWith_ok_ne
            (by intro u hu; fin_cases hu <;> simp) heq
          split at h
          next => simp at h
          next r2 vp2 c2 st3 heq2 =>
            have h3 := skipUntilAndWith_ok_ne
              (by intro u hu; fin_cases hu <;> simp) heq2
            simp only [Except.ok.injEq, Prod.mk.injEq] at h
            obtain ⟨_, hst⟩ := h
            subst hst
            refine ⟨by rw [h3.1, h2.1, h1.1], ?_⟩
            have := h3.2.1
            have := h2.2.1
            omega

theorem makeParamStatement_ok {fuel si sl : Nat} {st : PState}
    {s : Statement} {st' : PState}
    (h : makeParamStatement fuel si sl st = .ok (s, st')) :
    st'.code = st.code ∧ st.index < st'.index := by
  cases fuel with
  | zero => exact absurd h (by simp [makeParamStatement])
  | succ fuel =>
      rw [makeParamStatement] at h
      split at h
      next => simp at h
      next st1 hcons =>
        have h1 := PState.consume_ok hcons
        split at h
        next => simp at h
        next r vp ctrl st2 heq =>
          have h2 := skipUntilAndWith_ok_ne
            (by intro u hu; fin_cases hu <;> simp) heq
          split at h
          next => simp at h
          next r2 vp2 c2 st3 heq2 =>
            have h3 := skipUntilAndWith_ok_ne
              (by intro u hu; fin_cases hu <;> simp) heq2
            split at h
            next =>
              split at h
              next => simp at h
              next r3 vp3 c3 st4 heq3 =>
                have h4 := skipUntilAndWith_ok_ne
                  (by intro u hu; fin_cases hu <;> simp) heq3
                simp only [Except.ok.injEq, Prod.mk.injEq] at h
                obtain ⟨_, hst⟩ := h
                subst hst
                refine ⟨by rw [h4.1, h3.1, h2.1, h1.1], ?_⟩
                have := h4.2.1
                have := h3.2.1
                have := h2.2.1
                omega
            next =>
              simp only [Except.ok.injEq, Prod.mk.injEq] at h
              obtain ⟨_, hst⟩ := h
              subst hst
              refine ⟨by rw [h3.1, h2.1, h1.1], ?_⟩
              have := h3.2.1
              have := h2.2.1
              omega

theorem makeImportStatement_ok {fuel si sl : Nat} {st : PState}
    {s : Statement} {st' : PState}
    (h : makeImportStatement fuel si sl st = .ok (s, st')) :
    st'.code = st.code ∧ st.index < st'.index := by
  cases fuel with
  | zero => exact absurd h (by simp [makeImportStatement])
  | succ fuel =>
      rw [makeImportStatement] at h
      split at h
      next => simp at h
      next st1 hcons =>
        have h1 := PState.consume_ok hcons
        split at h
        next => simp at h
        next r vp ctrl st2 heq =>
          have h2 := skipUntilAndWith_ok_ne
            (by intro u hu; fin_cases hu <;> simp) heq
          simp only [Except.ok.injEq, Prod.mk.injEq] at h
          obtain ⟨_, hst⟩ := h
          subst hst
          refine ⟨by rw [h2.1, h1.1], ?_⟩
          have := h2.2.1
          omega

theorem makeDefineSlotStatement_ok {fuel si sl : Nat} {st : PState}
    {s : Statement} {st' : PState}
    (h : makeDefineSlotStatement fuel si sl st = .ok (s, st')) :
    st'.code = st.code ∧ st.index < st'.index := by
  cases fuel with
  | zero => exact absurd h (by simp [makeDefineSlotStatement])
  | succ fuel =>
      rw [makeDefineSlotStatement] at h
      split at h
      next => simp at h
      next st1 hcons =>
        have h1 := PState.consume_ok hcons
        split at h
        next => simp at h
        next r vp ctrl st2 heq =>
          have h2 := skipUntilAndWith_ok_ne
            (by intro u hu; fin_cases hu <;> simp) heq
          split at h
          next => simp at h
          next =>
            split at h
            next =>
              split at h
              next => simp at h
              next r2 vp2 c2 st3 heq2 =>
                have h3 := skipUntilAndWith_ok_ne
                  (by intro u hu; fin_cases hu <;> simp) heq2
                simp only [Except.ok.injEq, Prod.mk.injEq] at h
                obtain ⟨_, hst⟩ := h
                subst hst
                refine ⟨by rw [h3.1, h2.1, h1.1], ?_⟩
                have := h3.2.1
                have := h2.2.1
                omega
            next =>
              simp only [Except.ok.injEq, Prod.mk.injEq] at h
              obtain ⟨_, hst⟩ := h
              subst hst
              refine ⟨by rw [h2.1, h1.1], ?_⟩
              have := h2.2.1
              omega

theorem PState.currentChar_none_le {st : PState}
    (h : st.currentChar = none) : st.code.length ≤ st.index := by
  simpa [PState.currentChar, PState.getCharAt, List.getElem?_eq_none_iff]
    using h

/-! ### Cursor monotonicity of the recursive parsing functions

One simultaneous induction on fuel: every parsing function preserves the
source text and never moves the cursor backwards; parseOnce can only
return without moving when its accumulator is nonempty or the input is
exhausted; makeAtTag always consumes at least the at sign. -/

theorem parserFns_mono (fuel : Nat) :
    (∀ aI aD aP aS asi asl av (st : PState) s st',
      (parserFns fuel).parseOnceLoop aI aD aP aS asi asl av st =
        .ok (s, st') →
      st'.code = st.code ∧ st.index ≤ st'.index ∧
        (st'.index = st.index → (av ≠ [] ∨ st.code.length ≤ st.index))) ∧
    (∀ aI aD aP aS (st : PState) s st',
      (parserFns fuel).makeAtTag aI aD aP aS st = .ok (s, st') →
      st'.code = st.code ∧ st.index < st'.index) ∧
    (∀ si sl (st : PState) s st',
      (parserFns fuel).makeEachStatement si sl st = .ok (s, st') →
      st'.code = st.code ∧ st.index ≤ st'.index) ∧
    (∀ si sl (st : PState) s st',
      (parserFns fuel).makeIfStatement si sl st = .ok (s, st') →
      st'.code = st.code ∧ st.index ≤ st'.index) ∧
    (∀ si sl (st : PState) s st',
      (parserFns fuel).makeElseIfStatement si sl st = .ok (s, st') →
      st'.code = st.code ∧ st.index ≤ st'.index) ∧
    (∀ si sl (st : PState) s st',
      (parserFns fuel).makeElseStatement si sl st = .ok (s, st') →
      st'.code = st.code ∧ st.index ≤ st'.index) ∧
    (∀ si sl (st : PState) s st',
      (parserFns fuel).makeComponentStatement si sl st = .ok (s, st') →
      st'.code = st.code ∧ st.index ≤ st'.index) ∧
    (∀ si sl (st : PState) s st',
      (parserFns fuel).makeComponentSlotStatement si sl st = .ok (s, st') →
      st'.code = st.code ∧ st.index ≤ st'.index) ∧
    (∀ names aS (st : PState) ss t st',
      (parserFns fuel).parseUntilStatment names aS st = .ok (ss, t, st') →
      st'.code = st.code ∧ st.index ≤ st'.index) := by
  induction fuel with
  | zero =>
      refine ⟨?_, ?_, ?_, ?_, ?_, ?_, ?_, ?_, ?_⟩ <;>
        · intros
          simp [parserFns, parserFnsZero] at *
  | succ fuel ih =>
      obtain ⟨ihOnce, ihTag, ihEach, ihIf, ihElseIf, ihElse, ihComp,
        ihSlotS, ihUntil⟩ := ih
      refine ⟨?_, ?_, ?_, ?_, ?_, ?_, ?_, ?_, ?_⟩
      -- parseOnceLoop
      · intro aI aD aP aS asi asl av st s st' h
        simp only [parserFns, parserFnsStep] at h
        split at h
        next hc =>
          simp only [Except.ok.injEq, Prod.mk.injEq] at h
          obtain ⟨_, hst⟩ := h
          subst hst
          exact ⟨rfl, Nat.le_refl _,
            fun _ => Or.inr (PState.currentChar_none_le hc)⟩
        next c hc =>
          split at h
          next =>
            have := ihOnce _ _ _ _ _ _ _ _ _ _ h
            simp only [PState.advance_code, PState.advance_index] at this
            exact ⟨this.1, by omega, fun he => by omega⟩
          next =>
            split at h
            next =>
              split at h
              next hav =>
                simp only [Except.ok.injEq, Prod.mk.injEq] at h
                obtain ⟨_, hst⟩ := h
                subst hst
                exact ⟨rfl, Nat.le_refl _, fun _ => Or.inl hav⟩
              next =>
                split at h
                next =>
                  split at h
                  next => simp at h
                  next st1 hcm =>
                    have hc1 := skipInlineComment_ok hcm
                    have := ihOnce _ _ _ _ _ _ _ _ _ _ h
                    refine ⟨by rw [this.1, hc1.1], ?_, fun he => by
                      have := this.2.1
                      have := hc1.2
                      omega⟩
                    have := this.2.1
                    have := hc1.2
                    omega
                next =>
                  have := makeInlineTsCodeStatement_ok h
                  exact ⟨this.1, by have := this.2; omega,
                    fun he => by have := this.2; omega⟩
            next =>
              split at h
              next =>
                have := ihOnce _ _ _ _ _ _ _ _ _ _ h
                simp only [PState.advance_code, PState.advance_index] at this
                exact ⟨this.1, by omega, fun he => by omega⟩
              next =>
                split at h
                next =>
                  split at h
                  next hav =>
                    simp only [Except.ok.injEq, Prod.mk.injEq] at h
                    obtain ⟨_, hst⟩ := h
                    subst hst
                    exact ⟨rfl, Nat.le_refl _, fun _ => Or.inl hav⟩
                  next =>
                    have := ihTag _ _ _ _ _ _ _ h
                    exact ⟨this.1, by have := this.2; omega,
                      fun he => by have := this.2; omega⟩
                next =>
                  have := ihOnce _ _ _ _ _ _ _ _ _ _ h
                  simp only [PState.advance_code, PState.advance_index]
                    at this
                  exact ⟨this.1, by omega, fun he => by omega⟩
      -- makeAtTag
      · intro aI aD aP aS st s st' h
        simp only [parserFns, parserFnsStep] at h
        generalize hst2 : (st.advance 1).advance
            (((st.advance 1).code.drop (st.advance 1).index).takeWhile
              isValidTagChar).length = st2 at h
        generalize htag : ((st.advance 1).code.drop
            (st.advance 1).index).takeWhile isValidTagChar = tagName at h
        have hc2 : st2.code = st.code := by rw [← hst2]; simp
        have hi2 : st.index < st2.index := by
          rw [← hst2]
          simp only [PState.advance_index]
          omega
        by_cases t1 : tagName = "each".toList
        · rw [if_pos t1] at h
          have := ihEach _ _ _ _ _ h
          exact ⟨by rw [this.1, hc2], by have := this.2; omega⟩
        rw [if_neg t1] at h
        by_cases t2 : tagName = "if".toList
        · rw [if_pos t2] at h
          have := ihIf _ _ _ _ _ h
          exact ⟨by rw [this.1, hc2], by have := this.2; omega⟩
        rw [if_neg t2] at h
        by_cases t3 : tagName = "elseif".toList
        · rw [if_pos t3] at h
          have := ihElseIf _ _ _ _ _ h
          exact ⟨by rw [this.1, hc2], by have := this.2; omega⟩
        rw [if_neg t3] at h
        by_cases t4 : tagName = "else".toList
        · rw [if_pos t4] at h
          have := ihElse _ _ _ _ _ h
          exact ⟨by rw [this.1, hc2], by have := this.2; omega⟩
        rw [if_neg t4] at h
        by_cases t5 : tagName = "let".toList
        · rw [if_pos t5] at h
          have := makeLetStatement_ok h
          exact ⟨by rw [this.1, hc2], by have := this.2; omega⟩
        rw [if_neg t5] at h
        by_cases t6 : tagName = "assign".toList
        · rw [if_pos t6] at h
          have := makeAssignStatement_ok h
          exact ⟨by rw [this.1, hc2], by have := this.2; omega⟩
        rw [if_neg t6] at h
        by_cases t7 : tagName = "component".toList
        · rw [if_pos t7] at h
          have := ihComp _ _ _ _ _ h
          exact ⟨by rw [this.1, hc2], by have := this.2; omega⟩
        rw [if_neg t7] at h
        by_cases t8 : tagName = "import".toList
        · rw [if_pos t8] at h
          split at h
          next => simp at h
          next =>
            have := makeImportStatement_ok h
            exact ⟨by rw [this.1, hc2], by have := this.2; omega⟩
        rw [if_neg t8] at h
        by_cases t9 : tagName = "param".toList
        · rw [if_pos t9] at h
          split at h
          next => simp at h
          next =>
            have := makeParamStatement_ok h
            exact ⟨by rw [this.1, hc2], by have := this.2; omega⟩
        rw [if_neg t9] at h
        by_cases t10 : tagName = "defslot".toList
        · rw [if_pos t10] at h
          split at h
          next => simp at h
          next =>
            have := makeDefineSlotStatement_ok h
            exact ⟨by rw [this.1, hc2], by have := this.2; omega⟩
        rw [if_neg t10] at h
        by_cases t11 : tagName = "slot".toList
        · rw [if_pos t11] at h
          split at h
          next => simp at h
          next =>
            have := ihSlotS _ _ _ _ _ h
            exact ⟨by rw [this.1, hc2], by have := this.2; omega⟩
        rw [if_neg t11] at h
        by_cases t12 : tagName = "end".toList
        · rw [if_pos t12] at h
          simp only [Except.ok.injEq, Prod.mk.injEq] at h
          obtain ⟨_, hst⟩ := h
          subst hst
          exact ⟨hc2, hi2⟩
        · rw [if_neg t12] at h
          simp at h
      -- makeEachStatement
      · intro si sl st s st' h
        simp only [parserFns, parserFnsStep] at h
        split at h
        next => simp at h
        next st1 hcons =>
          have h1 := PState.consume_ok hcons
          split at h
          next => simp at h
          next r vp ctrl st2 heq =>
            have h2 := skipUntilAndWith_ok_ne
              (by intro u hu; fin_cases hu <;> simp) heq
            split at h
            next => simp at h
            next =>
              split at h
              next => simp at h
              next r2 vp2 c2 st3 heq2 =>
                have h3 := skipUntilAndWith_ok_ne
                  (by intro u hu; fin_cases hu <;> simp) heq2
                split at h
                next => simp at h
                next r3 children endS st4 heq3 =>
                  have h4 := ihUntil _ _ _ _ _ _ heq3
                  simp only [Except.ok.injEq, Prod.mk.injEq] at h
                  obtain ⟨_, hst⟩ := h
                  subst hst
                  refine ⟨by rw [h4.1, h3.1, h2.1, h1.1], ?_⟩
                  have := h4.2
                  have := h3.2.1
                  have := h2.2.1
                  omega
      -- makeIfStatement
      · intro si sl st s st' h
        simp only [parserFns, parserFnsStep] at h
        split at h
        next => simp at h
        next st1 hcons =>
          have h1 := PState.consume_ok hcons
          split at h
          next => simp at h
          next r vp ctrl st2 heq =>
            have h2 := skipUntilAndWith_ok_ne
              (by intro u hu; fin_cases hu <;> simp) heq
            split at h
            next => simp at h
            next r2 children endS st3 heq2 =>
              have h3 := ihUntil _ _ _ _ _ _ heq2
              simp only [Except.ok.injEq, Prod.mk.injEq] at h
              obtain ⟨_, hst⟩ := h
              subst hst
              refine ⟨by rw [h3.1, h2.1, h1.1], ?_⟩
              have := h3.2
              have := h2.2.1
              omega
      -- makeElseIfStatement
      · intro si sl st s st' h
        simp only [parserFns, parserFnsStep] at h
        split at h
        next => simp at h
        next st1 hcons =>
          have h1 := PState.consume_ok hcons
          split at h
          next => simp at h
          next r vp ctrl st2 heq =>
            have h2 := skipUntilAndWith_ok_ne
              (by intro u hu; fin_cases hu <;> simp) heq
            split at h
            next => simp at h
            next r2 children endS st3 heq2 =>
              have h3 := ihUntil _ _ _ _ _ _ heq2
              simp only [Except.ok.injEq, Prod.mk.injEq] at h
              obtain ⟨_, hst⟩ := h
              subst hst
              refine ⟨by rw [h3.1, h2.1, h1.1], ?_⟩
              have := h3.2
              have := h2.2.1
              omega
      -- makeElseStatement
      · intro si sl st s st' h
        simp only [parserFns, parserFnsStep] at h
        split at h
        next => simp at h
        next r args st1 heq =>
          have h1 := parseParams_ok heq
          split at h
          next => simp at h
          next r2 children endS st2 heq2 =>
            have h2 := ihUntil _ _ _ _ _ _ heq2
            simp only [Except.ok.injEq, Prod.mk.injEq] at h
            obtain ⟨_, hst⟩ := h
            subst hst
            refine ⟨by rw [h2.1, h1.1], ?_⟩
            have := h2.2
            have := h1.2
            omega
      -- makeComponentStatement
      · intro si sl st s st' h
        simp only [parserFns, parserFnsStep] at h
        split at h
        next => simp at h
        next r tagParams st1 heq =>
          have h1 := parseParams_ok heq
          split at h
          next => simp at h
          next r2 statements endS st2 heq2 =>
            have h2 := ihUntil _ _ _ _ _ _ heq2
            simp only [Except.ok.injEq, Prod.mk.injEq] at h
            obtain ⟨_, hst⟩ := h
            subst hst
            refine ⟨by rw [h2.1, h1.1], ?_⟩
            have := h2.2
            have := h1.2
            omega
      -- makeComponentSlotStatement
      · intro si sl st s st' h
        simp only [parserFns, parserFnsStep] at h
        split at h
        next => simp at h
        next st1 hcons =>
          have h1 := PState.consume_ok hcons
          split at h
          next => simp at h
          next r vp ctrl st2 heq =>
            have h2 := skipUntilAndWith_ok_ne
              (by intro u hu; fin_cases hu <;> simp) heq
            split at h
            next => simp at h
            next optv st3 hafp =>
              have h3 : st3.code = st2.code ∧ st2.index ≤ st3.index := by
                split at hafp
                next =>
                  split at hafp
                  next => simp at hafp
                  next r3 vp3 c3 stp heq3 =>
                    have := skipUntilAndWith_ok_ne
                      (by intro u hu; fin_cases hu <;> simp) heq3
                    simp only [Except.ok.injEq, Prod.mk.injEq] at hafp
                    obtain ⟨_, hst3⟩ := hafp
                    subst hst3
                    exact ⟨this.1, Nat.le_of_lt this.2.1⟩
                next =>
                  simp only [Except.ok.injEq, Prod.mk.injEq] at hafp
                  obtain ⟨_, hst3⟩ := hafp
                  subst hst3
                  exact ⟨rfl, Nat.le_refl _⟩
              split at h
              next => simp at h
              next r4 children endS st4 heq4 =>
                have h4 := ihUntil _ _ _ _ _ _ heq4
                simp only [Except.ok.injEq, Prod.mk.injEq] at h
                obtain ⟨_, hst⟩ := h
                subst hst
                refine ⟨by rw [h4.1, h3.1, h2.1, h1.1], ?_⟩
                have := h4.2
                have := h3.2
                have := h2.2.1
                omega
      -- parseUntilStatment
      · intro names aS st ss t st' h
        simp only [parserFns, parserFnsStep] at h
        split at h
        next => simp at h
        next =>
          split at h
          next => simp at h
          next r statement st1 heq =>
            have h1 := ihOnce _ _ _ _ _ _ _ _ _ _ heq
            split at h
            next =>
              simp only [Except.ok.injEq, Prod.mk.injEq] at h
              obtain ⟨_, _, hst⟩ := h
              subst hst
              exact ⟨h1.1, h1.2.1⟩
            next =>
              split at h
              next => simp at h
              next r2 statements ending st2 heq2 =>
                have h2 := ihUntil _ _ _ _ _ _ heq2
                simp only [Except.ok.injEq, Prod.mk.injEq] at h
                obtain ⟨_, _, hst⟩ := h
                subst hst
                refine ⟨by rw [h2.1, h1.1], ?_⟩
                have := h2.2
                have := h1.2.1
                omega

/-- Cursor monotonicity of parseOnce, as a statement about the wrapper. -/
theorem parseOnceLoop_mono {fuel : Nat} {aI aD aP aS : Bool}
    {asi asl : Nat} {av : List Char} {st : PState} {s : Statement}
    {st' : PState}
    (h : parseOnceLoop fuel aI aD aP aS asi asl av st = .ok (s, st')) :
    st'.code = st.code ∧ st.index ≤ st'.index ∧
      (st'.index = st.index → (av ≠ [] ∨ st.code.length ≤ st.index)) :=
  (parserFns_mono fuel).1 _ _ _ _ _ _ _ _ _ _ h

/-! ### Fuel sufficiency

One unit of fuel is consumed per recursion step; the lemmas below show
that a fuel budget linear in the remaining input rules the fuelExhausted
marker out, which is the termination argument for the source parser. -/

theorem skipUntilLoop_ne_fuel {fuel : Nat} {untilChars : List (List Char)}
    {allowEmpty : Bool} {startIndex startLine depth : Nat} {st : PState}
    (hf : st.code.length - st.index + 1 ≤ fuel) :
    skipUntilLoop fuel untilChars allowEmpty startIndex startLine depth st ≠
      .error .fuelExhausted := by
  induction fuel generalizing depth st with
  | zero => omega
  | succ fuel ih =>
      intro h
      rw [skipUntilLoop] at h
      split at h
      next => simp at h
      next c hc =>
        have hlt := PState.currentChar_some_lt hc
        split at h
        next =>
          exact ih (by
            simp only [PState.advance_code, PState.advance_index]
            omega) h
        next =>
          split at h
          next =>
            exact ih (by simp only [PState.advance_code,
              PState.advance_index]; omega) h
          next =>
            split at h
            next u hfind =>
              dsimp only [] at h
              split at h
              next => simp at h
              next => simp at h
            next =>
              exact ih (by simp only [PState.advance_code,
                PState.advance_index]; omega) h

theorem skipUntilAndWith_ne_fuel {fuel : Nat} {st : PState}
    {untilChars : List (List Char)} {allowEmpty : Bool}
    (hf : st.code.length - st.index + 1 ≤ fuel) :
    skipUntilAndWith fuel st untilChars allowEmpty ≠
      .error .fuelExhausted :=
  skipUntilLoop_ne_fuel hf

theorem parseParamsLoop_ne_fuel {fuel : Nat} {st : PState}
    {acc : List ValuePosition}
    (hf : st.code.length - st.index + 2 ≤ fuel) :
    parseParamsLoop fuel st acc ≠ .error .fuelExhausted := by
  induction fuel generalizing st acc with
  | zero => omega
  | succ fuel ih =>
      intro h
      rw [parseParamsLoop] at h
      split at h
      next e heq =>
        simp only [Except.error.injEq] at h
        subst h
        exact skipUntilAndWith_ne_fuel (by omega) heq
      next r argument controll stA heq =>
        have hfa := skipUntilAndWith_ok_ne
          (by intro u hu; fin_cases hu <;> simp) heq
        split at h
        next => simp at h
        next =>
          refine ih ?_ h
          have h1 := hfa.2.1
          have h2 := hfa.2.2
          rw [hfa.1]
          omega

theorem parseParams_ne_fuel {fuel : Nat} {st : PState} {n : Nat}
    (hf : st.code.length - st.index + 3 ≤ fuel) :
    parseParams fuel st n ≠ .error .fuelExhausted := by
  cases fuel with
  | zero => omega
  | succ fuel =>
      intro h
      rw [parseParams] at h
      split at h
      next =>
        split at h
        next => simp at h
        next => simp at h
      next hpar =>
        split at h
        next e heq =>
          simp only [Except.error.injEq] at h
          subst h
          refine parseParamsLoop_ne_fuel ?_ heq
          simp only [PState.advance_code, PState.advance_index]
          omega
        next r args stA heq =>
          rcases hl : args.getLast? with _ | l
          all_goals
            simp only [hl] at h
            repeat
              first
                | exact Except.noConfusion h
                | simp at h
                | split at h

theorem makeInlineTsCodeStatement_ne_fuel {fuel : Nat} {st : PState}
    (hlt : st.index < st.code.length)
    (hf : st.code.length - st.index + 1 ≤ fuel) :
    makeInlineTsCodeStatement fuel st ≠ .error .fuelExhausted := by
  cases fuel with
  | zero => omega
  | succ fuel =>
      intro h
      rw [makeInlineTsCodeStatement] at h
      split at h
      next e heq =>
        simp only [Except.error.injEq] at h
        subst h
        refine skipUntilAndWith_ne_fuel ?_ heq
        by_cases hu : st.currentChar = some '!' <;>
          simp only [hu, if_true, if_false, reduceIte, PState.advance_code,
            PState.advance_index] <;> omega
      next r epv ctrl stA heq =>
        split at h
        next e hcons =>
          simp only [Except.error.injEq] at h
          subst h
          revert hcons
          unfold PState.consume
          split
          next => split <;> simp
          next => simp
        next stB hcons =>
          split at h <;> simp at h

theorem skipInlineComment_ne_fuel {fuel : Nat} {st : PState}
    (hlt : st.index < st.code.length)
    (hf : st.code.length - st.index + 1 ≤ fuel) :
    skipInlineComment fuel st ≠ .error .fuelExhausted := by
  cases fuel with
  | zero => omega
  | succ fuel =>
      intro h
      rw [skipInlineComment] at h
      split at h
      next e heq =>
        simp only [Except.error.injEq] at h
        subst h
        refine skipUntilAndWith_ne_fuel ?_ heq
        simp only [PState.advance_code, PState.advance_index]
        omega
      next => simp at h

theorem PState.consume_ne_fuel {st : PState} {c : Char} :
    st.consume c ≠ .error .fuelExhausted := by
  unfold PState.consume
  split
  next => split <;> simp
  next => simp

theorem makeLetStatement_ne_fuel {fuel si sl : Nat} {st : PState}
    (hf : st.code.length - st.index + 2 ≤ fuel) :
    makeLetStatement fuel si sl st ≠ .error .fuelExhausted := by
  cases fuel with
  | zero => omega
  | succ fuel =>
      intro h
      rw [makeLetStatement] at h
      split at h
      next e hcons =>
        simp only [Except.error.injEq] at h
        subst h
        exact PState.consume_ne_fuel hcons
      next st1 hcons =>
        have h1 := PState.consume_ok hcons
        split at h
        next e heq =>
          simp only [Except.error.injEq] at h
          subst h
          refine skipUntilAndWith_ne_fuel ?_ heq
          rw [h1.1, h1.2.1]
          omega
        next r vp ctrl st2 heq =>
          have h2 := skipUntilAndWith_ok_ne
            (by intro u hu; fin_cases hu <;> simp) heq
          split at h
          next =>
            split at h
            next e heq2 =>
              simp only [Except.error.injEq] at h
              subst h
              refine skipUntilAndWith_ne_fuel ?_ heq2
              rw [h2.1, h1.1]
              have := h2.2.1
              have := h2.2.2
              rw [h1.1] at *
              omega
            next => simp at h
          next => simp at h

theorem makeAssignStatement_ne_fuel {fuel si sl : Nat} {st : PState}
    (hf : st.code.length - st.index + 2 ≤ fuel) :
    makeAssignStatement fuel si sl st ≠ .error .fuelExhausted := by
  cases fuel with
  | zero => omega
  | succ fuel =>
      intro h
      rw [makeAssignStatement] at h
      split at h
      next e hcons =>
        simp only [Except.error.injEq] at h
        subst h
        exact PState.consume_ne_fuel hcons
      next st1 hcons =>
        have h1 := PState.consume_ok hcons
        split at h
        next e heq =>
          simp only [Except.error.injEq] at h
          subst h
          refine skipUntilAndWith_ne_fuel ?_ heq
          rw [h1.1, h1.2.1]
          omega
        next r vp ctrl st2 heq =>
          have h2 := skipUntilAndWith_ok_ne
            (by intro u hu; fin_cases hu <;> simp) heq
          split at h
          next e heq2 =>
            simp only [Except.error.injEq] at h
            subst h
            refine skipUntilAndWith_ne_fuel ?_ heq2
            rw [h2.1, h1.1]
            have := h2.2.1
            have := h2.2.2
            rw [h1.1] at *
            omega
          next => simp at h

theorem makeParamStatement_ne_fuel {fuel si sl : Nat} {st : PState}
    (hf : st.code.length - st.index + 2 ≤ fuel) :
    makeParamStatement fuel si sl st ≠ .error .fuelExhausted := by
  cases fuel with
  | zero => omega
  | succ fuel =>
      intro h
      rw [makeParamStatement] at h
      split at h
      next e hcons =>
        simp only [Except.error.injEq] at h
        subst h
        exact PState.consume_ne_fuel hcons
      next st1 hcons =>
        have h1 := PState.consume_ok hcons
        split at h
        next e heq =>
          simp only [Except.error.injEq] at h
          subst h
          refine skipUntilAndWith_ne_fuel ?_ heq
          rw [h1.1, h1.2.1]
          omega
        next r vp ctrl st2 heq =>
          have h2 := skipUntilAndWith_ok_ne
            (by intro u hu; fin_cases hu <;> simp) heq
          split at h
          next e heq2 =>
            simp only [Except.error.injEq] at h
            subst h
            refine skipUntilAndWith_ne_fuel ?_ heq2
            rw [h2.1, h1.1]
            have := h2.2.1
            have := h2.2.2
            rw [h1.1] at *
            omega
          next r2 vp2 c2 st3 heq2 =>
            have h3 := skipUntilAndWith_ok_ne
              (by intro u hu; fin_cases hu <;> simp) heq2
            split at h
            next =>
              split at h
              next e heq3 =>
                simp only [Except.error.injEq] at h
                subst h
                refine skipUntilAndWith_ne_fuel ?_ heq3
                rw [h3.1, h2.1, h1.1]
                have := h3.2.1
                have := h3.2.2
                rw [h2.1, h1.1] at *
                omega
              next => simp at h
            next => simp at h

theorem makeImportStatement_ne_fuel {fuel si sl : Nat} {st : PState}
    (hf : st.code.length - st.index + 2 ≤ fuel) :
    makeImportStatement fuel si sl st ≠ .error .fuelExhausted := by
  cases fuel with
  | zero => omega
  | succ fuel =>
      intro h
      rw [makeImportStatement] at h
      split at h
      next e hcons =>
        simp only [Except.error.injEq] at h
        subst h
        exact PState.consume_ne_fuel hcons
      next st1 hcons =>
        have h1 := PState.consume_ok hcons
        split at h
        next e heq =>
          simp only [Except.error.injEq] at h
          subst h
          refine skipUntilAndWith_ne_fuel ?_ heq
          rw [h1.1, h1.2.1]
          omega
        next => simp at h

theorem makeDefineSlotStatement_ne_fuel {fuel si sl : Nat} {st : PState}
    (hf : st.code.length - st.index + 2 ≤ fuel) :
    makeDefineSlotStatement fuel si sl st ≠ .error .fuelExhausted := by
  cases fuel with
  | zero => omega
  | succ fuel =>
      intro h
      rw [makeDefineSlotStatement] at h
      split at h
      next e hcons =>
        simp only [Except.error.injEq] at h
        subst h
        exact PState.consume_ne_fuel hcons
      next st1 hcons =>
        have h1 := PState.consume_ok hcons
        split at h
        next e heq =>
          simp only [Except.error.injEq] at h
          subst h
          refine skipUntilAndWith_ne_fuel ?_ heq
          rw [h1.1, h1.2.1]
          omega
        next r vp ctrl st2 heq =>
          have h2 := skipUntilAndWith_ok_ne
            (by intro u hu; fin_cases hu <;> simp) heq
          split at h
          next => simp at h
          next =>
            split at h
            next =>
              split at h
              next e heq2 =>
                simp only [Except.error.injEq] at h
                subst h
                refine skipUntilAndWith_ne_fuel ?_ heq2
                rw [h2.1, h1.1]
                have := h2.2.1
                have := h2.2.2
                rw [h1.1] at *
                omega
              next => simp at h
            next => simp at h

/-- Fuel sufficiency for the mutually recursive parsing functions: with a
budget linear in the remaining input none of them runs out of fuel. -/
theorem parserFns_ne_fuel (fuel : Nat) :
    (∀ aI aD aP aS asi asl av (st : PState),
      4 * (st.code.length - st.index) + 2 ≤ fuel →
      (parserFns fuel).parseOnceLoop aI aD aP aS asi asl av st ≠
        .error .fuelExhausted) ∧
    (∀ aI aD aP aS (st : PState), st.index < st.code.length →
      4 * (st.code.length - st.index) + 1 ≤ fuel →
      (parserFns fuel).makeAtTag aI aD aP aS st ≠ .error .fuelExhausted) ∧
    (∀ si sl (st : PState), 4 * (st.code.length - st.index) + 4 ≤ fuel →
      (parserFns fuel).makeEachStatement si sl st ≠ .error .fuelExhausted) ∧
    (∀ si sl (st : PState), 4 * (st.code.length - st.index) + 4 ≤ fuel →
      (parserFns fuel).makeIfStatement si sl st ≠ .error .fuelExhausted) ∧
    (∀ si sl (st : PState), 4 * (st.code.length - st.index) + 4 ≤ fuel →
      (parserFns fuel).makeElseIfStatement si sl st ≠
        .error .fuelExhausted) ∧
    (∀ si sl (st : PState), 4 * (st.code.length - st.index) + 4 ≤ fuel →
      (parserFns fuel).makeElseStatement si sl st ≠ .error .fuelExhausted) ∧
    (∀ si sl (st : PState), 4 * (st.code.length - st.index) + 4 ≤ fuel →
      (parserFns fuel).makeComponentStatement si sl st ≠
        .error .fuelExhausted) ∧
    (∀ si sl (st : PState), 4 * (st.code.length - st.index) + 4 ≤ fuel →
      (parserFns fuel).makeComponentSlotStatement si sl st ≠
        .error .fuelExhausted) ∧
    (∀ names aS (st : PState), 4 * (st.code.length - st.index) + 3 ≤ fuel →
      (parserFns fuel).parseUntilStatment names aS st ≠
        .error .fuelExhausted) := by
  induction fuel with
  | zero =>
      refine ⟨?_, ?_, ?_, ?_, ?_, ?_, ?_, ?_, ?_⟩ <;>
        · intros
          omega
  | succ fuel ih =>
      obtain ⟨ihOnce, ihTag, ihEach, ihIf, ihElseIf, ihElse, ihComp,
        ihSlotS, ihUntil⟩ := ih
      refine ⟨?_, ?_, ?_, ?_, ?_, ?_, ?_, ?_, ?_⟩
      -- parseOnceLoop
      · intro aI aD aP aS asi asl av st hf hcontra
        simp only [parserFns, parserFnsStep] at hcontra
        split at hcontra
        next hc => simp at hcontra
        next c hc =>
          have hlt := PState.currentChar_some_lt hc
          split at hcontra
          next =>
            refine ihOnce _ _ _ _ _ _ _ _ ?_ hcontra
            simp only [PState.advance_code, PState.advance_index]
            omega
          next =>
            split at hcontra
            next =>
              split at hcontra
              next hav => simp at hcontra
              next =>
                split at hcontra
                next =>
                  split at hcontra
                  next e hcm =>
                    simp only [Except.error.injEq] at hcontra
                    subst hcontra
                    exact skipInlineComment_ne_fuel hlt (by omega) hcm
                  next st1 hcm =>
                    have hc1 := skipInlineComment_ok hcm
                    refine ihOnce _ _ _ _ _ _ _ _ ?_ hcontra
                    rw [hc1.1]
                    have := hc1.2
                    omega
                next =>
                  exact makeInlineTsCodeStatement_ne_fuel hlt (by omega)
                    hcontra
            next =>
              split at hcontra
              next =>
                refine ihOnce _ _ _ _ _ _ _ _ ?_ hcontra
                simp only [PState.advance_code, PState.advance_index]
                omega
              next =>
                split at hcontra
                next =>
                  split at hcontra
                  next hav => simp at hcontra
                  next => exact ihTag _ _ _ _ _ hlt (by omega) hcontra
                next =>
                  refine ihOnce _ _ _ _ _ _ _ _ ?_ hcontra
                  simp only [PState.advance_code, PState.advance_index]
                  omega
      -- makeAtTag
      · intro aI aD aP aS st hlt hf hcontra
        simp only [parserFns, parserFnsStep] at hcontra
        generalize hst2 : (st.advance 1).advance
            (((st.advance 1).code.drop (st.advance 1).index).takeWhile
              isValidTagChar).length = st2 at hcontra
        have hc2 : st2.code = st.code := by rw [← hst2]; simp
        have hi2 : st.index < st2.index := by
          rw [← hst2]
          simp only [PState.advance_index]
          omega
        have hbound4 : 4 * (st2.code.length - st2.index) + 4 ≤ fuel := by
          rw [hc2]
          omega
        have hbound2 : st2.code.length - st2.index + 2 ≤ fuel := by
          rw [hc2]
          omega
        generalize htag : ((st.advance 1).code.drop
            (st.advance 1).index).takeWhile isValidTagChar = tagName
          at hcontra
        by_cases t1 : tagName = "each".toList
        · rw [if_pos t1] at hcontra
          exact ihEach _ _ _ hbound4 hcontra
        rw [if_neg t1] at hcontra
        by_cases t2 : tagName = "if".toList
        · rw [if_pos t2] at hcontra
          exact ihIf _ _ _ hbound4 hcontra
        rw [if_neg t2] at hcontra
        by_cases t3 : tagName = "elseif".toList
        · rw [if_pos t3] at hcontra
          exact ihElseIf _ _ _ hbound4 hcontra
        rw [if_neg t3] at hcontra
        by_cases t4 : tagName = "else".toList
        · rw [if_pos t4] at hcontra
          exact ihElse _ _ _ hbound4 hcontra
        rw [if_neg t4] at hcontra
        by_cases t5 : tagName = "let".toList
        · rw [if_pos t5] at hcontra
          exact makeLetStatement_ne_fuel hbound2 hcontra
        rw [if_neg t5] at hcontra
        by_cases t6 : tagName = "assign".toList
        · rw [if_pos t6] at hcontra
          exact makeAssignStatement_ne_fuel hbound2 hcontra
        rw [if_neg t6] at hcontra
        by_cases t7 : tagName = "component".toList
        · rw [if_pos t7] at hcontra
          exact ihComp _ _ _ hbound4 hcontra
        rw [if_neg t7] at hcontra
        by_cases t8 : tagName = "import".toList
        · rw [if_pos t8] at hcontra
          split at hcontra
          next => simp at hcontra
          next => exact makeImportStatement_ne_fuel hbound2 hcontra
        rw [if_neg t8] at hcontra
        by_cases t9 : tagName = "param".toList
        · rw [if_pos t9] at hcontra
          split at hcontra
          next => simp at hcontra
          next => exact makeParamStatement_ne_fuel hbound2 hcontra
        rw [if_neg t9] at hcontra
        by_cases t10 : tagName = "defslot".toList
        · rw [if_pos t10] at hcontra
          split at hcontra
          next => simp at hcontra
          next => exact makeDefineSlotStatement_ne_fuel hbound2 hcontra
        rw [if_neg t10] at hcontra
        by_cases t11 : tagName = "slot".toList
        · rw [if_pos t11] at hcontra
          split at hcontra
          next => simp at hcontra
          next => exact ihSlotS _ _ _ hbound4 hcontra
        rw [if_neg t11] at hcontra
        by_cases t12 : tagName = "end".toList
        · rw [if_pos t12] at hcontra
          simp at hcontra
        · rw [if_neg t12] at hcontra
          simp at hcontra
      -- makeEachStatement
      · intro si sl st hf hcontra
        simp only [parserFns, parserFnsStep] at hcontra
        split at hcontra
        next e hcons =>
          simp only [Except.error.injEq] at hcontra
          subst hcontra
          exact PState.consume_ne_fuel hcons
        next st1 hcons =>
          have h1 := PState.consume_ok hcons
          split at hcontra
          next e heq =>
            simp only [Except.error.injEq] at hcontra
            subst hcontra
            refine skipUntilAndWith_ne_fuel ?_ heq
            rw [h1.1, h1.2.1]
            omega
          next r vp ctrl st2 heq =>
            have h2 := skipUntilAndWith_ok_ne
              (by intro u hu; fin_cases hu <;> simp) heq
            rw [h1.1] at h2
            split at hcontra
            next => simp at hcontra
            next =>
              split at hcontra
              next e heq2 =>
                simp only [Except.error.injEq] at hcontra
                subst hcontra
                refine skipUntilAndWith_ne_fuel ?_ heq2
                rw [h2.1]
                have := h2.2.1
                have := h2.2.2
                omega
              next r2 vp2 c2 st3 heq2 =>
                have h3 := skipUntilAndWith_ok_ne
                  (by intro u hu; fin_cases hu <;> simp) heq2
                rw [h2.1] at h3
                split at hcontra
                next e heq3 =>
                  simp only [Except.error.injEq] at hcontra
                  subst hcontra
                  refine ihUntil _ _ _ ?_ heq3
                  rw [h3.1]
                  have := h3.2.1
                  have := h2.2.1
                  have := h1.2.1
                  omega
                next => simp at hcontra
      -- makeIfStatement
      · intro si sl st hf hcontra
        simp only [parserFns, parserFnsStep] at hcontra
        split at hcontra
        next e hcons =>
          simp only [Except.error.injEq] at hcontra
          subst hcontra
          exact PState.consume_ne_fuel hcons
        next st1 hcons =>
          have h1 := PState.consume_ok hcons
          split at hcontra
          next e heq =>
            simp only [Except.error.injEq] at hcontra
            subst hcontra
            refine skipUntilAndWith_ne_fuel ?_ heq
            rw [h1.1, h1.2.1]
            omega
          next r vp ctrl st2 heq =>
            have h2 := skipUntilAndWith_ok_ne
              (by intro u hu; fin_cases hu <;> simp) heq
            rw [h1.1] at h2
            split at hcontra
            next e heq2 =>
              simp only [Except.error.injEq] at hcontra
              subst hcontra
              refine ihUntil _ _ _ ?_ heq2
              rw [h2.1]
              have := h2.2.1
              have := h1.2.1
              omega
            next => simp at hcontra
      -- makeElseIfStatement
      · intro si sl st hf hcontra
        simp only [parserFns, parserFnsStep] at hcontra
        split at hcontra
        next e hcons =>
          simp only [Except.error.injEq] at hcontra
          subst hcontra
          exact PState.consume_ne_fuel hcons
        next st1 hcons =>
          have h1 := PState.consume_ok hcons
          split at hcontra
          next e heq =>
            simp only [Except.error.injEq] at hcontra
            subst hcontra
            refine skipUntilAndWith_ne_fuel ?_ heq
            rw [h1.1, h1.2.1]
            omega
          next r vp ctrl st2 heq =>
            have h2 := skipUntilAndWith_ok_ne
              (by intro u hu; fin_cases hu <;> simp) heq
            rw [h1.1] at h2
            split at hcontra
            next e heq2 =>
              simp only [Except.error.injEq] at hcontra
              subst hcontra
              refine ihUntil _ _ _ ?_ heq2
              rw [h2.1]
              have := h2.2.1
              have := h1.2.1
              omega
            next => simp at hcontra
      -- makeElseStatement
      · intro si sl st hf hcontra
        simp only [parserFns, parserFnsStep] at hcontra
        split at hcontra
        next e heq =>
          simp only [Except.error.injEq] at hcontra
          subst hcontra
          exact parseParams_ne_fuel (by omega) heq
        next r args st1 heq =>
          have h1 := parseParams_ok heq
          split at hcontra
          next e heq2 =>
            simp only [Except.error.injEq] at hcontra
            subst hcontra
            refine ihUntil _ _ _ ?_ heq2
            rw [h1.1]
            have := h1.2
            omega
          next => simp at hcontra
      -- makeComponentStatement
      · intro si sl st hf hcontra
        simp only [parserFns, parserFnsStep] at hcontra
        split at hcontra
        next e heq =>
          simp only [Except.error.injEq] at hcontra
          subst hcontra
          exact parseParams_ne_fuel (by omega) heq
        next r tagParams st1 heq =>
          have h1 := parseParams_ok heq
          split at hcontra
          next e heq2 =>
            simp only [Except.error.injEq] at hcontra
            subst hcontra
            refine ihUntil _ _ _ ?_ heq2
            rw [h1.1]
            have := h1.2
            omega
          next => simp at hcontra
      -- makeComponentSlotStatement
      · intro si sl st hf hcontra
        simp only [parserFns, parserFnsStep] at hcontra
        split at hcontra
        next e hcons =>
          simp only [Except.error.injEq] at hcontra
          subst hcontra
          exact PState.consume_ne_fuel hcons
        next st1 hcons =>
          have h1 := PState.consume_ok hcons
          split at hcontra
          next e heq =>
            simp only [Except.error.injEq] at hcontra
            subst hcontra
            refine skipUntilAndWith_ne_fuel ?_ heq
            rw [h1.1, h1.2.1]
            omega
          next r vp ctrl st2 heq =>
            have h2 := skipUntilAndWith_ok_ne
              (by intro u hu; fin_cases hu <;> simp) heq
            rw [h1.1] at h2
            split at hcontra
            next e hafp =>
              simp only [Except.error.injEq] at hcontra
              subst hcontra
              split at hafp
              next =>
                split at hafp
                next e2 heq2 =>
                  simp only [Except.error.injEq] at hafp
                  subst hafp
                  refine skipUntilAndWith_ne_fuel ?_ heq2
                  rw [h2.1]
                  have := h2.2.1
                  have := h2.2.2
                  omega
                next => simp at hafp
              next => simp at hafp
            next optv st3 hafp =>
              have h3 : st3.code = st2.code ∧ st2.index ≤ st3.index := by
                split at hafp
                next =>
                  split at hafp
                  next => simp at hafp
                  next r3 vp3 c3 stp heq3 =>
                    have := skipUntilAndWith_ok_ne
                      (by intro u hu; fin_cases hu <;> simp) heq3
                    simp only [Except.ok.injEq, Prod.mk.injEq] at hafp
                    obtain ⟨_, hst3⟩ := hafp
                    subst hst3
                    exact ⟨this.1, Nat.le_of_lt this.2.1⟩
                next =>
                  simp only [Except.ok.injEq, Prod.mk.injEq] at hafp
                  obtain ⟨_, hst3⟩ := hafp
                  subst hst3
                  exact ⟨rfl, Nat.le_refl _⟩
              split at hcontra
              next e heq4 =>
                simp only [Except.error.injEq] at hcontra
                subst hcontra
                refine ihUntil _ _ _ ?_ heq4
                rw [h3.1, h2.1]
                have := h3.2
                have := h2.2.1
                have := h1.2.1
                omega
              next => simp at hcontra
      -- parseUntilStatment
      · intro names aS st hf hcontra
        simp only [parserFns, parserFnsStep] at hcontra
        split at hcontra
        next => simp at hcontra
        next hend =>
          have hlt : st.index < st.code.length := by
            have := mt (PState.isAtEnd_iff st).2 hend
            omega
          split at hcontra
          next e heq =>
            simp only [Except.error.injEq] at hcontra
            subst hcontra
            exact ihOnce _ _ _ _ _ _ _ _ (by omega) heq
          next r statement st1 heq =>
            have h1 := (parserFns_mono fuel).1 _ _ _ _ _ _ _ _ _ _ heq
            have hprog : st.index < st1.index := by
              rcases Nat.lt_or_ge st.index st1.index with hlt2 | hge
              · exact hlt2
              · have heqi : st1.index = st.index := by omega
                rcases h1.2.2 heqi with hc | hc
                · simp at hc
                · omega
            split at hcontra
            next => simp at hcontra
            next =>
              split at hcontra
              next e heq2 =>
                simp only [Except.error.injEq] at hcontra
                subst hcontra
                refine ihUntil _ _ _ ?_ heq2
                rw [h1.1]
                omega
              next => simp at hcontra

theorem parseLoop_ne_fuel {fuel : Nat} {aI aD aP : Bool} {st : PState}
    (hf : 4 * (st.code.length - st.index) + 3 ≤ fuel) :
    parseLoop fuel aI aD aP st ≠ .error .fuelExhausted := by
  induction fuel generalizing aI aD aP st with
  | zero => omega
  | succ fuel ih =>
      intro h
      rw [parseLoop] at h
      split at h
      next => simp at h
      next hend =>
        have hlt : st.index < st.code.length := by
          have := mt (PState.isAtEnd_iff st).2 hend
          omega
        split at h
        next e heq =>
          simp only [Except.error.injEq] at h
          subst h
          exact (parserFns_ne_fuel fuel).1 _ _ _ _ _ _ _ _ (by omega) heq
        next r statement st1 heq =>
          have h1 := parseOnceLoop_mono heq
          have hprog : st.index < st1.index := by
            rcases Nat.lt_or_ge st.index st1.index with hlt2 | hge
            · exact hlt2
            · have heqi : st1.index = st.index := by omega
              rcases h1.2.2 heqi with hc | hc
              · simp at hc
              · omega
          split at h
          next => simp at h
          next =>
            dsimp only [] at h
            split at h
            next e heq2 =>
              simp only [Except.error.injEq] at h
              subst h
              refine ih ?_ heq2
              rw [h1.1]
              omega
            next => simp at h

/-- C10 support: with fuel at least four times the input length plus
three, the parser model never runs out of fuel. -/
theorem parse_ne_fuel {code : List Char} {fuel : Nat}
    (hf : 4 * code.length + 3 ≤ fuel) :
    parse code fuel ≠ .error .fuelExhausted := by
  unfold parse
  exact parseLoop_ne_fuel (by simpa using hf)

/-! ### Result shapes of the sub-parsers -/

theorem makeInlineTsCodeStatement_name {fuel : Nat} {st : PState}
    {s : Statement} {st' : PState}
    (h : makeInlineTsCodeStatement fuel st = .ok (s, st')) :
    s.name = .InlineTsCodeStatement ∨ s.name = .InlineSafeTsCodeStatement := by
  cases fuel with
  | zero => exact absurd h (by simp [makeInlineTsCodeStatement])
  | succ fuel =>
      rw [makeInlineTsCodeStatement] at h
      repeat
        first
          | exact Except.noConfusion h
          | (simp only [Except.ok.injEq, Prod.mk.injEq] at h
             obtain ⟨hs, _⟩ := h
             subst hs
             simp [Statement.name])
          | split at h

theorem makeLetStatement_name {fuel si sl : Nat} {st : PState}
    {s : Statement} {st' : PState}
    (h : makeLetStatement fuel si sl st = .ok (s, st')) :
    s.name = .LetStatement := by
  cases fuel with
  | zero => exact absurd h (by simp [makeLetStatement])
  | succ fuel =>
      rw [makeLetStatement] at h
      repeat
        first
          | exact Except.noConfusion h
          | (simp only [Except.ok.injEq, Prod.mk.injEq] at h
             obtain ⟨hs, _⟩ := h
             subst hs
             simp [Statement.name])
          | split at h

theorem makeAssignStatement_name {fuel si sl : Nat} {st : PState}
    {s : Statement} {st' : PState}
    (h : makeAssignStatement fuel si sl st = .ok (s, st')) :
    s.name = .LetStatement := by
  cases fuel with
  | zero => exact absurd h (by simp [makeAssignStatement])
  | succ fuel =>
      rw [makeAssignStatement] at h
      repeat
        first
          | exact Except.noConfusion h
          | (simp only [Except.ok.injEq, Prod.mk.injEq] at h
             obtain ⟨hs, _⟩ := h
             subst hs
             simp [Statement.name])
          | split at h

theorem makeParamStatement_name {fuel si sl : Nat} {st : PState}
    {s : Statement} {st' : PState}
    (h : makeParamStatement fuel si sl st = .ok (s, st')) :
    s.name = .ParamStatement := by
  cases fuel with
  | zero => exact absurd h (by simp [makeParamStatement])
  | succ fuel =>
      rw [makeParamStatement] at h
      repeat
        first
          | exact Except.noConfusion h
          | (simp only [Except.ok.injEq, Prod.mk.injEq] at h
             obtain ⟨hs, _⟩ := h
             subst hs
             simp [Statement.name])
          | split at h

theorem makeImportStatement_name {fuel si sl : Nat} {st : PState}
    {s : Statement} {st' : PState}
    (h : makeImportStatement fuel si sl st = .ok (s, st')) :
    s.name = .ImportStatement := by
  cases fuel with
  | zero => exact absurd h (by simp [makeImportStatement])
  | succ fuel =>
      rw [makeImportStatement] at h
      repeat
        first
          | exact Except.noConfusion h
          | (simp only [Except.ok.injEq, Prod.mk.injEq] at h
             obtain ⟨hs, _⟩ := h
             subst hs
             simp [Statement.name])
          | split at h

theorem makeDefineSlotStatement_name {fuel si sl : Nat} {st : PState}
    {s : Statement} {st' : PState}
    (h : makeDefineSlotStatement fuel si sl st = .ok (s, st')) :
    s.name = .DefineSlotStatement := by
  cases fuel with
  | zero => exact absurd h (by simp [makeDefineSlotStatement])
  | succ fuel =>
      rw [makeDefineSlotStatement] at h
      repeat
        first
          | exact Except.noConfusion h
          | (simp only [Except.ok.injEq, Prod.mk.injEq] at h
             obtain ⟨hs, _⟩ := h
             subst hs
             simp [Statement.name])
          | split at h

/-- Gate soundness: a statement produced by parseOnce can only be an
import, param or defslot statement when the corresponding gate flag was
open, because makeAtTag checks the flag before dispatching; the block
sub-parsers each produce their own fixed statement kind. -/
theorem parserFns_gates (fuel : Nat) :
    (∀ aI aD aP aS asi asl av (st : PState) s st',
      (parserFns fuel).parseOnceLoop aI aD aP aS asi asl av st =
        .ok (s, st') →
      (s.name = .ImportStatement → aI = true) ∧
      (s.name = .ParamStatement → aP = true) ∧
      (s.name = .DefineSlotStatement → aD = true)) ∧
    (∀ aI aD aP aS (st : PState) s st',
      (parserFns fuel).makeAtTag aI aD aP aS st = .ok (s, st') →
      (s.name = .ImportStatement → aI = true) ∧
      (s.name = .ParamStatement → aP = true) ∧
      (s.name = .DefineSlotStatement → aD = true)) ∧
    (∀ si sl (st : PState) s st',
      (parserFns fuel).makeEachStatement si sl st = .ok (s, st') →
      s.name = .EachStatement) ∧
    (∀ si sl (st : PState) s st',
      (parserFns fuel).makeIfStatement si sl st = .ok (s, st') →
      s.name = .IfStatement) ∧
    (∀ si sl (st : PState) s st',
      (parserFns fuel).makeElseIfStatement si sl st = .ok (s, st') →
      s.name = .ElseIfStatement) ∧
    (∀ si sl (st : PState) s st',
      (parserFns fuel).makeElseStatement si sl st = .ok (s, st') →
      s.name = .ElseStatement) ∧
    (∀ si sl (st : PState) s st',
      (parserFns fuel).makeComponentStatement si sl st = .ok (s, st') →
      s.name = .ComponentStatement) ∧
    (∀ si sl (st : PState) s st',
      (parserFns fuel).makeComponentSlotStatement si sl st = .ok (s, st') →
      s.name = .ComponentSlotStatement) := by
  induction fuel with
  | zero =>
      refine ⟨?_, ?_, ?_, ?_, ?_, ?_, ?_, ?_⟩ <;>
        · intros
          simp [parserFns, parserFnsZero] at *
  | succ fuel ih =>
      obtain ⟨ihOnce, ihTag, ihEach, ihIf, ihElseIf, ihElse, ihComp,
        ihSlotS⟩ := ih
      refine ⟨?_, ?_, ?_, ?_, ?_, ?_, ?_, ?_⟩
      -- parseOnceLoop
      · intro aI aD aP aS asi asl av st s st' h
        simp only [parserFns, parserFnsStep] at h
        split at h
        next hc =>
          simp only [Except.ok.injEq, Prod.mk.injEq] at h
          obtain ⟨hs, _⟩ := h
          subst hs
          simp [Statement.name]
        next c hc =>
          split at h
          next => exact ihOnce _ _ _ _ _ _ _ _ _ _ h
          next =>
            split at h
            next =>
              split at h
              next hav =>
                simp only [Except.ok.injEq, Prod.mk.injEq] at h
                obtain ⟨hs, _⟩ := h
                subst hs
                simp [Statement.name]
              next =>
                split at h
                next =>
                  split at h
                  next => simp at h
                  next st1 hcm => exact ihOnce _ _ _ _ _ _ _ _ _ _ h
                next =>
                  rcases makeInlineTsCodeStatement_name h with hn | hn <;>
                    rw [hn] <;> simp
            next =>
              split at h
              next => exact ihOnce _ _ _ _ _ _ _ _ _ _ h
              next =>
                split at h
                next =>
                  split at h
                  next hav =>
                    simp only [Except.ok.injEq, Prod.mk.injEq] at h
                    obtain ⟨hs, _⟩ := h
                    subst hs
                    simp [Statement.name]
                  next => exact ihTag _ _ _ _ _ _ _ h
                next => exact ihOnce _ _ _ _ _ _ _ _ _ _ h
      -- makeAtTag
      · intro aI aD aP aS st s st' h
        simp only [parserFns, parserFnsStep] at h
        generalize htag : ((st.advance 1).code.drop
            (st.advance 1).index).takeWhile isValidTagChar = tagName at h
        by_cases t1 : tagName = "each".toList
        · rw [if_pos t1] at h
          rw [ihEach _ _ _ _ _ h]
          simp
        rw [if_neg t1] at h
        by_cases t2 : tagName = "if".toList
        · rw [if_pos t2] at h
          rw [ihIf _ _ _ _ _ h]
          simp
        rw [if_neg t2] at h
        by_cases t3 : tagName = "elseif".toList
        · rw [if_pos t3] at h
          rw [ihElseIf _ _ _ _ _ h]
          simp
        rw [if_neg t3] at h
        by_cases t4 : tagName = "else".toList
        · rw [if_pos t4] at h
          rw [ihElse _ _ _ _ _ h]
          simp
        rw [if_neg t4] at h
        by_cases t5 : tagName = "let".toList
        · rw [if_pos t5] at h
          rw [makeLetStatement_name h]
          simp
        rw [if_neg t5] at h
        by_cases t6 : tagName = "assign".toList
        · rw [if_pos t6] at h
          rw [makeAssignStatement_name h]
          simp
        rw [if_neg t6] at h
        by_cases t7 : tagName = "component".toList
        · rw [if_pos t7] at h
          rw [ihComp _ _ _ _ _ h]
          simp
        rw [if_neg t7] at h
        by_cases t8 : tagName = "import".toList
        · rw [if_pos t8] at h
          split at h
          next => simp at h
          next hguard =>
            rw [makeImportStatement_name h]
            simp only [Bool.not_eq_true'] at hguard
            simp [hguard]
        rw [if_neg t8] at h
        by_cases t9 : tagName = "param".toList
        · rw [if_pos t9] at h
          split at h
          next => simp at h
          next hguard =>
            rw [makeParamStatement_name h]
            simp only [Bool.not_eq_true'] at hguard
            simp [hguard]
        rw [if_neg t9] at h
        by_cases t10 : tagName = "defslot".toList
        · rw [if_pos t10] at h
          split at h
          next => simp at h
          next hguard =>
            rw [makeDefineSlotStatement_name h]
            simp only [Bool.not_eq_true'] at hguard
            simp [hguard]
        rw [if_neg t10] at h
        by_cases t11 : tagName = "slot".toList
        · rw [if_pos t11] at h
          split at h
          next => simp at h
          next =>
            rw [ihSlotS _ _ _ _ _ h]
            simp
        rw [if_neg t11] at h
        by_cases t12 : tagName = "end".toList
        · rw [if_pos t12] at h
          simp only [Except.ok.injEq, Prod.mk.injEq] at h
          obtain ⟨hs, _⟩ := h
          subst hs
          simp [Statement.name]
        · rw [if_neg t12] at h
          simp at h
      -- makeEachStatement
      · intro si sl st s st' h
        simp only [parserFns, parserFnsStep] at h
        repeat
          first
            | exact Except.noConfusion h
            | (simp only [Except.ok.injEq, Prod.mk.injEq] at h
               obtain ⟨hs, _⟩ := h
               subst hs
               simp [Statement.name])
            | split at h
      -- makeIfStatement
      · intro si sl st s st' h
        simp only [parserFns, parserFnsStep] at h
        repeat
          first
            | exact Except.noConfusion h
            | (simp only [Except.ok.injEq, Prod.mk.injEq] at h
               obtain ⟨hs, _⟩ := h
               subst hs
               simp [Statement.name])
            | split at h
      -- makeElseIfStatement
      · intro si sl st s st' h
        simp only [parserFns, parserFnsStep] at h
        repeat
          first
            | exact Except.noConfusion h
            | (simp only [Except.ok.injEq, Prod.mk.injEq] at h
               obtain ⟨hs, _⟩ := h
               subst hs
               simp [Statement.name])
            | split at h
      -- makeElseStatement
      · intro si sl st s st' h
        simp only [parserFns, parserFnsStep] at h
        repeat
          first
            | exact Except.noConfusion h
            | (simp only [Except.ok.injEq, Prod.mk.injEq] at h
               obtain ⟨hs, _⟩ := h
               subst hs
               simp [Statement.name])
            | split at h
      -- makeComponentStatement
      · intro si sl st s st' h
        simp only [parserFns, parserFnsStep] at h
        repeat
          first
            | exact Except.noConfusion h
            | (simp only [Except.ok.injEq, Prod.mk.injEq] at h
               obtain ⟨hs, _⟩ := h
               subst hs
               simp [Statement.name])
            | split at h
      -- makeComponentSlotStatement
      · intro si sl st s st' h
        simp only [parserFns, parserFnsStep] at h
        repeat
          first
            | exact Except.noConfusion h
            | (simp only [Except.ok.injEq, Prod.mk.injEq] at h
               obtain ⟨hs, _⟩ := h
               subst hs
               simp [Statement.name])
            | split at h

/-- Placeholder statement used with List.getD when indexing parse
results. -/
def defaultStatement : Statement := .endStmt ⟨0, 0, 0⟩

/-- The top-level gate invariant: whenever the driving loop succeeds, an
import, defslot or param statement at position i requires its gate to have
been open at entry and every earlier statement to be in the allowed set of
that gate. -/
theorem parseLoop_gates {fuel : Nat} {aI aD aP : Bool} {st : PState}
    {L : List Statement} (h : parseLoop fuel aI aD aP st = .ok L) :
    ∀ i, i < L.length →
      ((L.getD i defaultStatement).name = .ImportStatement →
        aI = true ∧ ∀ j, j < i →
          areImportStatementsAllowedAfter
            (L.getD j defaultStatement).name = true) ∧
      ((L.getD i defaultStatement).name = .DefineSlotStatement →
        aD = true ∧ ∀ j, j < i →
          areDefineSlotStatementsAllowedAfter
            (L.getD j defaultStatement).name = true) ∧
      ((L.getD i defaultStatement).name = .ParamStatement →
        aP = true ∧ ∀ j, j < i →
          areParamStatementsAllowedAfter
            (L.getD j defaultStatement).name = true) := by
  induction fuel generalizing aI aD aP st L with
  | zero => exact absurd h (by simp [parseLoop])
  | succ fuel ih =>
      rw [parseLoop] at h
      split at h
      next =>
        simp only [Except.ok.injEq] at h
        subst h
        intro i hi
        simp at hi
      next hend =>
        split at h
        next => simp at h
        next r statement st1 heq =>
          have hg := (parserFns_gates fuel).1 _ _ _ _ _ _ _ _ _ _ heq
          split at h
          next => simp at h
          next =>
            dsimp only [] at h
            split at h
            next => simp at h
            next statements heq2 =>
              simp only [Except.ok.injEq] at h
              subst h
              have ihr := ih heq2
              intro i hi
              cases i with
              | zero =>
                  simp only [List.getD_cons_zero]
                  refine ⟨fun hn => ⟨hg.1 hn, fun j hj => by omega⟩,
                    fun hn => ⟨hg.2.2 hn, fun j hj => by omega⟩,
                    fun hn => ⟨hg.2.1 hn, fun j hj => by omega⟩⟩
              | succ i =>
                  simp only [List.getD_cons_succ]
                  have hi' : i < statements.length := by
                    simpa using hi
                  have := ihr i hi'
                  refine ⟨fun hn => ?_, fun hn => ?_, fun hn => ?_⟩
                  · obtain ⟨hflag, hprev⟩ := this.1 hn
                    rw [Bool.and_eq_true] at hflag
                    refine ⟨hflag.1, fun j hj => ?_⟩
                    cases j with
                    | zero => simpa using hflag.2
                    | succ j =>
                        simp only [List.getD_cons_succ]
                        exact hprev j (by omega)
                  · obtain ⟨hflag, hprev⟩ := this.2.1 hn
                    rw [Bool.and_eq_true] at hflag
                    refine ⟨hflag.1, fun j hj => ?_⟩
                    cases j with
                    | zero => simpa using hflag.2
                    | succ j =>
                        simp only [List.getD_cons_succ]
                        exact hprev j (by omega)
                  · obtain ⟨hflag, hprev⟩ := this.2.2 hn
                    rw [Bool.and_eq_true] at hflag
                    refine ⟨hflag.1, fun j hj => ?_⟩
                    cases j with
                    | zero => simpa using hflag.2
                    | succ j =>
                        simp only [List.getD_cons_succ]
                        exact hprev j (by omega)

/-- With the import gate closed, an at-tag whose name scans to import is
rejected with the declaration-ordering error. -/
theorem makeAtTag_import_gate_closed {fuel : Nat} {aD aP aS : Bool}
    {st : PState}
    (htag : (st.code.drop (st.index + 1)).takeWhile isValidTagChar =
      "import".toList) :
    ∃ pos, makeAtTag (fuel + 1) false aD aP aS st =
      .error (.invalidImportSlotsParamsOrder pos) := by
  refine ⟨⟨st.index, st.line, st.index + 1 + ("import".toList).length⟩, ?_⟩
  simp only [makeAtTag, parserFns, parserFnsStep, PState.advance_code,
    PState.advance_index]
  rw [htag]
  rw [if_neg (by decide), if_neg (by decide), if_neg (by decide),
    if_neg (by decide), if_neg (by decide), if_neg (by decide),
    if_neg (by decide), if_pos rfl, if_pos (by decide)]

/-- With the param gate closed, an at-tag whose name scans to param is
rejected with the declaration-ordering error. -/
theorem makeAtTag_param_gate_closed {fuel : Nat} {aI aD aS : Bool}
    {st : PState}
    (htag : (st.code.drop (st.index + 1)).takeWhile isValidTagChar =
      "param".toList) :
    ∃ pos, makeAtTag (fuel + 1) aI aD false aS st =
      .error (.invalidImportSlotsParamsOrder pos) := by
  refine ⟨⟨st.index, st.line, st.index + 1 + ("param".toList).length⟩, ?_⟩
  simp only [makeAtTag, parserFns, parserFnsStep, PState.advance_code,
    PState.advance_index]
  rw [htag]
  rw [if_neg (by decide), if_neg (by decide), if_neg (by decide),
    if_neg (by decide), if_neg (by decide), if_neg (by decide),
    if_neg (by decide), if_neg (by decide), if_pos rfl, if_pos (by decide)]

/-- With the defslot gate closed, an at-tag whose name scans to defslot is
rejected with the declaration-ordering error. -/
theorem makeAtTag_defslot_gate_closed {fuel : Nat} {aI aP aS : Bool}
    {st : PState}
    (htag : (st.code.drop (st.index + 1)).takeWhile isValidTagChar =
      "defslot".toList) :
    ∃ pos, makeAtTag (fuel + 1) aI false aP aS st =
      .error (.invalidImportSlotsParamsOrder pos) := by
  refine ⟨⟨st.index, st.line, st.index + 1 + ("defslot".toList).length⟩, ?_⟩
  simp only [makeAtTag, parserFns, parserFnsStep, PState.advance_code,
    PState.advance_index]
  rw [htag]
  rw [if_neg (by decide), if_neg (by decide), if_neg (by decide),
    if_neg (by decide), if_neg (by decide), if_neg (by decide),
    if_neg (by decide), if_neg (by decide), if_neg (by decide),
    if_pos rfl, if_pos (by decide)]

theorem areImportStatementsAllowedAfter_iff (n : StatementName) :
    areImportStatementsAllowedAfter n = true ↔
      (n = .TextStatement ∨ n = .ImportStatement) := by
  cases n <;> simp [areImportStatementsAllowedAfter]

theorem areDefineSlotStatementsAllowedAfter_iff (n : StatementName) :
    areDefineSlotStatementsAllowedAfter n = true ↔
      (n = .TextStatement ∨ n = .ImportStatement ∨
        n = .DefineSlotStatement) := by
  cases n <;> simp [areDefineSlotStatementsAllowedAfter]

theorem areParamStatementsAllowedAfter_iff (n : StatementName) :
    areParamStatementsAllowedAfter n = true ↔
      (n = .TextStatement ∨ n = .ImportStatement ∨
        n = .DefineSlotStatement ∨ n = .ParamStatement) := by
  cases n <;> simp [areParamStatementsAllowedAfter]

/-- Claim C2: at the top level, an import statement parses successfully
only while every previously parsed top-level statement is a Text or
Import statement; a defslot only while all previous ones are
Text/Import/DefineSlot; a param only while all previous ones are
Text/Import/DefineSlot/Param. When the corresponding gate has closed, the
at-tag dispatcher raises the invalid-declaration-ordering error instead,
and a closed gate never reopens: a parse of the remaining input with the
flag off never yields the gated statement kind. -/
theorem C2_declaration_ordering_gates :
    (∀ (code : List Char) (fuel : Nat) (L : List Statement),
      parse code fuel = .ok L →
      ∀ i, i < L.length →
        ((L.getD i defaultStatement).name = .ImportStatement →
          ∀ j, j < i →
            (L.getD j defaultStatement).name = .TextStatement ∨
            (L.getD j defaultStatement).name = .ImportStatement) ∧
        ((L.getD i defaultStatement).name = .DefineSlotStatement →
          ∀ j, j < i →
            (L.getD j defaultStatement).name = .TextStatement ∨
            (L.getD j defaultStatement).name = .ImportStatement ∨
            (L.getD j defaultStatement).name = .DefineSlotStatement) ∧
        ((L.getD i defaultStatement).name = .ParamStatement →
          ∀ j, j < i →
            (L.getD j defaultStatement).name = .TextStatement ∨
            (L.getD j defaultStatement).name = .ImportStatement ∨
            (L.getD j defaultStatement).name = .DefineSlotStatement ∨
            (L.getD j defaultStatement).name = .ParamStatement)) ∧
    (∀ (fuel : Nat) (aD aP aS : Bool) (st : PState),
      (st.code.drop (st.index + 1)).takeWhile isValidTagChar =
        "import".toList →
      ∃ pos, makeAtTag (fuel + 1) false aD aP aS st =
        .error (.invalidImportSlotsParamsOrder pos)) ∧
    (∀ (fuel : Nat) (aI aD aS : Bool) (st : PState),
      (st.code.drop (st.index + 1)).takeWhile isValidTagChar =
        "param".toList →
      ∃ pos, makeAtTag (fuel + 1) aI aD false aS st =
        .error (.invalidImportSlotsParamsOrder pos)) ∧
    (∀ (fuel : Nat) (aI aP aS : Bool) (st : PState),
      (st.code.drop (st.index + 1)).takeWhile isValidTagChar =
        "defslot".toList →
      ∃ pos, makeAtTag (fuel + 1) aI false aP aS st =
        .error (.invalidImportSlotsParamsOrder pos)) ∧
    (∀ (fuel : Nat) (aD aP : Bool) (st : PState) (L : List Statement),
      parseLoop fuel false aD aP st = .ok L →
      ∀ i, (L.getD i defaultStatement).name ≠ .ImportStatement) ∧
    (∀ (fuel : Nat) (aI aP : Bool) (st : PState) (L : List Statement),
      parseLoop fuel aI false aP st = .ok L →
      ∀ i, (L.getD i defaultStatement).name ≠ .DefineSlotStatement) ∧
    (∀ (fuel : Nat) (aI aD : Bool) (st : PState) (L : List Statement),
      parseLoop fuel aI aD false st = .ok L →
      ∀ i, (L.getD i defaultStatement).name ≠ .ParamStatement) := by
  refine ⟨?_, ?_, ?_, ?_, ?_, ?_, ?_⟩
  · intro code fuel L h i hi
    have := parseLoop_gates h i hi
    refine ⟨fun hn j hj => ?_, fun hn j hj => ?_, fun hn j hj => ?_⟩
    · have := (this.1 hn).2 j hj
      rwa [areImportStatementsAllowedAfter_iff] at this
    · have := (this.2.1 hn).2 j hj
      rwa [areDefineSlotStatementsAllowedAfter_iff] at this
    · have := (this.2.2 hn).2 j hj
      rwa [areParamStatementsAllowedAfter_iff] at this
  · intro fuel aD aP aS st htag
    exact makeAtTag_import_gate_closed htag
  · intro fuel aI aD aS st htag
    exact makeAtTag_param_gate_closed htag
  · intro fuel aI aP aS st htag
    exact makeAtTag_defslot_gate_closed htag
  · intro fuel aD aP st L h i
    rcases Nat.lt_or_ge i L.length with hi | hi
    · intro hn
      have := (parseLoop_gates h i hi).1 hn
      simp at this
    · rw [List.getD_eq_default _ _ hi]
      simp [defaultStatement, Statement.name]
  · intro fuel aI aP st L h i
    rcases Nat.lt_or_ge i L.length with hi | hi
    · intro hn
      have := (parseLoop_gates h i hi).2.1 hn
      simp at this
    · rw [List.getD_eq_default _ _ hi]
      simp [defaultStatement, Statement.name]
  · intro fuel aI aD st L h i
    rcases Nat.lt_or_ge i L.length with hi | hi
    · intro hn
      have := (parseLoop_gates h i hi).2.2 hn
      simp at this
    · rw [List.getD_eq_default _ _ hi]
      simp [defaultStatement, Statement.name]

/-- Witness for C2 at concrete inputs: the import statement of
a at import x b has only a Text statement before it, and an at-import tag
with the import gate closed raises the ordering error. -/
theorem C2_declaration_ordering_gates_witness :
    (([Statement.text ⟨0, 0, 1⟩ ['a'],
       Statement.importStmt ⟨1, 0, 11⟩ ⟨⟨9, 0, 10⟩, ['x']⟩,
       Statement.text ⟨11, 0, 12⟩ ['b']].getD 0 defaultStatement).name =
        .TextStatement ∨
     ([Statement.text ⟨0, 0, 1⟩ ['a'],
       Statement.importStmt ⟨1, 0, 11⟩ ⟨⟨9, 0, 10⟩, ['x']⟩,
       Statement.text ⟨11, 0, 12⟩ ['b']].getD 0 defaultStatement).name =
        .ImportStatement) ∧
    (∃ pos, makeAtTag 5 false true true false ⟨"@import(x)".toList, 0, 0⟩ =
      .error (.invalidImportSlotsParamsOrder pos)) :=
  ⟨(C2_declaration_ordering_gates.1 "a@import(x)b".toList 100
      [Statement.text ⟨0, 0, 1⟩ ['a'],
       Statement.importStmt ⟨1, 0, 11⟩ ⟨⟨9, 0, 10⟩, ['x']⟩,
       Statement.text ⟨11, 0, 12⟩ ['b']] rfl 1 (by decide)).1 rfl 0
      (by decide),
   C2_declaration_ordering_gates.2.1 4 true true false
     ⟨"@import(x)".toList, 0, 0⟩ (by decide)⟩

/-! ### The if-chain invariant of the parser -/

theorem Statement.chainsOkList_iff (L : List Statement) :
    Statement.chainsOkList L = true ↔
      ∀ s ∈ L, Statement.chainsOk s = true := by
  induction L with
  | nil => simp [Statement.chainsOkList]
  | cons s ss ih => simp [Statement.chainsOkList, ih]

/-- A statement whose name marks one of the childless statement kinds
satisfies the chain predicate outright. -/
theorem chainsOk_of_leaf_name (s : Statement)
    (h : s.name = .TextStatement ∨ s.name = .InlineTsCodeStatement ∨
      s.name = .InlineSafeTsCodeStatement ∨ s.name = .LetStatement ∨
      s.name = .ParamStatement ∨ s.name = .ImportStatement ∨
      s.name = .DefineSlotStatement ∨ s.name = .EndStatement) :
    Statement.chainsOk s = true := by
  cases s <;> first
    | (simp [Statement.chainsOk]; done)
    | simp [Statement.name] at h

theorem Statement.chainsOk_ifStmt (p : PositionRange)
    (e : TsCodeExpression) (ch : List Statement) (n : Option Statement) :
    Statement.chainsOk (.ifStmt p e ch n) =
      (Statement.chainsOkList ch && Statement.nextShapeOk n &&
        Statement.chainsOkOpt n) := by
  simp [Statement.chainsOk]

theorem Statement.chainsOk_elseIfStmt (p : PositionRange)
    (e : TsCodeExpression) (ch : List Statement) (n : Option Statement) :
    Statement.chainsOk (.elseIfStmt p e ch n) =
      (Statement.chainsOkList ch && Statement.nextShapeOk n &&
        Statement.chainsOkOpt n) := by
  simp [Statement.chainsOk]

/-- Every statement produced by any of the mutually recursive parsing
functions satisfies the chain predicate, and the terminator returned by
parseUntilStatment is named by one of the awaited statement names. -/
theorem parserFns_chains (fuel : Nat) :
    (∀ aI aD aP aS asi asl av (st : PState) s st',
      (parserFns fuel).parseOnceLoop aI aD aP aS asi asl av st =
        .ok (s, st') → Statement.chainsOk s = true) ∧
    (∀ aI aD aP aS (st : PState) s st',
      (parserFns fuel).makeAtTag aI aD aP aS st = .ok (s, st') →
      Statement.chainsOk s = true) ∧
    (∀ si sl (st : PState) s st',
      (parserFns fuel).makeEachStatement si sl st = .ok (s, st') →
      Statement.chainsOk s = true) ∧
    (∀ si sl (st : PState) s st',
      (parserFns fuel).makeIfStatement si sl st = .ok (s, st') →
      Statement.chainsOk s = true) ∧
    (∀ si sl (st : PState) s st',
      (parserFns fuel).makeElseIfStatement si sl st = .ok (s, st') →
      Statement.chainsOk s = true) ∧
    (∀ si sl (st : PState) s st',
      (parserFns fuel).makeElseStatement si sl st = .ok (s, st') →
      Statement.chainsOk s = true) ∧
    (∀ si sl (st : PState) s st',
      (parserFns fuel).makeComponentStatement si sl st = .ok (s, st') →
      Statement.chainsOk s = true) ∧
    (∀ si sl (st : PState) s st',
      (parserFns fuel).makeComponentSlotStatement si sl st = .ok (s, st') →
      Statement.chainsOk s = true) ∧
    (∀ names aS (st : PState) ss t st',
      (parserFns fuel).parseUntilStatment names aS st = .ok (ss, t, st') →
      (∀ s ∈ ss, Statement.chainsOk s = true) ∧
        Statement.chainsOk t = true ∧ t.name ∈ names) := by
  induction fuel with
  | zero =>
      refine ⟨?_, ?_, ?_, ?_, ?_, ?_, ?_, ?_, ?_⟩ <;>
        · intros
          simp [parserFns, parserFnsZero] at *
  | succ fuel ih =>
      obtain ⟨ihOnce, ihTag, ihEach, ihIf, ihElseIf, ihElse, ihComp,
        ihSlotS, ihUntil⟩ := ih
      refine ⟨?_, ?_, ?_, ?_, ?_, ?_, ?_, ?_, ?_⟩
      -- parseOnceLoop
      · intro aI aD aP aS asi asl av st s st' h
        simp only [parserFns, parserFnsStep] at h
        split at h
        next hc =>
          simp only [Except.ok.injEq, Prod.mk.injEq] at h
          obtain ⟨hs, _⟩ := h
          subst hs
          simp [Statement.chainsOk]
        next c hc =>
          split at h
          next => exact ihOnce _ _ _ _ _ _ _ _ _ _ h
          next =>
            split at h
            next =>
              split at h
              next hav =>
                simp only [Except.ok.injEq, Prod.mk.injEq] at h
                obtain ⟨hs, _⟩ := h
                subst hs
                simp [Statement.chainsOk]
              next =>
                split at h
                next =>
                  split at h
                  next => simp at h
                  next st1 hcm => exact ihOnce _ _ _ _ _ _ _ _ _ _ h
                next =>
                  rcases makeInlineTsCodeStatement_name h with hn | hn
                  · exact chainsOk_of_leaf_name _ (Or.inr (Or.inl hn))
                  · exact chainsOk_of_leaf_name _
                      (Or.inr (Or.inr (Or.inl hn)))
            next =>
              split at h
              next => exact ihOnce _ _ _ _ _ _ _ _ _ _ h
              next =>
                split at h
                next =>
                  split at h
                  next hav =>
                    simp only [Except.ok.injEq, Prod.mk.injEq] at h
                    obtain ⟨hs, _⟩ := h
                    subst hs
                    simp [Statement.chainsOk]
                  next => exact ihTag _ _ _ _ _ _ _ h
                next => exact ihOnce _ _ _ _ _ _ _ _ _ _ h
      -- makeAtTag
      · intro aI aD aP aS st s st' h
        simp only [parserFns, parserFnsStep] at h
        generalize htag : ((st.advance 1).code.drop
            (st.advance 1).index).takeWhile isValidTagChar = tagName at h
        by_cases t1 : tagName = "each".toList
        · rw [if_pos t1] at h
          exact ihEach _ _ _ _ _ h
        rw [if_neg t1] at h
        by_cases t2 : tagName = "if".toList
        · rw [if_pos t2] at h
          exact ihIf _ _ _ _ _ h
        rw [if_neg t2] at h
        by_cases t3 : tagName = "elseif".toList
        · rw [if_pos t3] at h
          exact ihElseIf _ _ _ _ _ h
        rw [if_neg t3] at h
        by_cases t4 : tagName = "else".toList
        · rw [if_pos t4] at h
          exact ihElse _ _ _ _ _ h
        rw [if_neg t4] at h
        by_cases t5 : tagName = "let".toList
        · rw [if_pos t5] at h
          exact chainsOk_of_leaf_name _
            (Or.inr (Or.inr (Or.inr (Or.inl (makeLetStatement_name h)))))
        rw [if_neg t5] at h
        by_cases t6 : tagName = "assign".toList
        · rw [if_pos t6] at h
          exact chainsOk_of_leaf_name _
            (Or.inr (Or.inr (Or.inr (Or.inl (makeAssignStatement_name h)))))
        rw [if_neg t6] at h
        by_cases t7 : tagName = "component".toList
        · rw [if_pos t7] at h
          exact ihComp _ _ _ _ _ h
        rw [if_neg t7] at h
        by_cases t8 : tagName = "import".toList
        · rw [if_pos t8] at h
          split at h
          next => simp at h
          next =>
            exact chainsOk_of_leaf_name _
              (Or.inr (Or.inr (Or.inr (Or.inr (Or.inr
                (Or.inl (makeImportStatement_name h)))))))
        rw [if_neg t8] at h
        by_cases t9 : tagName = "param".toList
        · rw [if_pos t9] at h
          split at h
          next => simp at h
          next =>
            exact chainsOk_of_leaf_name _
              (Or.inr (Or.inr (Or.inr (Or.inr
                (Or.inl (makeParamStatement_name h))))))
        rw [if_neg t9] at h
        by_cases t10 : tagName = "defslot".toList
        · rw [if_pos t10] at h
          split at h
          next => simp at h
          next =>
            exact chainsOk_of_leaf_name _
              (Or.inr (Or.inr (Or.inr (Or.inr (Or.inr (Or.inr
                (Or.inl (makeDefineSlotStatement_name h))))))))
        rw [if_neg t10] at h
        by_cases t11 : tagName = "slot".toList
        · rw [if_pos t11] at h
          split at h
          next => simp at h
          next => exact ihSlotS _ _ _ _ _ h
        rw [if_neg t11] at h
        by_cases t12 : tagName = "end".toList
        · rw [if_pos t12] at h
          simp only [Except.ok.injEq, Prod.mk.injEq] at h
          obtain ⟨hs, _⟩ := h
          subst hs
          simp [Statement.chainsOk]
        · rw [if_neg t12] at h
          simp at h
      -- makeEachStatement
      · intro si sl st s st' h
        simp only [parserFns, parserFnsStep] at h
        split at h
        next => simp at h
        next st1 hcons =>
          split at h
          next => simp at h
          next r vp ctrl st2 heq =>
            split at h
            next => simp at h
            next =>
              split at h
              next => simp at h
              next r2 vp2 c2 st3 heq2 =>
                split at h
                next => simp at h
                next r3 children endS st4 heq3 =>
                  have h4 := ihUntil _ _ _ _ _ _ heq3
                  simp only [Except.ok.injEq, Prod.mk.injEq] at h
                  obtain ⟨hs, _⟩ := h
                  subst hs
                  simp only [Statement.chainsOk]
                  exact (Statement.chainsOkList_iff children).2 h4.1
      -- makeIfStatement
      · intro si sl st s st' h
        simp only [parserFns, parserFnsStep] at h
        split at h
        next => simp at h
        next st1 hcons =>
          split at h
          next => simp at h
          next r vp ctrl st2 heq =>
            split at h
            next => simp at h
            next r2 children endS st3 heq2 =>
              have h3 := ihUntil _ _ _ _ _ _ heq2
              have hchl := (Statement.chainsOkList_iff children).2 h3.1
              have hcend := h3.2.1
              have hmem := h3.2.2
              cases endS with
              | elseIfStmt p2 e2 ch2 n2 =>
                  simp only [Except.ok.injEq, Prod.mk.injEq] at h
                  obtain ⟨hs, _⟩ := h
                  subst hs
                  first
                    | rw [Statement.chainsOk_ifStmt]
                    | rw [Statement.chainsOk_elseIfStmt]
                  simp [Statement.nextShapeOk, Statement.chainsOkOpt,
                    hchl, hcend]
              | elseStmt p2 ch2 =>
                  simp only [Except.ok.injEq, Prod.mk.injEq] at h
                  obtain ⟨hs, _⟩ := h
                  subst hs
                  first
                    | rw [Statement.chainsOk_ifStmt]
                    | rw [Statement.chainsOk_elseIfStmt]
                  simp [Statement.nextShapeOk, Statement.chainsOkOpt,
                    hchl, hcend]
              | endStmt p2 =>
                  simp only [Except.ok.injEq, Prod.mk.injEq] at h
                  obtain ⟨hs, _⟩ := h
                  subst hs
                  first
                    | rw [Statement.chainsOk_ifStmt]
                    | rw [Statement.chainsOk_elseIfStmt]
                  simp [Statement.nextShapeOk, Statement.chainsOkOpt,
                    hchl]
              | text p2 v2 => simp [Statement.name] at hmem
              | inlineTsCode p2 e2 => simp [Statement.name] at hmem
              | inlineSafeTsCode p2 e2 => simp [Statement.name] at hmem
              | each p2 it2 v2 ch2 => simp [Statement.name] at hmem
              | ifStmt p2 e2 ch2 n2 => simp [Statement.name] at hmem
              | letStmt p2 n2 v2 => simp [Statement.name] at hmem
              | assign p2 n2 v2 => simp [Statement.name] at hmem
              | param p2 n2 t2 d2 => simp [Statement.name] at hmem
              | importStmt p2 n2 => simp [Statement.name] at hmem
              | defineSlot p2 n2 a2 => simp [Statement.name] at hmem
              | component p2 c2 pa2 m2 sl2 => simp [Statement.name] at hmem
              | componentMainSlot p2 ch2 => simp [Statement.name] at hmem
              | componentSlot p2 n2 pv2 ch2 => simp [Statement.name] at hmem
      -- makeElseIfStatement
      · intro si sl st s st' h
        simp only [parserFns, parserFnsStep] at h
        split at h
        next => simp at h
        next st1 hcons =>
          split at h
          next => simp at h
          next r vp ctrl st2 heq =>
            split at h
            next => simp at h
            next r2 children endS st3 heq2 =>
              have h3 := ihUntil _ _ _ _ _ _ heq2
              have hchl := (Statement.chainsOkList_iff children).2 h3.1
              have hcend := h3.2.1
              have hmem := h3.2.2
              cases endS with
              | elseIfStmt p2 e2 ch2 n2 =>
                  simp only [Except.ok.injEq, Prod.mk.injEq] at h
                  obtain ⟨hs, _⟩ := h
                  subst hs
                  first
                    | rw [Statement.chainsOk_ifStmt]
                    | rw [Statement.chainsOk_elseIfStmt]
                  simp [Statement.nextShapeOk, Statement.chainsOkOpt,
                    hchl, hcend]
              | elseStmt p2 ch2 =>
                  simp only [Except.ok.injEq, Prod.mk.injEq] at h
                  obtain ⟨hs, _⟩ := h
                  subst hs
                  first
                    | rw [Statement.chainsOk_ifStmt]
                    | rw [Statement.chainsOk_elseIfStmt]
                  simp [Statement.nextShapeOk, Statement.chainsOkOpt,
                    hchl, hcend]
              | endStmt p2 =>
                  simp only [Except.ok.injEq, Prod.mk.injEq] at h
                  obtain ⟨hs, _⟩ := h
                  subst hs
                  first
                    | rw [Statement.chainsOk_ifStmt]
                    | rw [Statement.chainsOk_elseIfStmt]
                  simp [Statement.nextShapeOk, Statement.chainsOkOpt,
                    hchl]
              | text p2 v2 => simp [Statement.name] at hmem
              | inlineTsCode p2 e2 => simp [Statement.name] at hmem
              | inlineSafeTsCode p2 e2 => simp [Statement.name] at hmem
              | each p2 it2 v2 ch2 => simp [Statement.name] at hmem
              | ifStmt p2 e2 ch2 n2 => simp [Statement.name] at hmem
              | letStmt p2 n2 v2 => simp [Statement.name] at hmem
              | assign p2 n2 v2 => simp [Statement.name] at hmem
              | param p2 n2 t2 d2 => simp [Statement.name] at hmem
              | importStmt p2 n2 => simp [Statement.name] at hmem
              | defineSlot p2 n2 a2 => simp [Statement.name] at hmem
              | component p2 c2 pa2 m2 sl2 => simp [Statement.name] at hmem
              | componentMainSlot p2 ch2 => simp [Statement.name] at hmem
              | componentSlot p2 n2 pv2 ch2 => simp [Statement.name] at hmem
      -- makeElseStatement
      · intro si sl st s st' h
        simp only [parserFns, parserFnsStep] at h
        split at h
        next => simp at h
        next r args st1 heq =>
          split at h
          next => simp at h
          next r2 children endS st2 heq2 =>
            have h2 := ihUntil _ _ _ _ _ _ heq2
            simp only [Except.ok.injEq, Prod.mk.injEq] at h
            obtain ⟨hs, _⟩ := h
            subst hs
            simp only [Statement.chainsOk]
            exact (Statement.chainsOkList_iff children).2 h2.1
      -- makeComponentStatement
      · intro si sl st s st' h
        simp only [parserFns, parserFnsStep] at h
        split at h
        next => simp at h
        next r tagParams st1 heq =>
          split at h
          next => simp at h
          next r2 statements endS st2 heq2 =>
            have h2 := ihUntil _ _ _ _ _ _ heq2
            simp only [Except.ok.injEq, Prod.mk.injEq] at h
            obtain ⟨hs, _⟩ := h
            subst hs
            simp only [Statement.chainsOk, Bool.and_eq_true]
            refine ⟨?_, ?_⟩
            · refine (Statement.chainsOkList_iff _).2 ?_
              intro x hx
              exact h2.1 x (List.mem_of_mem_filter hx)
            · refine (Statement.chainsOkList_iff _).2 ?_
              intro x hx
              exact h2.1 x (List.mem_of_mem_filter hx)
      -- makeComponentSlotStatement
      · intro si sl st s st' h
        simp only [parserFns, parserFnsStep] at h
        split at h
        next => simp at h
        next st1 hcons =>
          split at h
          next => simp at h
          next r vp ctrl st2 heq =>
            split at h
            next => simp at h
            next optv st3 hafp =>
              split at h
              next => simp at h
              next r4 children endS st4 heq4 =>
                have h4 := ihUntil _ _ _ _ _ _ heq4
                simp only [Except.ok.injEq, Prod.mk.injEq] at h
                obtain ⟨hs, _⟩ := h
                subst hs
                simp only [Statement.chainsOk]
                exact (Statement.chainsOkList_iff children).2 h4.1
      -- parseUntilStatment
      · intro names aS st ss t st' h
        simp only [parserFns, parserFnsStep] at h
        split at h
        next => simp at h
        next =>
          split at h
          next => simp at h
          next r statement st1 heq =>
            have hc1 := ihOnce _ _ _ _ _ _ _ _ _ _ heq
            split at h
            next hmem =>
              simp only [Except.ok.injEq, Prod.mk.injEq] at h
              obtain ⟨hss, hts, hst⟩ := h
              subst hss
              subst hts
              exact ⟨by simp, hc1, hmem⟩
            next hnmem =>
              split at h
              next => simp at h
              next r2 statements ending st2 hrec =>
                have hr := ihUntil _ _ _ _ _ _ hrec
                simp only [Except.ok.injEq, Prod.mk.injEq] at h
                obtain ⟨hss, hts, hst⟩ := h
                subst hss
                subst hts
                refine ⟨?_, hr.2.1, hr.2.2⟩
                intro x hx
                rcases List.mem_cons.1 hx with hx | hx
                · subst hx
                  exact hc1
                · exact hr.1 x hx

/-- Every statement in a successful top-level parse satisfies the chain
predicate. -/
theorem parseLoop_chains {fuel : Nat} {aI aD aP : Bool} {st : PState}
    {L : List Statement} (h : parseLoop fuel aI aD aP st = .ok L) :
    ∀ s ∈ L, Statement.chainsOk s = true := by
  induction fuel generalizing aI aD aP st L with
  | zero => exact absurd h (by simp [parseLoop])
  | succ fuel ih =>
      rw [parseLoop] at h
      split at h
      next =>
        simp only [Except.ok.injEq] at h
        subst h
        simp
      next hend =>
        split at h
        next => simp at h
        next r statement st1 heq =>
          have hc := (parserFns_chains fuel).1 _ _ _ _ _ _ _ _ _ _ heq
          split at h
          next => simp at h
          next =>
            dsimp only [] at h
            split at h
            next => simp at h
            next statements hrec =>
              simp only [Except.ok.injEq] at h
              subst h
              intro x hx
              rcases List.mem_cons.1 hx with hx | hx
              · subst hx
                exact hc
              · exact ih hrec x hx

/-- Direct structural children inherit the chain predicate. -/
theorem chainsOk_of_directChild {d s : Statement}
    (hc : Statement.DirectChild d s) (h : Statement.chainsOk s = true) :
    Statement.chainsOk d = true := by
  cases hc with
  | eachChild hm =>
      simp only [Statement.chainsOk] at h
      exact (Statement.chainsOkList_iff _).1 h d hm
  | ifChild hm =>
      simp only [Statement.chainsOk, Bool.and_eq_true] at h
      exact (Statement.chainsOkList_iff _).1 h.1.1 d hm
  | ifNext =>
      simp only [Statement.chainsOk, Statement.chainsOkOpt,
        Bool.and_eq_true] at h
      exact h.2
  | elseIfChild hm =>
      simp only [Statement.chainsOk, Bool.and_eq_true] at h
      exact (Statement.chainsOkList_iff _).1 h.1.1 d hm
  | elseIfNext =>
      simp only [Statement.chainsOk, Statement.chainsOkOpt,
        Bool.and_eq_true] at h
      exact h.2
  | elseChild hm =>
      simp only [Statement.chainsOk] at h
      exact (Statement.chainsOkList_iff _).1 h d hm
  | componentMain =>
      simp only [Statement.chainsOk, Bool.and_eq_true] at h
      exact h.1
  | componentSlots hm =>
      simp only [Statement.chainsOk, Bool.and_eq_true] at h
      exact (Statement.chainsOkList_iff _).1 h.2 d hm
  | mainSlotChild hm =>
      simp only [Statement.chainsOk] at h
      exact (Statement.chainsOkList_iff _).1 h d hm
  | slotChild hm =>
      simp only [Statement.chainsOk] at h
      exact (Statement.chainsOkList_iff _).1 h d hm

/-- Every sub-statement inherits the chain predicate. -/
theorem chainsOk_of_subStatement {d s : Statement}
    (hsub : Statement.SubStatement d s) (h : Statement.chainsOk s = true) :
    Statement.chainsOk d = true := by
  induction hsub with
  | refl => exact h
  | step hsub hchild ih => exact ih (chainsOk_of_directChild hchild h)

/-- A chain-correct statement's next traversal reads as zero or more
ElseIfs followed by at most one terminal Else. The outer bound m carries
the well-founded descent along next pointers. -/
theorem chainsOk_nextChain_shape :
    ∀ (m : Nat) (s : Statement), sizeOf s ≤ m →
      Statement.chainsOk s = true →
      ∃ (k : Nat) (b : Bool), (Statement.nextChain s).map Statement.name =
        List.replicate k StatementName.ElseIfStatement ++
          (if b then [StatementName.ElseStatement] else []) := by
  intro m
  induction m with
  | zero =>
      intro s hs _
      exact absurd hs (by cases s <;> simp)
  | succ m ih =>
      intro s hs hc
      cases s with
      | ifStmt p e ch n =>
          cases n with
          | none => exact ⟨0, false, by simp [Statement.nextChain]⟩
          | some nx =>
              simp only [Statement.chainsOk, Statement.chainsOkOpt,
                Bool.and_eq_true] at hc
              obtain ⟨⟨hch, hshape⟩, hnx⟩ := hc
              cases nx with
              | elseIfStmt p2 e2 ch2 n2 =>
                  have hsz : sizeOf (Statement.elseIfStmt p2 e2 ch2 n2) ≤
                      m := by
                    have hlt : sizeOf (Statement.elseIfStmt p2 e2 ch2 n2) <
                        sizeOf (Statement.ifStmt p e ch
                          (some (Statement.elseIfStmt p2 e2 ch2 n2))) := by
                      simp
                      omega
                    omega
                  obtain ⟨k, b, hk⟩ := ih _ hsz hnx
                  refine ⟨k + 1, b, ?_⟩
                  simp [Statement.nextChain, hk, Statement.name,
                    List.replicate_succ]
              | elseStmt p2 ch2 =>
                  refine ⟨0, true, ?_⟩
                  simp [Statement.nextChain, Statement.name]
              | text p2 v2 => simp [Statement.nextShapeOk] at hshape
              | inlineTsCode p2 e2 =>
                  simp [Statement.nextShapeOk] at hshape
              | inlineSafeTsCode p2 e2 =>
                  simp [Statement.nextShapeOk] at hshape
              | each p2 it2 v2 ch2 =>
                  simp [Statement.nextShapeOk] at hshape
              | endStmt p2 => simp [Statement.nextShapeOk] at hshape
              | ifStmt p2 e2 ch2 n2 =>
                  simp [Statement.nextShapeOk] at hshape
              | letStmt p2 n2 v2 => simp [Statement.nextShapeOk] at hshape
              | assign p2 n2 v2 => simp [Statement.nextShapeOk] at hshape
              | param p2 n2 t2 d2 => simp [Statement.nextShapeOk] at hshape
              | importStmt p2 n2 => simp [Statement.nextShapeOk] at hshape
              | defineSlot p2 n2 a2 =>
                  simp [Statement.nextShapeOk] at hshape
              | component p2 c2 pa2 m2 sl2 =>
                  simp [Statement.nextShapeOk] at hshape
              | componentMainSlot p2 ch2 =>
                  simp [Statement.nextShapeOk] at hshape
              | componentSlot p2 n2 pv2 ch2 =>
                  simp [Statement.nextShapeOk] at hshape
      | elseIfStmt p e ch n =>
          cases n with
          | none => exact ⟨0, false, by simp [Statement.nextChain]⟩
          | some nx =>
              simp only [Statement.chainsOk, Statement.chainsOkOpt,
                Bool.and_eq_true] at hc
              obtain ⟨⟨hch, hshape⟩, hnx⟩ := hc
              cases nx with
              | elseIfStmt p2 e2 ch2 n2 =>
                  have hsz : sizeOf (Statement.elseIfStmt p2 e2 ch2 n2) ≤
                      m := by
                    have hlt : sizeOf (Statement.elseIfStmt p2 e2 ch2 n2) <
                        sizeOf (Statement.elseIfStmt p e ch
                          (some (Statement.elseIfStmt p2 e2 ch2 n2))) := by
                      simp
                      omega
                    omega
                  obtain ⟨k, b, hk⟩ := ih _ hsz hnx
                  refine ⟨k + 1, b, ?_⟩
                  simp [Statement.nextChain, hk, Statement.name,
                    List.replicate_succ]
              | elseStmt p2 ch2 =>
                  refine ⟨0, true, ?_⟩
                  simp [Statement.nextChain, Statement.name]
              | text p2 v2 => simp [Statement.nextShapeOk] at hshape
              | inlineTsCode p2 e2 =>
                  simp [Statement.nextShapeOk] at hshape
              | inlineSafeTsCode p2 e2 =>
                  simp [Statement.nextShapeOk] at hshape
              | each p2 it2 v2 ch2 =>
                  simp [Statement.nextShapeOk] at hshape
              | endStmt p2 => simp [Statement.nextShapeOk] at hshape
              | ifStmt p2 e2 ch2 n2 =>
                  simp [Statement.nextShapeOk] at hshape
              | letStmt p2 n2 v2 => simp [Statement.nextShapeOk] at hshape
              | assign p2 n2 v2 => simp [Statement.nextShapeOk] at hshape
              | param p2 n2 t2 d2 => simp [Statement.nextShapeOk] at hshape
              | importStmt p2 n2 => simp [Statement.nextShapeOk] at hshape
              | defineSlot p2 n2 a2 =>
                  simp [Statement.nextShapeOk] at hshape
              | component p2 c2 pa2 m2 sl2 =>
                  simp [Statement.nextShapeOk] at hshape
              | componentMainSlot p2 ch2 =>
                  simp [Statement.nextShapeOk] at hshape
              | componentSlot p2 n2 pv2 ch2 =>
                  simp [Statement.nextShapeOk] at hshape
      | text p v => exact ⟨0, false, by simp [Statement.nextChain]⟩
      | inlineTsCode p e => exact ⟨0, false, by simp [Statement.nextChain]⟩
      | inlineSafeTsCode p e =>
          exact ⟨0, false, by simp [Statement.nextChain]⟩
      | each p it v ch => exact ⟨0, false, by simp [Statement.nextChain]⟩
      | endStmt p => exact ⟨0, false, by simp [Statement.nextChain]⟩
      | elseStmt p ch => exact ⟨0, false, by simp [Statement.nextChain]⟩
      | letStmt p n v => exact ⟨0, false, by simp [Statement.nextChain]⟩
      | assign p n v => exact ⟨0, false, by simp [Statement.nextChain]⟩
      | param p n t d => exact ⟨0, false, by simp [Statement.nextChain]⟩
      | importStmt p n => exact ⟨0, false, by simp [Statement.nextChain]⟩
      | defineSlot p n a => exact ⟨0, false, by simp [Statement.nextChain]⟩
      | component p c pa m2 sl =>
          exact ⟨0, false, by simp [Statement.nextChain]⟩
      | componentMainSlot p ch =>
          exact ⟨0, false, by simp [Statement.nextChain]⟩
      | componentSlot p n pv ch =>
          exact ⟨0, false, by simp [Statement.nextChain]⟩

/-- Claim C6: every If statement produced by a successful parse, at any
nesting depth, satisfies the chain predicate, so following the next
pointers yields zero or more ElseIfs followed by at most one terminal
Else; a present next of a chain-correct If or ElseIf is exactly one
ElseIf or one Else node; an Else carries no next at all, so its chain is
empty; and the traversal is the total function nextChain producing a
finite list, so it terminates and cannot cycle. -/
theorem C6_if_chain_shape :
    (∀ (code : List Char) (fuel : Nat) (L : List Statement),
      parse code fuel = .ok L → ∀ s0 ∈ L, ∀ s : Statement,
      Statement.SubStatement s s0 → Statement.chainsOk s = true) ∧
    (∀ s : Statement, Statement.chainsOk s = true →
      ∃ (k : Nat) (b : Bool), (Statement.nextChain s).map Statement.name =
        List.replicate k StatementName.ElseIfStatement ++
          (if b then [StatementName.ElseStatement] else [])) ∧
    (∀ (p : PositionRange) (e : TsCodeExpression) (ch : List Statement)
      (n : Statement),
      Statement.chainsOk (.ifStmt p e ch (some n)) = true ∨
        Statement.chainsOk (.elseIfStmt p e ch (some n)) = true →
      (∃ p2 e2 ch2 n2, n = .elseIfStmt p2 e2 ch2 n2) ∨
        ∃ p2 ch2, n = .elseStmt p2 ch2) ∧
    (∀ (p : PositionRange) (ch : List Statement),
      Statement.nextChain (.elseStmt p ch) = []) := by
  refine ⟨?_, ?_, ?_, ?_⟩
  · intro code fuel L h s0 hs0 s hsub
    exact chainsOk_of_subStatement hsub (parseLoop_chains h s0 hs0)
  · intro s hc
    exact chainsOk_nextChain_shape (sizeOf s) s (Nat.le_refl _) hc
  · intro p e ch n hc
    have hshape : Statement.nextShapeOk (some n) = true := by
      rcases hc with hc | hc <;>
        · simp only [Statement.chainsOk, Bool.and_eq_true] at hc
          exact hc.1.2
    cases n with
    | elseIfStmt p2 e2 ch2 n2 => exact Or.inl ⟨p2, e2, ch2, n2, rfl⟩
    | elseStmt p2 ch2 => exact Or.inr ⟨p2, ch2, rfl⟩
    | text p2 v2 => simp [Statement.nextShapeOk] at hshape
    | inlineTsCode p2 e2 => simp [Statement.nextShapeOk] at hshape
    | inlineSafeTsCode p2 e2 => simp [Statement.nextShapeOk] at hshape
    | each p2 it2 v2 ch2 => simp [Statement.nextShapeOk] at hshape
    | endStmt p2 => simp [Statement.nextShapeOk] at hshape
    | ifStmt p2 e2 ch2 n2 => simp [Statement.nextShapeOk] at hshape
    | letStmt p2 n2 v2 => simp [Statement.nextShapeOk] at hshape
    | assign p2 n2 v2 => simp [Statement.nextShapeOk] at hshape
    | param p2 n2 t2 d2 => simp [Statement.nextShapeOk] at hshape
    | importStmt p2 n2 => simp [Statement.nextShapeOk] at hshape
    | defineSlot p2 n2 a2 => simp [Statement.nextShapeOk] at hshape
    | component p2 c2 pa2 m2 sl2 => simp [Statement.nextShapeOk] at hshape
    | componentMainSlot p2 ch2 => simp [Statement.nextShapeOk] at hshape
    | componentSlot p2 n2 pv2 ch2 => simp [Statement.nextShapeOk] at hshape
  · intro p ch
    simp [Statement.nextChain]

/-- Witness for C6: the if and else of a concrete parse are chain-correct
and the chain reads as the single terminal Else. -/
theorem C6_if_chain_shape_witness :
    Statement.chainsOk (.ifStmt ⟨0, 0, 7⟩ ⟨⟨4, 0, 5⟩, ['x']⟩
      [.text ⟨6, 0, 7⟩ ['a']]
      (some (.elseStmt ⟨7, 0, 18⟩ [.text ⟨12, 0, 14⟩ " b".toList]))) =
        true ∧
    ∃ (k : Nat) (b : Bool), (Statement.nextChain (.ifStmt ⟨0, 0, 7⟩ ⟨⟨4, 0, 5⟩, ['x']⟩
      [.text ⟨6, 0, 7⟩ ['a']]
      (some (.elseStmt ⟨7, 0, 18⟩
        [.text ⟨12, 0, 14⟩ " b".toList])))).map Statement.name =
      List.replicate k StatementName.ElseIfStatement ++
        (if b then [StatementName.ElseStatement] else []) :=
  ⟨C6_if_chain_shape.1 "@if(x)a@else b@end".toList 100
      [.ifStmt ⟨0, 0, 7⟩ ⟨⟨4, 0, 5⟩, ['x']⟩ [.text ⟨6, 0, 7⟩ ['a']]
        (some (.elseStmt ⟨7, 0, 18⟩ [.text ⟨12, 0, 14⟩ " b".toList]))] rfl
      (.ifStmt ⟨0, 0, 7⟩ ⟨⟨4, 0, 5⟩, ['x']⟩ [.text ⟨6, 0, 7⟩ ['a']]
        (some (.elseStmt ⟨7, 0, 18⟩ [.text ⟨12, 0, 14⟩ " b".toList])))
      (by simp)
      (.ifStmt ⟨0, 0, 7⟩ ⟨⟨4, 0, 5⟩, ['x']⟩ [.text ⟨6, 0, 7⟩ ['a']]
        (some (.elseStmt ⟨7, 0, 18⟩ [.text ⟨12, 0, 14⟩ " b".toList])))
      (Statement.SubStatement.refl _),
   C6_if_chain_shape.2.1 (.ifStmt ⟨0, 0, 7⟩ ⟨⟨4, 0, 5⟩, ['x']⟩
      [.text ⟨6, 0, 7⟩ ['a']]
      (some (.elseStmt ⟨7, 0, 18⟩ [.text ⟨12, 0, 14⟩ " b".toList])))
      (by simp [Statement.chainsOk, Statement.chainsOkList,
        Statement.chainsOkOpt, Statement.nextShapeOk])⟩

/-! ### The source-map offset law -/

theorem drop_take_append {α : Type} (g tl : List α) (a n : Nat)
    (h : a + n ≤ g.length) :
    ((g ++ tl).drop a).take n = (g.drop a).take n := by
  rw [List.drop_append_eq_append_drop]
  rw [List.take_append_eq_append_take]
  have h1 : a - g.length = 0 := by omega
  have h2 : n - (g.drop a).length = 0 := by
    simp only [List.length_drop]
    omega
  rw [h1, h2]
  simp

theorem drop_append_add {α : Type} (g s : List α) (k : Nat) :
    (g ++ s).drop (g.length + k) = s.drop k := by
  rw [List.drop_append_eq_append_drop]
  have h1 : g.length + k - g.length = k := by omega
  have h2 : g.drop (g.length + k) = [] := by
    apply List.drop_eq_nil_of_le
    omega
  rw [h1, h2]
  simp

/-- Extending the generated text on the right preserves an entry match. -/
theorem entryMatches_append {gen tl : List Char} {e : MapItem}
    {d : TsCode} (h : entryMatches gen e d) :
    entryMatches (gen ++ tl) e d := by
  obtain ⟨h1, h2, h3, h4⟩ := h
  refine ⟨h1, h2, by simp only [List.length_append]; omega, ?_⟩
  rw [drop_take_append _ _ _ _ h3]
  exact h4

theorem setParentOffset_children (t : TsCode) (po : Nat) :
    (t.setParentOffset po).children = t.children := by
  cases t
  rfl

theorem setParentOffset_shouldBeMapped (t : TsCode) (po : Nat) :
    (t.setParentOffset po).shouldBeMapped = t.shouldBeMapped := by
  cases t
  rfl

/-- Introducing goodTree on a node from its fields. -/
theorem goodTree_mk (so : Nat) (m : Bool) (po : Nat) (ch : List TsCode)
    (lit : List Char) (hm : m = true → ch = [])
    (hch : ∀ c ∈ ch, goodTree c) :
    goodTree (.mk so m po ch lit) := by
  intro d hd hmap
  rcases hd with rfl | hdesc
  · simp only [TsCode.children]
    exact hm hmap
  · cases hdesc with
    | child hc =>
        exact hch _ (by simpa [TsCode.children] using hc) _ (Or.inl rfl) hmap
    | nest hc hd2 =>
        exact hch _ (by simpa [TsCode.children] using hc) _ (Or.inr hd2)
          hmap

theorem goodTree_setParentOffset {t : TsCode} {po : Nat}
    (h : goodTree t) : goodTree (t.setParentOffset po) := by
  intro d hd hmap
  rcases hd with rfl | hdesc
  · cases t with
    | mk so m po2 ch lit =>
        simp only [TsCode.setParentOffset, TsCode.children]
        have := h (.mk so m po2 ch lit) (Or.inl rfl)
          (by simpa [TsCode.shouldBeMapped, TsCode.setParentOffset]
            using hmap)
        simpa [TsCode.children] using this
  · have hdt : TsCode.Descendant d t := by
      cases hdesc with
      | child hc =>
          exact .child (by rw [setParentOffset_children] at hc; exact hc)
      | nest hc hd2 =>
          exact .nest (by rw [setParentOffset_children] at hc; exact hc) hd2
    exact h d (Or.inr hdt) hmap

/-- The fragment of a raw expression is a mapped childless leaf. -/
theorem goodTree_expr (ex : TsCodeExpression) :
    goodTree (TsCodeExpression.toTsCode ex) := by
  intro d hd hmap
  rcases hd with rfl | hdesc
  · rfl
  · cases hdesc with
    | child hc => simp [TsCodeExpression.toTsCode, TsCode.children] at hc
    | nest hc _ => simp [TsCodeExpression.toTsCode, TsCode.children] at hc

/-- Members of the builder loop output are parent-offset stampings of the
present candidates. -/
theorem builderLoop_mem :
    ∀ (cs : List (Option TsCode)) (lits : List (List Char)) (acc : Nat)
      (t : TsCode), t ∈ builderLoop lits cs acc →
      ∃ t0 po, some t0 ∈ cs ∧ t = t0.setParentOffset po := by
  intro cs
  induction cs with
  | nil =>
      intro lits acc t ht
      simp [builderLoop] at ht
  | cons c cs ih =>
      intro lits acc t ht
      cases c with
      | none =>
          rw [builderLoop] at ht
          obtain ⟨t0, po, hm, he⟩ := ih _ _ _ ht
          exact ⟨t0, po, List.mem_cons_of_mem _ hm, he⟩
      | some u =>
          rw [builderLoop] at ht
          rcases List.mem_cons.1 ht with he | ht2
          · exact ⟨u, _, List.mem_cons_self _ _, he⟩
          · obtain ⟨t0, po, hm, he⟩ := ih _ _ _ ht2
            exact ⟨t0, po, List.mem_cons_of_mem _ hm, he⟩

/-- Members of the array loop output come from the accumulator or are
parent-offset stampings of the present items. -/
theorem tsCodeArrayLoop_mem (delim : List Char) :
    ∀ (items : List (Option TsCode)) (children : List TsCode)
      (literal : List Char) (t : TsCode),
      t ∈ (tsCodeArrayLoop delim items children literal).1 →
      t ∈ children ∨ ∃ t0 po, some t0 ∈ items ∧ t = t0.setParentOffset po := by
  intro items
  induction items with
  | nil =>
      intro children literal t ht
      simp only [tsCodeArrayLoop] at ht
      exact Or.inl ht
  | cons c rest ih =>
      intro children literal t ht
      cases c with
      | none =>
          rw [tsCodeArrayLoop] at ht
          rcases ih _ _ _ ht with h | ⟨t0, po, hm, he⟩
          · exact Or.inl h
          · exact Or.inr ⟨t0, po, List.mem_cons_of_mem _ hm, he⟩
      | some u =>
          rw [tsCodeArrayLoop] at ht
          rcases ih _ _ _ ht with h | ⟨t0, po, hm, he⟩
          · rcases List.mem_append.1 h with h | h
            · exact Or.inl h
            · simp only [List.mem_singleton] at h
              exact Or.inr ⟨u, literal.length, List.mem_cons_self _ _, h⟩
          · exact Or.inr ⟨t0, po, List.mem_cons_of_mem _ hm, he⟩

theorem goodTree_tsCodeBuild (so : Nat) (lits : List (List Char))
    (cands : List (Option TsCode))
    (h : ∀ t0, some t0 ∈ cands → goodTree t0) :
    goodTree (tsCodeBuild so false lits cands) := by
  unfold tsCodeBuild
  apply goodTree_mk
  · intro hm
    exact absurd hm (by simp)
  · intro c hc
    obtain ⟨t0, po, hmem, rfl⟩ := builderLoop_mem _ _ _ _ hc
    exact goodTree_setParentOffset (h t0 hmem)

theorem goodTree_tsCodeArray (items : List (Option TsCode))
    (delim : List Char) (h : ∀ t0, some t0 ∈ items → goodTree t0) :
    goodTree (tsCodeArray items delim) := by
  unfold tsCodeArray
  apply goodTree_mk
  · intro hm
    exact absurd hm (by simp)
  · intro c hc
    rcases tsCodeArrayLoop_mem _ _ _ _ _ hc with h0 | ⟨t0, po, hm0, rfl⟩
    · simp at h0
    · exact goodTree_setParentOffset (h t0 hm0)

theorem toTsCodeList_mem :
    ∀ (ch : List Statement) (t0 : TsCode),
      some t0 ∈ Statement.toTsCodeList ch →
      ∃ c ∈ ch, Statement.toTsCode c = some t0 := by
  intro ch
  induction ch with
  | nil =>
      intro t0 h
      simp [Statement.toTsCodeList] at h
  | cons c cs ih =>
      intro t0 h
      simp only [Statement.toTsCodeList] at h
      rcases List.mem_cons.1 h with h | h
      · exact ⟨c, List.mem_cons_self _ _, h.symm⟩
      · obtain ⟨c2, hc2, he⟩ := ih _ h
        exact ⟨c2, List.mem_cons_of_mem _ hc2, he⟩

/-- A childless fragment flattens to its own literal and an empty map. -/
theorem toMappedString_leaf {t : TsCode} (h : t.children = []) :
    TsCode.toMappedString t = ([], t.literal) := by
  cases t with
  | mk so m po ch lit =>
      simp only [TsCode.children] at h
      subst h
      simp [TsCode.toMappedString, TsCode.mappedLoop, TsCode.literal]

/-- The invariant of the flattening loop: the generated text only grows
on the right, and every emitted entry either was already accumulated or
points at the flattened text of one of the walked children or of one of
its descendants. -/
theorem mappedLoop_entries (lit : List Char) :
    ∀ (cs : List TsCode) (lastIdx : Nat) (gen : List Char)
      (maps : List MapItem),
      (∀ c ∈ cs, ∀ m ∈ (TsCode.toMappedString c).1,
        ∃ d, TsCode.Descendant d c ∧ d.shouldBeMapped = true ∧
          entryMatches (TsCode.toMappedString c).2 m d) →
      (∃ tail, (TsCode.mappedLoop cs lit lastIdx gen maps).2 =
        gen ++ tail) ∧
      ∀ e ∈ (TsCode.mappedLoop cs lit lastIdx gen maps).1,
        e ∈ maps ∨
        ∃ c, c ∈ cs ∧ ∃ d, (d = c ∨ TsCode.Descendant d c) ∧
          d.shouldBeMapped = true ∧
          entryMatches (TsCode.mappedLoop cs lit lastIdx gen maps).2 e d := by
  intro cs
  induction cs with
  | nil =>
      intro lastIdx gen maps _
      refine ⟨⟨lit.drop lastIdx, by simp [TsCode.mappedLoop]⟩, ?_⟩
      intro e he
      simp only [TsCode.mappedLoop] at he
      exact Or.inl he
  | cons c cs ih =>
      intro lastIdx gen maps Hc
      have hstep : TsCode.mappedLoop (c :: cs) lit lastIdx gen maps =
          TsCode.mappedLoop cs lit c.parentOffset
            ((gen ++ jsSlice lit lastIdx c.parentOffset) ++
              (TsCode.toMappedString c).2)
            ((if c.shouldBeMapped then
                maps ++ [⟨c.sourceOffset,
                  (gen ++ jsSlice lit lastIdx c.parentOffset).length,
                  (TsCode.toMappedString c).2.length⟩]
              else maps) ++
              (TsCode.toMappedString c).1.map
                (fun m => ⟨m.sourceOffset,
                  (gen ++ jsSlice lit lastIdx c.parentOffset).length +
                    m.generatedOffset, m.length⟩)) := by
        simp [TsCode.mappedLoop]
      obtain ⟨⟨tail, htail⟩, hb⟩ := ih c.parentOffset
        ((gen ++ jsSlice lit lastIdx c.parentOffset) ++
          (TsCode.toMappedString c).2)
        ((if c.shouldBeMapped then
            maps ++ [⟨c.sourceOffset,
              (gen ++ jsSlice lit lastIdx c.parentOffset).length,
              (TsCode.toMappedString c).2.length⟩]
          else maps) ++
          (TsCode.toMappedString c).1.map
            (fun m => ⟨m.sourceOffset,
              (gen ++ jsSlice lit lastIdx c.parentOffset).length +
                m.generatedOffset, m.length⟩))
        (fun c' hc' => Hc c' (List.mem_cons_of_mem _ hc'))
      constructor
      · refine ⟨jsSlice lit lastIdx c.parentOffset ++
          (TsCode.toMappedString c).2 ++ tail, ?_⟩
        rw [hstep, htail]
        simp [List.append_assoc]
      · intro e he
        rw [hstep] at he
        rw [hstep]
        rcases hb e he with hin | ⟨c', hc', d, hd, hmap, hmatch⟩
        · rcases List.mem_append.1 hin with hin1 | hinreb
          · by_cases hm : c.shouldBeMapped = true
            · rw [if_pos hm] at hin1
              rcases List.mem_append.1 hin1 with h0 | hown
              · exact Or.inl h0
              · simp only [List.mem_singleton] at hown
                subst hown
                refine Or.inr ⟨c, List.mem_cons_self _ _, c, Or.inl rfl,
                  hm, ?_⟩
                rw [htail]
                refine ⟨rfl, rfl, ?_, ?_⟩
                · simp only [List.length_append]
                  omega
                · rw [drop_take_append _ _ _ _ (by
                    simp only [List.length_append]
                    omega)]
                  rw [List.drop_left, List.take_length]
            · rw [if_neg hm] at hin1
              exact Or.inl hin1
          · obtain ⟨m, hmem, hme⟩ := List.mem_map.1 hinreb
            obtain ⟨d, hdesc, hdm, hmatch2⟩ :=
              Hc c (List.mem_cons_self _ _) m hmem
            obtain ⟨hq1, hq2, hq3, hq4⟩ := hmatch2
            refine Or.inr ⟨c, List.mem_cons_self _ _, d, Or.inr hdesc,
              hdm, ?_⟩
            rw [htail]
            subst hme
            refine ⟨hq1, hq2, ?_, ?_⟩
            · simp only [List.length_append]
              omega
            · rw [drop_take_append _ _ _ _ (by
                simp only [List.length_append]
                omega)]
              rw [drop_append_add]
              exact hq4
        · exact Or.inr ⟨c', List.mem_cons_of_mem _ hc', d, hd, hmap,
            hmatch⟩

/-- Every entry of a flattened fragment tree points at the flattened text
of a mapped descendant. -/
theorem toMappedString_entries :
    ∀ (N : Nat) (t : TsCode), sizeOf t ≤ N →
      ∀ e ∈ (TsCode.toMappedString t).1,
        ∃ d, TsCode.Descendant d t ∧ d.shouldBeMapped = true ∧
          entryMatches (TsCode.toMappedString t).2 e d := by
  intro N
  induction N with
  | zero =>
      intro t ht
      exact absurd ht (by cases t <;> simp)
  | succ N ih =>
      intro t ht e he
      cases t with
      | mk so m po children lit =>
          have Hc : ∀ c ∈ children, ∀ m2 ∈ (TsCode.toMappedString c).1,
              ∃ d, TsCode.Descendant d c ∧ d.shouldBeMapped = true ∧
                entryMatches (TsCode.toMappedString c).2 m2 d := by
            intro c hc
            have hsz : sizeOf c ≤ N := by
              have h1 := List.sizeOf_lt_of_mem hc
              have h2 : sizeOf children <
                  sizeOf (TsCode.mk so m po children lit) := by
                simp
                omega
              omega
            exact ih c hsz
          have hms : TsCode.toMappedString (.mk so m po children lit) =
              TsCode.mappedLoop children lit 0 [] [] := by
            simp [TsCode.toMappedString]
          rw [hms] at he ⊢
          obtain ⟨_, hbpart⟩ := mappedLoop_entries lit children 0 [] [] Hc
          rcases hbpart e he with hin | ⟨c, hc, d, hd, hmap, hmatch⟩
          · simp at hin
          · refine ⟨d, ?_, hmap, hmatch⟩
            rcases hd with rfl | hdesc
            · exact .child (by simpa [TsCode.children] using hc)
            · exact .nest (by simpa [TsCode.children] using hc) hdesc

/-- Every fragment tree built by toTsCode maps only childless nodes: the
builder is always called with shouldBeMapped false, so the only mapped
nodes are the expression leaves. -/
theorem toTsCode_goodTree :
    ∀ (N : Nat) (s : Statement), sizeOf s ≤ N →
      ∀ t, Statement.toTsCode s = some t → goodTree t := by
  intro N
  induction N with
  | zero =>
      intro s hs
      exact absurd hs (by cases s <;> simp)
  | succ N ih =>
      intro s hs t ht
      cases s with
      | text p v => simp [Statement.toTsCode] at ht
      | endStmt p => simp [Statement.toTsCode] at ht
      | inlineTsCode p e =>
          simp only [Statement.toTsCode, Option.some.injEq] at ht
          subst ht
          apply goodTree_tsCodeBuild
          intro t0 hmem
          simp only [List.mem_singleton, Option.some.injEq] at hmem
          subst hmem
          exact goodTree_expr e
      | inlineSafeTsCode p e =>
          simp only [Statement.toTsCode, Option.some.injEq] at ht
          subst ht
          apply goodTree_tsCodeBuild
          intro t0 hmem
          simp only [List.mem_singleton, Option.some.injEq] at hmem
          subst hmem
          exact goodTree_expr e
      | each p iter var ch =>
          simp only [Statement.toTsCode, Option.some.injEq] at ht
          subst ht
          apply goodTree_tsCodeBuild
          intro t0 hmem
          simp only [List.mem_cons, List.mem_singleton, Option.some.injEq,
            List.not_mem_nil, or_false] at hmem
          rcases hmem with rfl | rfl | rfl
          · exact goodTree_expr var
          · exact goodTree_expr iter
          · apply goodTree_tsCodeArray
            intro t1 hm1
            obtain ⟨c2, hc2, he2⟩ := toTsCodeList_mem _ _ hm1
            have hsz : sizeOf c2 ≤ N := by
              have h1 := List.sizeOf_lt_of_mem hc2
              have h2 : sizeOf ch <
                  sizeOf (Statement.each p iter var ch) := by
                simp
                try omega
              omega
            exact ih c2 hsz t1 he2
      | ifStmt p e ch n =>
          cases n with
          | none =>
              simp only [Statement.toTsCode, Option.some.injEq] at ht
              subst ht
              apply goodTree_tsCodeBuild
              intro t0 hmem
              simp only [List.mem_cons, List.mem_singleton,
                Option.some.injEq, List.not_mem_nil, or_false] at hmem
              rcases hmem with rfl | rfl
              · exact goodTree_expr e
              · apply goodTree_tsCodeArray
                intro t1 hm1
                obtain ⟨c2, hc2, he2⟩ := toTsCodeList_mem _ _ hm1
                have hsz : sizeOf c2 ≤ N := by
                  have h1 := List.sizeOf_lt_of_mem hc2
                  have h2 : sizeOf ch <
                      sizeOf (Statement.ifStmt p e ch none) := by
                    simp
                    omega
                  omega
                exact ih c2 hsz t1 he2
          | some nx =>
              simp only [Statement.toTsCode, Option.some.injEq] at ht
              subst ht
              apply goodTree_tsCodeBuild
              intro t0 hmem
              simp only [List.mem_cons, List.mem_singleton,
                Option.some.injEq, List.not_mem_nil, or_false] at hmem
              rcases hmem with rfl | rfl | hnx
              · exact goodTree_expr e
              · apply goodTree_tsCodeArray
                intro t1 hm1
                obtain ⟨c2, hc2, he2⟩ := toTsCodeList_mem _ _ hm1
                have hsz : sizeOf c2 ≤ N := by
                  have h1 := List.sizeOf_lt_of_mem hc2
                  have h2 : sizeOf ch <
                      sizeOf (Statement.ifStmt p e ch (some nx)) := by
                    simp
                    omega
                  omega
                exact ih c2 hsz t1 he2
              · have hsz : sizeOf nx ≤ N := by
                  have h2 : sizeOf nx <
                      sizeOf (Statement.ifStmt p e ch (some nx)) := by
                    simp
                    omega
                  omega
                first
                  | exact ih nx hsz t0 hnx.symm
                  | exact ih nx hsz t0 hnx
      | elseIfStmt p e ch n =>
          cases n with
          | none =>
              simp only [Statement.toTsCode, Option.some.injEq] at ht
              subst ht
              apply goodTree_tsCodeBuild
              intro t0 hmem
              simp only [List.mem_cons, List.mem_singleton,
                Option.some.injEq, List.not_mem_nil, or_false] at hmem
              rcases hmem with rfl | rfl
              · exact goodTree_expr e
              · apply goodTree_tsCodeArray
                intro t1 hm1
                obtain ⟨c2, hc2, he2⟩ := toTsCodeList_mem _ _ hm1
                have hsz : sizeOf c2 ≤ N := by
                  have h1 := List.sizeOf_lt_of_mem hc2
                  have h2 : sizeOf ch <
                      sizeOf (Statement.elseIfStmt p e ch none) := by
                    simp
                    omega
                  omega
                exact ih c2 hsz t1 he2
          | some nx =>
              simp only [Statement.toTsCode, Option.some.injEq] at ht
              subst ht
              apply goodTree_tsCodeBuild
              intro t0 hmem
              simp only [List.mem_cons, List.mem_singleton,
                Option.some.injEq, List.not_mem_nil, or_false] at hmem
              rcases hmem with rfl | rfl | hnx
              · exact goodTree_expr e
              · apply goodTree_tsCodeArray
                intro t1 hm1
                obtain ⟨c2, hc2, he2⟩ := toTsCodeList_mem _ _ hm1
                have hsz : sizeOf c2 ≤ N := by
                  have h1 := List.sizeOf_lt_of_mem hc2
                  have h2 : sizeOf ch <
                      sizeOf (Statement.elseIfStmt p e ch (some nx)) := by
                    simp
                    omega
                  omega
                exact ih c2 hsz t1 he2
              · have hsz : sizeOf nx ≤ N := by
                  have h2 : sizeOf nx <
                      sizeOf (Statement.elseIfStmt p e ch (some nx)) := by
                    simp
                    omega
                  omega
                first
                  | exact ih nx hsz t0 hnx.symm
                  | exact ih nx hsz t0 hnx
      | elseStmt p ch =>
          simp only [Statement.toTsCode, Option.some.injEq] at ht
          subst ht
          apply goodTree_tsCodeBuild
          intro t0 hmem
          simp only [List.mem_singleton, Option.some.injEq] at hmem
          subst hmem
          apply goodTree_tsCodeArray
          intro t1 hm1
          obtain ⟨c2, hc2, he2⟩ := toTsCodeList_mem _ _ hm1
          have hsz : sizeOf c2 ≤ N := by
            have h1 := List.sizeOf_lt_of_mem hc2
            have h2 : sizeOf ch < sizeOf (Statement.elseStmt p ch) := by
              simp
              try omega
            omega
          exact ih c2 hsz t1 he2
      | letStmt p n v =>
          cases v with
          | none =>
              simp only [Statement.toTsCode, Option.some.injEq] at ht
              subst ht
              apply goodTree_tsCodeBuild
              intro t0 hmem
              simp only [List.mem_singleton, Option.some.injEq] at hmem
              subst hmem
              exact goodTree_expr n
          | some w =>
              simp only [Statement.toTsCode, Option.some.injEq] at ht
              subst ht
              apply goodTree_tsCodeBuild
              intro t0 hmem
              simp only [List.mem_cons, List.mem_singleton,
                Option.some.injEq, List.not_mem_nil, or_false] at hmem
              rcases hmem with rfl | rfl
              · exact goodTree_expr n
              · exact goodTree_expr w
      | assign p n v =>
          simp only [Statement.toTsCode, Option.some.injEq] at ht
          subst ht
          apply goodTree_tsCodeBuild
          intro t0 hmem
          simp only [List.mem_cons, List.mem_singleton, Option.some.injEq,
            List.not_mem_nil, or_false] at hmem
          rcases hmem with rfl | rfl
          · exact goodTree_expr n
          · exact goodTree_expr v
      | param p n ty d =>
          cases d with
          | none =>
              simp only [Statement.toTsCode, Option.some.injEq] at ht
              subst ht
              apply goodTree_tsCodeBuild
              intro t0 hmem
              simp only [List.mem_cons, List.mem_singleton,
                Option.some.injEq, List.not_mem_nil, or_false] at hmem
              rcases hmem with rfl | rfl
              · exact goodTree_expr n
              · exact goodTree_expr ty
          | some w =>
              simp only [Statement.toTsCode, Option.some.injEq] at ht
              subst ht
              apply goodTree_tsCodeBuild
              intro t0 hmem
              simp only [List.mem_cons, List.mem_singleton,
                Option.some.injEq, List.not_mem_nil, or_false] at hmem
              rcases hmem with rfl | rfl | rfl
              · exact goodTree_expr n
              · exact goodTree_expr ty
              · exact goodTree_expr w
      | importStmt p e =>
          simp only [Statement.toTsCode, Option.some.injEq] at ht
          subst ht
          apply goodTree_tsCodeBuild
          intro t0 hmem
          simp only [List.mem_singleton, Option.some.injEq] at hmem
          subst hmem
          exact goodTree_expr e
      | defineSlot p n a =>
          cases a with
          | none =>
              simp only [Statement.toTsCode, Option.some.injEq] at ht
              subst ht
              apply goodTree_tsCodeBuild
              intro t0 hmem
              simp only [List.mem_singleton, Option.some.injEq] at hmem
              subst hmem
              exact goodTree_expr n
          | some w =>
              simp only [Statement.toTsCode, Option.some.injEq] at ht
              subst ht
              apply goodTree_tsCodeBuild
              intro t0 hmem
              simp only [List.mem_cons, List.mem_singleton,
                Option.some.injEq, List.not_mem_nil, or_false] at hmem
              rcases hmem with rfl | rfl
              · exact goodTree_expr n
              · exact goodTree_expr w
      | component p c pr main slots =>
          simp only [Statement.toTsCode, Option.some.injEq] at ht
          subst ht
          apply goodTree_tsCodeBuild
          intro t0 hmem
          simp only [List.mem_cons, List.mem_singleton, Option.some.injEq,
            List.not_mem_nil, or_false] at hmem
          rcases hmem with rfl | rfl | hmain | rfl
          · exact goodTree_expr c
          · exact goodTree_expr pr
          · have hsz : sizeOf main ≤ N := by
              have h2 : sizeOf main <
                  sizeOf (Statement.component p c pr main slots) := by
                simp
                omega
              omega
            first
              | exact ih main hsz t0 hmain.symm
              | exact ih main hsz t0 hmain
          · apply goodTree_tsCodeArray
            intro t1 hm1
            obtain ⟨c2, hc2, he2⟩ := toTsCodeList_mem _ _ hm1
            have hsz : sizeOf c2 ≤ N := by
              have h1 := List.sizeOf_lt_of_mem hc2
              have h2 : sizeOf slots <
                  sizeOf (Statement.component p c pr main slots) := by
                simp
                try omega
              omega
            exact ih c2 hsz t1 he2
      | componentMainSlot p ch =>
          simp only [Statement.toTsCode, Option.some.injEq] at ht
          subst ht
          apply goodTree_tsCodeBuild
          intro t0 hmem
          simp only [List.mem_singleton, Option.some.injEq] at hmem
          subst hmem
          apply goodTree_tsCodeArray
          intro t1 hm1
          obtain ⟨c2, hc2, he2⟩ := toTsCodeList_mem _ _ hm1
          have hsz : sizeOf c2 ≤ N := by
            have h1 := List.sizeOf_lt_of_mem hc2
            have h2 : sizeOf ch <
                sizeOf (Statement.componentMainSlot p ch) := by
              simp
              try omega
            omega
          exact ih c2 hsz t1 he2
      | componentSlot p n pv ch =>
          cases pv with
          | none =>
              simp only [Statement.toTsCode, Option.some.injEq] at ht
              subst ht
              apply goodTree_tsCodeBuild
              intro t0 hmem
              simp only [List.mem_cons, List.mem_singleton,
                Option.some.injEq, List.not_mem_nil, or_false] at hmem
              rcases hmem with rfl | rfl
              · exact goodTree_expr n
              · apply goodTree_tsCodeArray
                intro t1 hm1
                obtain ⟨c2, hc2, he2⟩ := toTsCodeList_mem _ _ hm1
                have hsz : sizeOf c2 ≤ N := by
                  have h1 := List.sizeOf_lt_of_mem hc2
                  have h2 : sizeOf ch <
                      sizeOf (Statement.componentSlot p n none ch) := by
                    simp
                    try omega
                  omega
                exact ih c2 hsz t1 he2
          | some w =>
              simp only [Statement.toTsCode, Option.some.injEq] at ht
              subst ht
              apply goodTree_tsCodeBuild
              intro t0 hmem
              simp only [List.mem_cons, List.mem_singleton,
                Option.some.injEq, List.not_mem_nil, or_false] at hmem
              rcases hmem with rfl | rfl | rfl
              · exact goodTree_expr n
              · exact goodTree_expr w
              · apply goodTree_tsCodeArray
                intro t1 hm1
                obtain ⟨c2, hc2, he2⟩ := toTsCodeList_mem _ _ hm1
                have hsz : sizeOf c2 ≤ N := by
                  have h1 := List.sizeOf_lt_of_mem hc2
                  have h2 : sizeOf ch <
                      sizeOf (Statement.componentSlot p n (some w) ch) := by
                    simp
                    try omega
                  omega
                exact ih c2 hsz t1 he2

/-- Claim C1: in the flattened form of every fragment tree built from a
statement, each mapped entry points back at a mapped childless descendant
of the tree, which is exactly an expression fragment with some parent
offset: the substring of the generated output at the half-open interval
from generatedOffset of length length is precisely the expression's raw
text, the entry's sourceOffset is the expression's source start and its
length is the raw text's length. Statement-level nodes, which the builder
always creates with shouldBeMapped false, never contribute entries; the
re-basing of nested entries by the generated offset of each child's text
is the loop invariant established in mappedLoop_entries. -/
theorem C1_mapped_offsets (s : Statement) (t : TsCode)
    (ht : Statement.toTsCode s = some t) :
    ∀ e ∈ (TsCode.toMappedString t).1,
      ∃ d, TsCode.Descendant d t ∧ d.shouldBeMapped = true ∧
        d.children = [] ∧
        ∃ ex po, d = (TsCodeExpression.toTsCode ex).setParentOffset po ∧
          e.sourceOffset = ex.position.start ∧
          e.length = ex.value.length ∧
          e.generatedOffset + e.length ≤
            (TsCode.toMappedString t).2.length ∧
          ((TsCode.toMappedString t).2.drop e.generatedOffset).take
            e.length = ex.value := by
  intro e he
  obtain ⟨d, hdesc, hmap, hmatch⟩ :=
    toMappedString_entries (sizeOf t) t (Nat.le_refl _) e he
  have hgood := toTsCode_goodTree (sizeOf s) s (Nat.le_refl _) t ht
  have hleaf : d.children = [] := hgood d (Or.inr hdesc) hmap
  have hms := toMappedString_leaf hleaf
  obtain ⟨h1, h2, h3, h4⟩ := hmatch
  refine ⟨d, hdesc, hmap, hleaf, ?_⟩
  cases d with
  | mk so m po ch lit =>
      simp only [TsCode.children] at hleaf
      subst hleaf
      simp only [TsCode.shouldBeMapped] at hmap
      subst hmap
      refine ⟨⟨⟨so, 0, so + lit.length⟩, lit⟩, po, rfl, h1, ?_, h3, ?_⟩
      · rw [h2, hms]
        rfl
      · rw [h4, hms]
        rfl

/-- Witness for C1: the inline expression fragment tree of x plus one at
source offset three flattens to the String call with the single entry
3, 7, 5 pointing at the raw expression text. -/
theorem C1_mapped_offsets_witness :
    ∃ d, TsCode.Descendant d (.mk 0 false 0
        [.mk 3 true 7 [] "x + 1".toList] "String()".toList) ∧
      d.shouldBeMapped = true ∧ d.children = [] ∧
      ∃ ex po, d = (TsCodeExpression.toTsCode ex).setParentOffset po ∧
        (⟨3, 7, 5⟩ : MapItem).sourceOffset = ex.position.start ∧
        (⟨3, 7, 5⟩ : MapItem).length = ex.value.length ∧
        (⟨3, 7, 5⟩ : MapItem).generatedOffset +
            (⟨3, 7, 5⟩ : MapItem).length ≤
          (TsCode.toMappedString (.mk 0 false 0
            [.mk 3 true 7 [] "x + 1".toList] "String()".toList)).2.length ∧
        ((TsCode.toMappedString (.mk 0 false 0
            [.mk 3 true 7 [] "x + 1".toList] "String()".toList)).2.drop
          (⟨3, 7, 5⟩ : MapItem).generatedOffset).take
            (⟨3, 7, 5⟩ : MapItem).length = ex.value :=
  C1_mapped_offsets
    (.inlineTsCode ⟨0, 0, 9⟩ ⟨⟨3, 0, 7⟩, "x + 1".toList⟩)
    (.mk 0 false 0 [.mk 3 true 7 [] "x + 1".toList] "String()".toList)
    (by rw [Statement.toTsCode]
        rfl)
    ⟨3, 7, 5⟩
    (by simp [TsCode.toMappedString, TsCode.mappedLoop, jsSlice,
      TsCode.parentOffset, TsCode.shouldBeMapped, TsCode.sourceOffset,
      TsCode.literal])

/-- Claim C10: parse terminates for every finite input. With fuel at
least four times the input length plus three the model never reports fuel
exhaustion, so a statement list or a genuine ParserError is produced; and
every parseOnce call entered before the end of input either fails or
strictly advances the cursor, which is the progress argument behind the
bound. -/
theorem C10_parse_terminates :
    (∀ (code : List Char) (fuel : Nat), 4 * code.length + 3 ≤ fuel →
      (∃ statements, parse code fuel = .ok statements) ∨
      (∃ e, parse code fuel = .error e ∧ e ≠ PErr.fuelExhausted)) ∧
    (∀ (fuel : Nat) (aI aD aP aS : Bool) (st : PState) (s : Statement)
      (st' : PState), st.isAtEnd = false →
      parseOnce fuel aI aD aP aS st = .ok (s, st') →
      st.index < st'.index) := by
  constructor
  · intro code fuel hf
    cases hp : parse code fuel with
    | ok L => exact Or.inl ⟨L, rfl⟩
    | error e =>
        refine Or.inr ⟨e, rfl, ?_⟩
        intro he
        subst he
        exact parse_ne_fuel hf hp
  · intro fuel aI aD aP aS st s st' hend h
    unfold parseOnce at h
    have h1 := parseOnceLoop_mono h
    have hlt : st.index < st.code.length := by
      have := mt (PState.isAtEnd_iff st).2 (by simp [hend])
      omega
    rcases Nat.lt_or_ge st.index st'.index with hlt2 | hge
    · exact hlt2
    · have heqi : st'.index = st.index := by
        have := h1.2.1
        omega
      rcases h1.2.2 heqi with hc | hc
      · simp at hc
      · omega

/-- Witness for C10: the single-character input x parses with the stated
fuel bound, and the parseOnce progress part applies at that input. -/
theorem C10_parse_terminates_witness :
    ((∃ statements, parse ['x'] 7 = .ok statements) ∨
      (∃ e, parse ['x'] 7 = .error e ∧ e ≠ PErr.fuelExhausted)) ∧
    ((⟨['x'], 0, 0⟩ : PState).index < (⟨['x'], 1, 0⟩ : PState).index) :=
  ⟨C10_parse_terminates.1 ['x'] 7 (by decide),
   C10_parse_terminates.2 10 true true true false ⟨['x'], 0, 0⟩
     (.text ⟨0, 0, 1⟩ ['x']) ⟨['x'], 1, 0⟩ (by decide) rfl⟩

/-- Claim C9: every assign statement carries the public name
StatementName.LetStatement rather than AssignStatement, its plain object
reports type AssignStatement, and no statement at all, in particular none
produced by parse, carries the name AssignStatement. -/
theorem C9_assign_name_mismatch :
    (∀ (p : PositionRange) (n v : TsCodeExpression),
      (Statement.assign p n v).name = .LetStatement ∧
      (Statement.assign p n v).name ≠ .AssignStatement ∧
      ∃ o, Statement.toObject (.assign p n v) = some o ∧
        o.objType = .AssignStatement) ∧
    (∀ s : Statement, s.name ≠ .AssignStatement) ∧
    (∀ (code : List Char) (fuel : Nat) (L : List Statement),
      parse code fuel = .ok L → ∀ s ∈ L, s.name ≠ .AssignStatement) := by
  refine ⟨?_, ?_, ?_⟩
  · intro p n v
    refine ⟨rfl, by simp [Statement.name], ⟨.assign n.value v.value, ?_, rfl⟩⟩
    simp [Statement.toObject]
  · intro s
    cases s <;> simp [Statement.name]
  · intro code fuel L _ s _
    cases s <;> simp [Statement.name]

/-- Witness for C9: the parse of an assign directive produces a statement
whose name is not AssignStatement. -/
theorem C9_assign_name_mismatch_witness :
    (Statement.assign ⟨0, 0, 12⟩ ⟨⟨8, 0, 9⟩, ['x']⟩
      ⟨⟨10, 0, 11⟩, ['1']⟩).name ≠ .AssignStatement :=
  C9_assign_name_mismatch.2.2 "@assign(x=1)".toList 100
    [.assign ⟨0, 0, 12⟩ ⟨⟨8, 0, 9⟩, ['x']⟩ ⟨⟨10, 0, 11⟩, ['1']⟩] rfl
    (.assign ⟨0, 0, 12⟩ ⟨⟨8, 0, 9⟩, ['x']⟩ ⟨⟨10, 0, 11⟩, ['1']⟩)
    (by simp)

/-- Claim C3 (refuting evidence): the escape branches of the
text-accumulation loop advance the cursor without appending anything, so
a backslash-brace-brace and a backslash-at sequence are dropped from the
produced Text statement entirely instead of leaving a literal brace pair
or at sign: the inputs below yield the texts ab and cd. The escapes do
prevent opening an expression or a directive, as the single Text result
shows. -/
theorem C3_escape_drops_literal :
    parse "a\\\x7b\x7bb".toList 100 = .ok [.text ⟨0, 0, 5⟩ "ab".toList] ∧
    parse "c\\@d".toList 100 = .ok [.text ⟨0, 0, 4⟩ "cd".toList] :=
  ⟨rfl, rfl⟩

/-- Counterexample for C5: an escaped inline opener followed by two
hyphens is not discarded as a comment: the parse produces a raw inline
statement whose expression is the hyphen-delimited text, because the
comment check reads the character two past the cursor, which for the
escaped opener is still the second brace. -/
theorem C5_inline_comment_counterexample :
    parse "!\x7b\x7b--c--\x7d\x7d".toList 100 =
      .ok [.inlineTsCode ⟨0, 0, 10⟩ ⟨⟨3, 0, 8⟩, "--c--".toList⟩] := rfl

/-- Claim C5 as amended: only a plain brace-brace opener immediately
followed by two hyphens discards the block up to the comment closer, with
no statement produced for it: parsing continues right after the closer
with the pending accumulator unchanged; an exclamation-brace-brace opener
followed by two hyphens instead parses as a raw inline-expression
statement. -/
theorem C5_comment_discard_amended :
    (∀ (fuel : Nat) (aI aD aP aS : Bool) (asi asl : Nat)
      (st st1 : PState),
      st.currentChar = some '\x7b' → st.peek 1 = some '\x7b' →
      st.peek 2 = some '-' → st.peek 3 = some '-' →
      skipInlineComment fuel st = .ok st1 →
      parseOnceLoop (fuel + 1) aI aD aP aS asi asl [] st =
        parseOnceLoop fuel aI aD aP aS asi asl [] st1) ∧
    (parse "\x7b\x7b--c--\x7d\x7d".toList 100 = .ok [.text ⟨0, 0, 9⟩ []]) ∧
    (parse "!\x7b\x7b--c--\x7d\x7d".toList 100 =
      .ok [.inlineTsCode ⟨0, 0, 10⟩ ⟨⟨3, 0, 8⟩, "--c--".toList⟩]) := by
  refine ⟨?_, rfl, rfl⟩
  intro fuel aI aD aP aS asi asl st st1 hc hp1 hp2 hp3 hcm
  show (parserFns (fuel + 1)).parseOnceLoop aI aD aP aS asi asl [] st = _
  simp only [parserFns, parserFnsStep, hc]
  rw [if_neg (fun hand => absurd hand.1 (by decide))]
  rw [if_pos (Or.inl ⟨by trivial, hp1⟩)]
  rw [if_neg (by simp)]
  rw [if_pos ⟨hp2, hp3⟩]
  rw [hcm]
  rfl

/-- Witness for the amended C5: a concrete comment block is transparent
to the surrounding parse. -/
theorem C5_comment_discard_amended_witness :
    parseOnceLoop 51 true true true false 0 0 []
      ⟨"\x7b\x7b--c--\x7d\x7dx".toList, 0, 0⟩ =
    parseOnceLoop 50 true true true false 0 0 []
      ⟨"\x7b\x7b--c--\x7d\x7dx".toList, 9, 0⟩ :=
  C5_comment_discard_amended.1 50 true true true false 0 0
    ⟨"\x7b\x7b--c--\x7d\x7dx".toList, 0, 0⟩
    ⟨"\x7b\x7b--c--\x7d\x7dx".toList, 9, 0⟩ rfl rfl rfl rfl rfl

/-- Counterexample for C4: a component slot named main parses without any
reserved-name error and produces the slot statement, because
makeComponentSlotStatement never checks the scanned name. -/
theorem C4_slot_main_counterexample :
    parse "@component(a,b)@slot(main)@end@end".toList 300 =
      .ok [.component ⟨0, 0, 34⟩ ⟨⟨11, 0, 12⟩, ['a']⟩ ⟨⟨13, 0, 14⟩, ['b']⟩
        (.componentMainSlot ⟨0, 0, 34⟩ [])
        [.componentSlot ⟨15, 0, 30⟩ ⟨⟨21, 0, 25⟩, "main".toList⟩ none []]] :=
  rfl

/-- Claim C4 as amended: a defslot whose scanned name is main always
raises the reserved-slot-name error and never produces a statement, while
a component slot named main is not checked and parses successfully. -/
theorem C4_defslot_main_amended :
    (∀ (fuel si sl : Nat) (st st1 : PState) (vp : ValuePosition)
      (ctrl : List Char) (st2 : PState),
      st.consume '(' = .ok st1 →
      skipUntilAndWith fuel st1 [[':'], [')']] =
        .ok (vp, ctrl, st2) →
      vp.value = "main".toList →
      makeDefineSlotStatement (fuel + 1) si sl st =
        .error (.slotDefinitionNamedMain vp.position)) ∧
    (parse "@component(a,b)@slot(main)@end@end".toList 300 =
      .ok [.component ⟨0, 0, 34⟩ ⟨⟨11, 0, 12⟩, ['a']⟩ ⟨⟨13, 0, 14⟩, ['b']⟩
        (.componentMainSlot ⟨0, 0, 34⟩ [])
        [.componentSlot ⟨15, 0, 30⟩ ⟨⟨21, 0, 25⟩, "main".toList⟩ none
          []]]) := by
  refine ⟨?_, rfl⟩
  intro fuel si sl st st1 vp ctrl st2 hcons heq hmain
  simp [makeDefineSlotStatement, hcons, heq, hmain]

/-- Witness for the amended C4: the reserved-name error on a concrete
defslot argument list. -/
theorem C4_defslot_main_amended_witness :
    makeDefineSlotStatement 21 0 0 ⟨"(main)".toList, 0, 0⟩ =
      .error (.slotDefinitionNamedMain ⟨1, 0, 5⟩) :=
  C4_defslot_main_amended.1 20 0 0 ⟨"(main)".toList, 0, 0⟩
    ⟨"(main)".toList, 1, 0⟩ ⟨"main".toList, ⟨1, 0, 5⟩⟩ ")".toList
    ⟨"(main)".toList, 6, 0⟩ rfl rfl rfl

/-- Claim C7 (refuting evidence): toObject of a parsed each statement
copies the loop-variable text into both the variable and the iterator
field, so for each x in y the object reports iterator x instead of the
parsed iterator text y; End statements are correctly omitted: their
toObject is null and childrenToObject drops them. -/
theorem C7_each_object_fields :
    parse "@each(x in y)@end".toList 100 =
      .ok [.each ⟨0, 0, 17⟩ ⟨⟨11, 0, 12⟩, ['y']⟩ ⟨⟨6, 0, 7⟩, ['x']⟩ []] ∧
    Statement.toObject
        (.each ⟨0, 0, 17⟩ ⟨⟨11, 0, 12⟩, ['y']⟩ ⟨⟨6, 0, 7⟩, ['x']⟩ []) =
      some (.each ['x'] ['x'] []) ∧
    Statement.toObject (.endStmt ⟨0, 0, 0⟩) = none ∧
    (∀ (p : PositionRange) (ch : List Statement),
      Statement.childrenToObject (.endStmt p :: ch) =
        Statement.childrenToObject ch) := by
  refine ⟨rfl, ?_, ?_, ?_⟩
  · simp [Statement.toObject, Statement.childrenToObject]
  · simp [Statement.toObject]
  · intro p ch
    simp [Statement.childrenToObject, Statement.toObject]

/-- Counterexample for C8: the escaped inline-expression statement emits
its append through the external escaping call without any line marker in
front. -/
theorem C8_safe_inline_no_marker_counterexample :
    Statement.toCompiledString (.inlineSafeTsCode ⟨0, 2, 9⟩
        ⟨⟨3, 2, 7⟩, ['x']⟩) =
      "out += $api.safeString(String(x))".toList ∧
    (Statement.toCompiledString (.inlineSafeTsCode ⟨0, 2, 9⟩
        ⟨⟨3, 2, 7⟩, ['x']⟩)).take 8 ≠ "$line = ".toList := by
  constructor
  · simp [Statement.toCompiledString]
  · intro h
    have h2 : Statement.toCompiledString (.inlineSafeTsCode ⟨0, 2, 9⟩
        ⟨⟨3, 2, 7⟩, ['x']⟩) =
        "out += $api.safeString(String(x))".toList := by
      simp [Statement.toCompiledString]
    rw [h2] at h
    exact absurd h (by decide)

/-- Claim C8 as amended: the raw inline expression, each, if, elseif,
else, let and assign statements emit a line marker holding the one-based
source line (the zero-based lineStart plus one) ahead of their code; the
escaped inline-expression statement emits its append with no marker, and
param, import, defslot and end contribute no render-time code at all. -/
theorem C8_line_markers_amended :
    (∀ (line : Nat) (cs : List Char),
      setCompiledStringLine line cs =
        "$line = ".toList ++ (Nat.repr (line + 1)).toList ++
          "\n\t".toList ++ cs) ∧
    (∀ (p : PositionRange) (e : TsCodeExpression),
      Statement.toCompiledString (.inlineTsCode p e) =
        setCompiledStringLine p.lineStart
          ("out += String(".toList ++ e.value ++ ")".toList)) ∧
    (∀ (p : PositionRange) (e : TsCodeExpression),
      Statement.toCompiledString (.inlineSafeTsCode p e) =
        "out += $api.safeString(String(".toList ++ e.value ++
          "))".toList) ∧
    (∀ (p : PositionRange) (it v : TsCodeExpression)
      (ch : List Statement), ∃ rest,
      Statement.toCompiledString (.each p it v ch) =
        setCompiledStringLine p.lineStart rest) ∧
    (∀ (p : PositionRange) (e : TsCodeExpression) (ch : List Statement)
      (n : Option Statement), ∃ rest,
      Statement.toCompiledString (.ifStmt p e ch n) =
        setCompiledStringLine p.lineStart rest) ∧
    (∀ (p : PositionRange) (e : TsCodeExpression) (ch : List Statement)
      (n : Option Statement), ∃ rest,
      Statement.toCompiledString (.elseIfStmt p e ch n) =
        setCompiledStringLine p.lineStart rest) ∧
    (∀ (p : PositionRange) (ch : List Statement), ∃ rest,
      Statement.toCompiledString (.elseStmt p ch) =
        setCompiledStringLine p.lineStart rest) ∧
    (∀ (p : PositionRange) (n : TsCodeExpression)
      (v : Option TsCodeExpression), ∃ rest,
      Statement.toCompiledString (.letStmt p n v) =
        setCompiledStringLine p.lineStart rest) ∧
    (∀ (p : PositionRange) (n v : TsCodeExpression), ∃ rest,
      Statement.toCompiledString (.assign p n v) =
        setCompiledStringLine p.lineStart rest) ∧
    (∀ (p : PositionRange) (n t : TsCodeExpression)
      (d : Option TsCodeExpression),
      Statement.toCompiledString (.param p n t d) = [] ∧
      Statement.toCompiledString (.importStmt p n) = [] ∧
      Statement.toCompiledString (.defineSlot p n (some t)) = [] ∧
      Statement.toCompiledString (.endStmt p) = []) := by
  refine ⟨?_, ?_, ?_, ?_, ?_, ?_, ?_, ?_, ?_, ?_⟩
  · intro line cs
    rfl
  · intro p e
    simp [Statement.toCompiledString]
  · intro p e
    simp [Statement.toCompiledString]
  · intro p it v ch
    refine ⟨"for (const ".toList ++ v.value ++ " of ".toList ++ it.value ++
      ") \x7b".toList ++ Statement.childrenToCompiledString ch ++
      "\x7d".toList, ?_⟩
    rw [Statement.toCompiledString]
  · intro p e ch n
    refine ⟨"if (".toList ++ e.value ++ ") \x7b".toList ++
      Statement.childrenToCompiledString ch ++ "\x7d".toList ++
      Statement.nextToCompiledString n, ?_⟩
    rw [Statement.toCompiledString]
  · intro p e ch n
    refine ⟨"elseif (".toList ++ e.value ++ ") \x7b".toList ++
      Statement.childrenToCompiledString ch ++ "\x7d".toList ++
      Statement.nextToCompiledString n, ?_⟩
    rw [Statement.toCompiledString]
  · intro p ch
    refine ⟨"else \x7b".toList ++ Statement.childrenToCompiledString ch ++
      "\x7d".toList, ?_⟩
    rw [Statement.toCompiledString]
  · intro p n v
    refine ⟨"let ".toList ++ n.value ++
      (match v with
       | none => []
       | some w => " = ".toList ++ w.value), ?_⟩
    cases v <;> simp [Statement.toCompiledString]
  · intro p n v
    refine ⟨n.value ++ " = ".toList ++ v.value, ?_⟩
    rw [Statement.toCompiledString]
  · intro p n t d
    refine ⟨?_, ?_, ?_, ?_⟩ <;> simp [Statement.toCompiledString]

end Mist
